import Mathlib

/-!
# Storage miner deal engine (`protocol/storage/miner.go`)

A shallow embedding of the payment validator, the proposal entry points and the
deal store of the storage miner, followed by theorems about them.

Conventions of the embedding.

* Go's `error` results are `Except`: `.ok` is the `nil` error.
* The collaborators the miner only reaches through an interface (porcelain API,
  node, datastore, stream) are the fields of `Env`: each field is the answer the
  collaborator gives, so every theorem quantifies over all collaborators.
* `uint64` values are natural numbers; the one signed conversion of the source,
  `int64(p.Duration)`, is `int64` below, with its wrap-around.
* The types `types.AttoFIL`, `types.BlockHeight` and `types.BytesAmount` are
  declared outside `src/` and modelled from the spec: an amount `in base-unit
  tokens` and a block height are natural numbers of any size; their products
  with a `big.Int` (`MulBigInt`) and their differences (`Sub`) are integers and
  may be negative. A `size in bytes` is read by the source only through
  `Uint64()`, and is identified with that unsigned value.
* Goroutines started with `go` are recorded in `Miner.workers`, in start order.
-/

set_option autoImplicit false

namespace Storage

/-! ## Data model -/

/-- Modelled from the spec: `address.Address` is declared outside `src/`; an
account address, identified with the text `String()` prints. -/
abbrev Address := String

/-- Modelled from the spec: `cid.Cid` is declared outside `src/`; a content
identifier, identified with its `String()` form. -/
structure Cid where
  key : String
  deriving DecidableEq, Repr

/-- The zero value of `cid.Cid`, what a composite literal leaves in an omitted
`ProposalCid` field. -/
def Cid.Undef : Cid := ⟨""⟩

/-- Modelled from the spec: `types.ChannelID` is declared outside `src/`; the
`opaque channel identifier`, identified with its `KeyString()`. -/
structure ChannelID where
  KeyString : String
  deriving DecidableEq, Repr

/-- Raw bytes (`[]byte`). -/
abbrev Bytes := List Nat

/-- Modelled from the spec: `types.Signature` is declared outside `src/`; the
source builds it from a string literal. -/
abbrev Signature := String

/-- Modelled from the spec: the payment voucher of `paymentbroker`, declared
outside `src/`; the fields the validator reads. `Amount` is a `types.AttoFIL`,
`ValidAt` a `types.BlockHeight`. -/
structure PaymentVoucher where
  Amount : Nat
  ValidAt : Nat
  Signature : Signature
  deriving DecidableEq, Repr

/-- Modelled from the spec: the payment channel of `paymentbroker`, declared
outside `src/`; the fields the validator reads. `Amount` is a `types.AttoFIL`,
`Eol` a `types.BlockHeight`. -/
structure PaymentChannel where
  Target : Address
  Amount : Nat
  Eol : Nat
  deriving DecidableEq, Repr

/-- The `Payment` section of a proposal. -/
structure PaymentInfo where
  Payer : Address
  Channel : ChannelID
  ChannelMsgCid : Cid
  Vouchers : List PaymentVoucher
  deriving DecidableEq, Repr

/-- Modelled from the spec: the deal proposal, declared outside `src/`. `Size` is
a pointer to a `types.BytesAmount` and may be `nil`; `TotalPrice` is a
`types.AttoFIL`; `Duration` is a `uint64`. -/
structure DealProposal where
  PieceRef : Cid
  Size : Option Nat
  TotalPrice : Nat
  Duration : Nat
  Payment : PaymentInfo
  deriving DecidableEq, Repr

/-- The deal states the source and the spec name. -/
inductive DealState where
  | Unknown
  | Rejected
  | Accepted
  | Staged
  | Posted
  | Failed
  deriving DecidableEq, Repr

/-- Proof data attached to a posted deal. -/
structure ProofInfo where
  SectorID : Nat
  CommR : Bytes
  CommD : Bytes
  deriving DecidableEq, Repr

/-- A deal response. Fields a composite literal omits hold their zero value. -/
structure DealResponse where
  State : DealState
  Message : String
  ProposalCid : Cid
  ProofInfo : Option ProofInfo
  Signature : Signature
  deriving DecidableEq, Repr

/-- The unit of durability: `{Proposal, Response}`. -/
structure storageDeal where
  Proposal : DealProposal
  Response : DealResponse
  deriving DecidableEq, Repr

/-! ## The registry of deals awaiting seal -/

/-- Assignment `m[c] = v` on a Go map. -/
def mapSet {α β : Type} [DecidableEq α] (m : α → Option β) (c : α) (v : β) : α → Option β :=
  fun x => if x = c then some v else m x

/-- Statement `delete(m, c)` on a Go map. -/
def mapDelete {α β : Type} [DecidableEq α] (m : α → Option β) (c : α) : α → Option β :=
  fun x => if x = c then none else m x

/-- Modelled from the spec: `sectorbuilder.SealedSectorMetadata` is declared
outside `src/`; the `seal metadata` of a sector, with the fields the source
reads. -/
structure SealedSectorMetadata where
  SectorID : Nat
  CommR : Bytes
  CommD : Bytes
  deriving DecidableEq, Repr

/-- One invocation of a callback of the registry: `onSuccess(dealCid, sector)`
or `onFail(dealCid, message)`. -/
inductive Callback where
  | onSuccess (dealCid : Cid) (sector : SealedSectorMetadata)
  | onFail (dealCid : Cid) (message : String)
  deriving DecidableEq, Repr

/-- Source `dealsAwaitingSealStruct`: the three maps. The callbacks `onSuccess`
and `onFail` are not fields: each operation returns the invocations it makes,
in order. -/
structure dealsAwaitingSealStruct where
  SectorsToDeals : Nat → Option (List Cid)
  SuccessfulSectors : Nat → Option SealedSectorMetadata
  FailedSectors : Nat → Option String

/-- The registry `loadDealsAwaitingSeal` builds when the datastore holds none. -/
def dealsAwaitingSealStruct.empty : dealsAwaitingSealStruct :=
  { SectorsToDeals := fun _ => none, SuccessfulSectors := fun _ => none,
    FailedSectors := fun _ => none }

/-- Source `dealsAwaitingSealStruct.add`. -/
def dealsAwaitingSealStruct.add (r : dealsAwaitingSealStruct) (sectorID : Nat) (dealCid : Cid) :
    dealsAwaitingSealStruct × List Callback :=
  match r.SuccessfulSectors sectorID with
  | some sector =>
    ({ r with SuccessfulSectors := mapDelete r.SuccessfulSectors sectorID },
      [.onSuccess dealCid sector])
  | none =>
    match r.FailedSectors sectorID with
    | some message =>
      ({ r with FailedSectors := mapDelete r.FailedSectors sectorID },
        [.onFail dealCid message])
    | none =>
      match r.SectorsToDeals sectorID with
      | some deals =>
        ({ r with SectorsToDeals := mapSet r.SectorsToDeals sectorID (deals ++ [dealCid]) }, [])
      | none =>
        ({ r with SectorsToDeals := mapSet r.SectorsToDeals sectorID [dealCid] }, [])

/-- The deals a `range` over `SectorsToDeals[sectorID]` visits: none when the
key is absent. -/
def dealsAwaitingSealStruct.dealsOf (r : dealsAwaitingSealStruct) (sectorID : Nat) : List Cid :=
  match r.SectorsToDeals sectorID with
  | some deals => deals
  | none => []

/-- Source `dealsAwaitingSealStruct.success`. -/
def dealsAwaitingSealStruct.success (r : dealsAwaitingSealStruct)
    (sector : SealedSectorMetadata) : dealsAwaitingSealStruct × List Callback :=
  let r1 := { r with SuccessfulSectors := mapSet r.SuccessfulSectors sector.SectorID sector }
  ({ r1 with SectorsToDeals := mapDelete r1.SectorsToDeals sector.SectorID },
    (r1.dealsOf sector.SectorID).map (fun dealCid => Callback.onSuccess dealCid sector))

/-- Source `dealsAwaitingSealStruct.fail`. -/
def dealsAwaitingSealStruct.fail (r : dealsAwaitingSealStruct) (sectorID : Nat)
    (message : String) : dealsAwaitingSealStruct × List Callback :=
  let r1 := { r with FailedSectors := mapSet r.FailedSectors sectorID message }
  ({ r1 with SectorsToDeals := mapDelete r1.SectorsToDeals sectorID },
    (r1.dealsOf sectorID).map (fun dealCid => Callback.onFail dealCid message))

/-- The `register` operation in the words of the specification: if
`successfulSectors[sectorId]` exists, invoke `onSuccess(dealId, metadata)` and
erase that entry; else if `failedSectors[sectorId]` exists, invoke
`onFail(dealId, message)` and erase that entry; else append `dealId` to
`sectorsToDeals[sectorId]`. -/
def registerSpec (r : dealsAwaitingSealStruct) (sectorId : Nat) (dealId : Cid) :
    dealsAwaitingSealStruct × List Callback :=
  if (r.SuccessfulSectors sectorId).isSome then
    (⟨r.SectorsToDeals, fun x => if x = sectorId then none else r.SuccessfulSectors x,
        r.FailedSectors⟩,
      (r.SuccessfulSectors sectorId).toList.map (fun metadata => .onSuccess dealId metadata))
  else if (r.FailedSectors sectorId).isSome then
    (⟨r.SectorsToDeals, r.SuccessfulSectors,
        fun x => if x = sectorId then none else r.FailedSectors x⟩,
      (r.FailedSectors sectorId).toList.map (fun message => .onFail dealId message))
  else
    (⟨fun x => if x = sectorId then some ((r.SectorsToDeals x).getD [] ++ [dealId])
        else r.SectorsToDeals x,
      r.SuccessfulSectors, r.FailedSectors⟩, [])

/-- A call of one of the three operations of the registry. -/
inductive RegistryOp where
  | add (sectorID : Nat) (dealCid : Cid)
  | success (sector : SealedSectorMetadata)
  | fail (sectorID : Nat) (message : String)
  deriving DecidableEq, Repr

/-- The call `op` on the registry `r`. -/
def RegistryOp.apply (r : dealsAwaitingSealStruct) : RegistryOp →
    dealsAwaitingSealStruct × List Callback
  | .add sectorID dealCid => r.add sectorID dealCid
  | .success sector => r.success sector
  | .fail sectorID message => r.fail sectorID message

/-- A sequence of calls on the registry, and the callback invocations they make
in order. -/
def runRegistry : List RegistryOp → dealsAwaitingSealStruct →
    dealsAwaitingSealStruct × List Callback
  | [], r => (r, [])
  | op :: ops, r =>
    ((runRegistry ops (op.apply r).1).1, (op.apply r).2 ++ (runRegistry ops (op.apply r).1).2)

/-- The metadata of a sealed sector 7. -/
def sector7 : SealedSectorMetadata := ⟨7, [1], [2]⟩

/-- The part of registry exclusivity the source keeps: a sector with deals
waiting in `SectorsToDeals` has no cached outcome. -/
def dealsAwaitingSealStruct.Exclusive (r : dealsAwaitingSealStruct) : Prop :=
  ∀ s, r.SectorsToDeals s ≠ none → r.SuccessfulSectors s = none ∧ r.FailedSectors s = none

/-! ## Collaborators -/

/-- What `ConfigGet` hands back as an `interface{}`: an `*types.AttoFIL`, or a
value of some other dynamic type. -/
inductive ConfigValue where
  | attoFIL (v : Nat)
  | other (repr : String)
  deriving DecidableEq, Repr

/-- The three outcomes `getPaymentChannel` distinguishes for `MessageWait`. -/
inductive WaitResult where
  | done
  | deadlineExceeded (text : String)
  | failed (text : String)
  deriving DecidableEq, Repr

/-- The system constants shared with clients, declared outside `src/`. -/
structure Constants where
  VoucherInterval : Nat
  ChannelExpiryInterval : Nat
  deriving DecidableEq, Repr

/-- The collaborators of the miner: each field is what the collaborator answers. -/
structure Env where
  /-- The call `porcelainAPI.ConfigGet`. -/
  ConfigGet : String → Except String ConfigValue
  /-- The call `porcelainAPI.ChainBlockHeight`. -/
  ChainBlockHeight : Except String Nat
  /-- The call `porcelainAPI.MessageWait` on the channel-creation message. -/
  MessageWait : Cid → WaitResult
  /-- The first return value of `porcelainAPI.MessageQuery` to the payment broker, method `ls`. -/
  MessageQueryLs : Address → Except String Bytes
  /-- The call `cbor.DecodeInto` on the channel map. -/
  DecodeChannels : Bytes → Except String (List (String × PaymentChannel))
  /-- The function `paymentbroker.VerifyVoucherSignature`. -/
  VerifyVoucherSignature : Address → ChannelID → Nat → Nat → Signature → Bool
  /-- Whether `node.SectorBuilder()` is non-nil. -/
  SectorBuilderAvailable : Bool
  /-- The function `convert.ToCid` on a proposal. -/
  ToCid : DealProposal → Except String Cid
  /-- The function `cbor.DumpObject` on `sm.deals[c]`, a pointer that is `nil` when the map has no record. -/
  DumpObject : Option storageDeal → Except String Bytes
  /-- The error of `dealsDs.Put`, `none` when the write succeeds. -/
  PutError : String → Bytes → Option String
  /-- The call `cbor.DecodeInto` on a stored deal record. -/
  DecodeDeal : Bytes → Except String storageDeal
  /-- The error of `dealsDs.Query` for a prefix, `none` when the query succeeds. -/
  QueryError : String → Option String
  /-- The error of `dag.FetchGraph` on a piece, `none` when the fetch succeeds. -/
  FetchGraph : Cid → Option String
  /-- The call `SectorBuilder().AddPiece` on `PieceInfo{Ref, Size}`: the sector id. -/
  AddPiece : Cid → Nat → Except String Nat
  /-- The call `json.Marshal` on the registry of deals awaiting seal. -/
  MarshalAwaitingSeal : dealsAwaitingSealStruct → Except String Bytes

/-- How the absent `String()` methods print amounts and heights. -/
structure Fmt where
  attoFIL : Nat → String
  blockHeight : Nat → String

/-! ## Errors of the payment validator -/

/-- The errors `validateDealPayment` returns, one constructor per `return`
site, carrying the values the message prints. -/
inductive PaymentError where
  /-- An error passed through unchanged from a collaborator. -/
  | external (text : String)
  | configType
  | noSize
  | priceTooLow (total expected asking : Nat)
  | waitTimeout (cause : String)
  | queryFailed (cause : String)
  | decodeFailed (cause : String)
  | channelNotFound (payer : Address) (channel : String)
  | notTarget (owner target : Address)
  | insufficientFunds (amount expected : Nat)
  | noBlockHeight
  | noVouchers
  | lateStart
  | invalidSignature
  | intervalTooHigh (validAt lastValidAt : Nat) (interval : Nat)
  | voucherAmountTooLow (amount : Nat) (validAt : Nat)
  | lastPaymentTooLow (amount total : Nat)
  | eolTooLow (eol expected : Nat)
  deriving DecidableEq, Repr

/-- The text `err.Error()` of a validator error. -/
def PaymentError.Error (f : Fmt) : PaymentError → String
  | .external text => text
  | .configType => "Could not retrieve storagePrice from config"
  | .noSize => "proposed deal has no size"
  | .priceTooLow total expected asking =>
      "proposed price (" ++ f.attoFIL total ++ ") is less than expected ("
        ++ f.attoFIL expected ++ ") given asking price of " ++ f.attoFIL asking
  | .waitTimeout cause => "Timeout waiting for payment channel: " ++ cause
  | .queryFailed cause => "Error getting payment channel for payer: " ++ cause
  | .decodeFailed cause => "Could not decode payment channels for payer: " ++ cause
  | .channelNotFound payer channel =>
      "could not find payment channel for payer " ++ payer ++ " and id " ++ channel
  | .notTarget owner target =>
      "miner account (" ++ owner ++ ") is not target of payment channel (" ++ target ++ ")"
  | .insufficientFunds amount expected =>
      "payment channel does not contain enough funds (" ++ f.attoFIL amount ++ " < "
        ++ f.attoFIL expected ++ ")"
  | .noBlockHeight => "could not get current block height"
  | .noVouchers => "deal proposal contains no payment vouchers"
  | .lateStart => "payments start after deal start interval"
  | .invalidSignature => "invalid signature in voucher"
  | .intervalTooHigh validAt lastValidAt interval =>
      "interval between vouchers too high (" ++ f.blockHeight validAt ++ " - "
        ++ f.blockHeight lastValidAt ++ " > " ++ toString interval ++ ")"
  | .voucherAmountTooLow amount validAt =>
      "voucher amount (" ++ f.attoFIL amount ++ ") less than expected for voucher valid at ("
        ++ f.blockHeight validAt ++ ")"
  | .lastPaymentTooLow amount total =>
      "last payment (" ++ f.attoFIL amount ++ ") does not cover total price ("
        ++ f.attoFIL total ++ ")"
  | .eolTooLow eol expected =>
      "payment channel eol (" ++ f.blockHeight eol ++ ") less than required eol ("
        ++ f.blockHeight expected ++ ")"

/-! ## The miner -/

/-- The arguments of one `go sm.generateAndSubmitPoSt(...)`. -/
structure PoStJob where
  provingPeriodStart : Nat
  provingPeriodEnd : Nat
  challengeSeed : Bytes
  commRs : List Bytes
  deriving DecidableEq, Repr

/-- The miner's state: the fields of `Miner` the embedded functions touch. The
function fields `proposalAcceptor` and `proposalRejector` are arguments of
`receiveStorageProposal` instead. -/
structure Miner where
  minerAddr : Address
  minerOwnerAddr : Address
  /-- The map `deals`, indexed by the cid of the proposal. -/
  deals : Cid → Option storageDeal
  /-- The content of the datastore `dealsDs`: its entries, each key once. -/
  dealsDs : List (String × Bytes)
  /-- The goroutines `processStorageDeal` started by `go` that have not run yet. -/
  workers : List Cid
  /-- The registry `dealsAwaitingSeal`. -/
  dealsAwaitingSeal : dealsAwaitingSealStruct := .empty
  /-- The field `postInProcess`, `none` for `nil`. -/
  postInProcess : Option Nat := none
  /-- The goroutines `generateAndSubmitPoSt` started by `go`, in start order. -/
  postWorkers : List PoStJob := []
  /-- Ghost state, read by no function: the state of every response stored in
  `deals`, with the cid it was stored under, in the order of the stores. -/
  stateLog : List (Cid × DealState) := []

/-- The store `sm.deals[c] = d`, or a write through the pointer `sm.deals[c]`
that leaves the record `d` there; the stored state is appended to the ghost
`stateLog`. -/
def Miner.storeDeal (sm : Miner) (c : Cid) (d : storageDeal) : Miner :=
  { sm with deals := mapSet sm.deals c d, stateLog := sm.stateLog ++ [(c, d.Response.State)] }

/-- The call `dealsDs.Put(key, value)` on the entries of a datastore: the entry
under `key` is replaced. -/
def dsPut (ds : List (String × Bytes)) (key : String) (value : Bytes) : List (String × Bytes) :=
  (key, value) :: ds.filter (fun e => e.1 ≠ key)

/-- Go's conversion `int64(d)` of a `uint64`: the two's-complement reading. -/
def int64 (d : Nat) : Int :=
  if d % 2 ^ 64 < 2 ^ 63 then ((d % 2 ^ 64 : Nat) : Int)
  else ((d % 2 ^ 64 : Nat) : Int) - 2 ^ 64

/-- Source `Miner.getStoragePrice`. -/
def getStoragePrice (env : Env) : Except PaymentError Nat :=
  match env.ConfigGet "mining.storagePrice" with
  | .error e => .error (.external e)
  | .ok (.attoFIL v) => .ok v
  | .ok (.other _) => .error .configType

/-- Source `Miner.getPaymentChannel`. -/
def getPaymentChannel (env : Env) (p : DealProposal) : Except PaymentError PaymentChannel :=
  match env.MessageWait p.Payment.ChannelMsgCid with
  | .deadlineExceeded text => .error (.waitTimeout text)
  | .failed text => .error (.external text)
  | .done =>
    match env.MessageQueryLs p.Payment.Payer with
    | .error e => .error (.queryFailed e)
    | .ok ret =>
      match env.DecodeChannels ret with
      | .error e => .error (.decodeFailed e)
      | .ok channels =>
        match channels.lookup p.Payment.Channel.KeyString with
        | none => .error (.channelNotFound p.Payment.Payer p.Payment.Channel.KeyString)
        | some channel => .ok channel

/-- The body of the voucher loop of `validateDealPayment` for one voucher `v`:
the three checks, and on success the new `lastValidAt`. -/
def checkVoucher (k : Constants) (env : Env) (p : DealProposal) (blockHeight : Nat)
    (lastValidAt : Nat) (v : PaymentVoucher) : Except PaymentError Nat :=
  if !env.VerifyVoucherSignature p.Payment.Payer p.Payment.Channel v.Amount v.ValidAt
      v.Signature then
    .error .invalidSignature
  else
    let expectedValidAt := lastValidAt + k.VoucherInterval
    if v.ValidAt > expectedValidAt then
      .error (.intervalTooHigh v.ValidAt lastValidAt k.VoucherInterval)
    else
      let lhs : Int := (v.Amount : Int) * int64 p.Duration
      let rhs : Int := (p.TotalPrice : Int) * ((v.ValidAt : Int) - (blockHeight : Int))
      if lhs < rhs then
        .error (.voucherAmountTooLow v.Amount v.ValidAt)
      else
        .ok v.ValidAt

/-- The voucher loop of `validateDealPayment`: `for _, v := range Vouchers`.
`lastValidAt = &v.ValidAt` hands the height of the voucher just checked to the
next iteration. -/
def checkVouchers (k : Constants) (env : Env) (p : DealProposal) (blockHeight : Nat) :
    Nat → List PaymentVoucher → Except PaymentError Nat
  | lastValidAt, [] => .ok lastValidAt
  | lastValidAt, v :: vs =>
    match checkVoucher k env p blockHeight lastValidAt v with
    | .error e => .error e
    | .ok next => checkVouchers k env p blockHeight next vs

/-- The price the validator expects: storage price * duration * bytes. -/
def expectedPrice (price : Nat) (p : DealProposal) (size : Nat) : Nat :=
  price * p.Duration * size

/-- Source `Miner.validateDealPayment`. -/
def validateDealPayment (k : Constants) (env : Env) (sm : Miner) (p : DealProposal) :
    Except PaymentError Unit :=
  match getStoragePrice env with
  | .error e => .error e
  | .ok price =>
    match p.Size with
    | none => .error .noSize
    | some size =>
      if p.TotalPrice < expectedPrice price p size then
        .error (.priceTooLow p.TotalPrice (expectedPrice price p size) price)
      else
        match getPaymentChannel env p with
        | .error e => .error e
        | .ok channel =>
          if channel.Target ≠ sm.minerOwnerAddr then
            .error (.notTarget sm.minerOwnerAddr channel.Target)
          else if channel.Amount < expectedPrice price p size then
            .error (.insufficientFunds channel.Amount (expectedPrice price p size))
          else
            match env.ChainBlockHeight with
            | .error _ => .error .noBlockHeight
            | .ok blockHeight =>
              match p.Payment.Vouchers with
              | [] => .error .noVouchers
              | first :: rest =>
                let expectedFirstPayment := blockHeight + k.VoucherInterval
                if first.ValidAt > expectedFirstPayment then
                  .error .lateStart
                else
                  match checkVouchers k env p blockHeight expectedFirstPayment
                      (first :: rest) with
                  | .error e => .error e
                  | .ok _ =>
                    let lastVoucher := (first :: rest).getLast (List.cons_ne_nil first rest)
                    if lastVoucher.Amount < p.TotalPrice then
                      .error (.lastPaymentTooLow lastVoucher.Amount p.TotalPrice)
                    else
                      let expectedEol := lastVoucher.ValidAt + k.ChannelExpiryInterval
                      if channel.Eol < expectedEol then
                        .error (.eolTooLow channel.Eol expectedEol)
                      else
                        .ok ()

/-! ## Deal store and proposal entry points -/

/-- The function `datastore.KeyWithNamespaces`: the namespaces joined under `/`. -/
def KeyWithNamespaces (namespaces : List String) : String :=
  "/" ++ String.intercalate "/" namespaces

/-- Source constant `minerDatastorePrefix`. -/
def minerDatastorePrefix : String := "miner"

/-- Errors wrapped by `errors.Wrap(err, message)` print as `message: err`. -/
def wrapError (err message : String) : String :=
  message ++ ": " ++ err

/-- Source `Miner.saveDeal`: the error, or the miner with the record written. -/
def saveDeal (env : Env) (sm : Miner) (proposalCid : Cid) : Except String Miner :=
  match env.DumpObject (sm.deals proposalCid) with
  | .error err => .error (wrapError err "Could not marshal storageDeal")
  | .ok marshalledDeal =>
    let key := KeyWithNamespaces [minerDatastorePrefix, proposalCid.key]
    match env.PutError key marshalledDeal with
    | some err => .error (wrapError err "could not save client storage deal")
    | none => .ok { sm with dealsDs := dsPut sm.dealsDs key marshalledDeal }

/-- Source `acceptProposal`: the returned pair `(*DealResponse, error)` and the
miner afterwards. -/
def acceptProposal (env : Env) (sm : Miner) (p : DealProposal) :
    Except String DealResponse × Miner :=
  if !env.SectorBuilderAvailable then
    (.error "Mining disabled, can not process proposal", sm)
  else
    match env.ToCid p with
    | .error err => (.error (wrapError err "failed to get cid of proposal"), sm)
    | .ok proposalCid =>
      let resp : DealResponse :=
        { State := .Accepted, Message := "", ProposalCid := proposalCid, ProofInfo := none,
          Signature := "signaturrreee" }
      let sm1 := sm.storeDeal proposalCid ⟨p, resp⟩
      match saveDeal env sm1 proposalCid with
      | .error err =>
        let failed : DealResponse :=
          { resp with State := .Failed,
                      Message := "Could not persist deal due to internal error" }
        (.error (wrapError err "failed to save miner deal"),
          sm1.storeDeal proposalCid ⟨p, failed⟩)
      | .ok sm2 => (.ok resp, { sm2 with workers := sm2.workers ++ [proposalCid] })

/-- Source `rejectProposal`. -/
def rejectProposal (env : Env) (sm : Miner) (p : DealProposal) (reason : String) :
    Except String DealResponse × Miner :=
  match env.ToCid p with
  | .error err => (.error (wrapError err "failed to get cid of proposal"), sm)
  | .ok proposalCid =>
    let resp : DealResponse :=
      { State := .Rejected, Message := reason, ProposalCid := proposalCid, ProofInfo := none,
        Signature := "signaturrreee" }
    let sm1 := sm.storeDeal proposalCid ⟨p, resp⟩
    match saveDeal env sm1 proposalCid with
    | .error err => (.error (wrapError err "failed to save miner deal"), sm1)
    | .ok sm2 => (.ok resp, sm2)

/-- The type of the fields `proposalAcceptor` of `Miner`. -/
abbrev Acceptor := Miner → DealProposal → Except String DealResponse × Miner

/-- The type of the field `proposalRejector` of `Miner`. -/
abbrev Rejector := Miner → DealProposal → String → Except String DealResponse × Miner

/-- Source `Miner.receiveStorageProposal`, the entry point of the storage protocol. -/
def receiveStorageProposal (k : Constants) (env : Env) (f : Fmt) (proposalAcceptor : Acceptor)
    (proposalRejector : Rejector) (sm : Miner) (p : DealProposal) :
    Except String DealResponse × Miner :=
  match validateDealPayment k env sm p with
  | .error err => proposalRejector sm p (err.Error f)
  | .ok () => proposalAcceptor sm p

/-- Source `Miner.Query`. -/
def Query (sm : Miner) (c : Cid) : DealResponse :=
  match sm.deals c with
  | none =>
    { State := .Unknown, Message := "no such deal", ProposalCid := Cid.Undef, ProofInfo := none,
      Signature := "" }
  | some d => d.Response

/-- A make-deal stream: what `ReadMsg` decodes from it, the responses handed to
`WriteMsg` so far, and whether `Close` has run. -/
structure Stream where
  incoming : Except String DealProposal
  written : List DealResponse
  closed : Bool

/-- Source `Miner.handleMakeDeal`. -/
def handleMakeDeal (k : Constants) (env : Env) (f : Fmt) (proposalAcceptor : Acceptor)
    (proposalRejector : Rejector) (sm : Miner) (s : Stream) : Miner × Stream :=
  match s.incoming with
  | .error _ => (sm, { s with closed := true })
  | .ok proposal =>
    match receiveStorageProposal k env f proposalAcceptor proposalRejector sm proposal with
    | (.error _, sm1) => (sm1, { s with closed := true })
    | (.ok resp, sm1) => (sm1, { s with written := s.written ++ [resp], closed := true })

/-! ## The scenarios of the specification -/

/-- The constants used where a scenario needs concrete ones. -/
def scenarioConstants : Constants := ⟨1000, 2000⟩

/-- The proposal of the happy-path scenario, its vouchers signed `valid`. -/
def scenarioProposal : DealProposal :=
  { PieceRef := ⟨"piece"⟩, Size := some 1024, TotalPrice := 1000000, Duration := 100,
    Payment :=
      { Payer := "payer", Channel := ⟨"channel"⟩, ChannelMsgCid := ⟨"create-channel"⟩,
        Vouchers := [⟨333334, 10, "valid"⟩, ⟨666667, 20, "valid"⟩, ⟨1000000, 30, "valid"⟩] } }

/-- The collaborators of the happy-path scenario at a given offered price: the
channel of the scenario, current height 0, a signature check that accepts
exactly `valid`, a sector builder, and a datastore that stores. -/
def scenarioEnv (k : Constants) (price : Nat) : Env :=
  { ConfigGet := fun _ => .ok (.attoFIL price),
    ChainBlockHeight := .ok 0,
    MessageWait := fun _ => .done,
    MessageQueryLs := fun _ => .ok [],
    DecodeChannels := fun _ =>
      .ok [("channel", ⟨"minerOwner", 1000000, 30 + k.ChannelExpiryInterval⟩)],
    VerifyVoucherSignature := fun _ _ _ _ signature => signature == "valid",
    SectorBuilderAvailable := true,
    ToCid := fun _ => .ok ⟨"proposal"⟩,
    DumpObject := fun _ => .ok [],
    PutError := fun _ _ => none,
    DecodeDeal := fun _ => .error "not a deal record",
    QueryError := fun _ => none,
    FetchGraph := fun _ => none,
    AddPiece := fun _ _ => .ok 42,
    MarshalAwaitingSeal := fun _ => .ok [] }

/-- A miner owned by `minerOwner` with no deals yet. -/
def scenarioMiner : Miner :=
  { minerAddr := "miner", minerOwnerAddr := "minerOwner", deals := fun _ => none,
    dealsDs := [], workers := [] }

/-- Printing of amounts and heights in decimal. -/
def decimalFmt : Fmt :=
  { attoFIL := fun n => toString n, blockHeight := fun n => toString n }

/-- The eight conditions of the validator in the words of the specification,
for a proposal `p`, offered price `price`, channel `channel` and current height
`blockHeight`. The linearity test uses the unsigned `Duration`. -/
def ListedConditions (k : Constants) (env : Env) (sm : Miner) (p : DealProposal)
    (price : Nat) (channel : PaymentChannel) (blockHeight : Nat) : Prop :=
  p.Size ≠ none
  ∧ (∀ size ∈ p.Size, price * p.Duration * size ≤ p.TotalPrice)
  ∧ (channel.Target = sm.minerOwnerAddr
      ∧ ∀ size ∈ p.Size, price * p.Duration * size ≤ channel.Amount)
  ∧ p.Payment.Vouchers ≠ []
  ∧ (∀ first ∈ p.Payment.Vouchers.head?, first.ValidAt ≤ blockHeight + k.VoucherInterval)
  ∧ ((∀ v ∈ p.Payment.Vouchers,
        env.VerifyVoucherSignature p.Payment.Payer p.Payment.Channel v.Amount v.ValidAt
          v.Signature = true)
      ∧ List.Chain' (fun a b : PaymentVoucher => b.ValidAt ≤ a.ValidAt + k.VoucherInterval)
          p.Payment.Vouchers
      ∧ ∀ v ∈ p.Payment.Vouchers,
          (p.TotalPrice : Int) * ((v.ValidAt : Int) - (blockHeight : Int))
            ≤ (v.Amount : Int) * (p.Duration : Int))
  ∧ (∀ final ∈ p.Payment.Vouchers.getLast?, p.TotalPrice ≤ final.Amount)
  ∧ (∀ final ∈ p.Payment.Vouchers.getLast?,
      final.ValidAt + k.ChannelExpiryInterval ≤ channel.Eol)

instance (k : Constants) (env : Env) (sm : Miner) (p : DealProposal) (price : Nat)
    (channel : PaymentChannel) (blockHeight : Nat) :
    Decidable (ListedConditions k env sm p price channel blockHeight) := by
  unfold ListedConditions
  infer_instance

/-- A proposal of one byte for `2^63` blocks, paid in full by one voucher valid
at height 0. -/
def longProposal : DealProposal :=
  { PieceRef := ⟨"piece"⟩, Size := some 1, TotalPrice := 2 ^ 63, Duration := 2 ^ 63,
    Payment :=
      { Payer := "payer", Channel := ⟨"channel"⟩, ChannelMsgCid := ⟨"create-channel"⟩,
        Vouchers := [⟨2 ^ 63, 0, "valid"⟩] } }

/-- The channel backing `longProposal`. -/
def longChannel : PaymentChannel := ⟨"minerOwner", 2 ^ 63, 2000⟩

/-- The collaborators for `longProposal`: offered price 1, current height 0. -/
def longEnv : Env :=
  { scenarioEnv scenarioConstants 1 with
    DecodeChannels := fun _ => .ok [("channel", longChannel)] }

/-- A free deal of one byte for `2^63` blocks: total price 0 and one voucher of
amount 0 valid at height 0. -/
def freeLongProposal : DealProposal :=
  { longProposal with
    TotalPrice := 0,
    Payment := { longProposal.Payment with Vouchers := [⟨0, 0, "valid"⟩] } }

/-- The collaborators of the happy-path scenario at offered price 9, with no
sector builder (`node.SectorBuilder()` is `nil`). -/
def noBuilderEnv : Env :=
  { scenarioEnv scenarioConstants 9 with SectorBuilderAvailable := false }

/-- A fresh make-deal stream carrying the scenario proposal. -/
def scenarioStream : Stream :=
  { incoming := .ok scenarioProposal, written := [], closed := false }

/-! ## Updating deals, the deal worker and the seal callbacks -/

/-- How a Go function ends: it returns, or it panics (here always on a nil
pointer dereference). -/
inductive Outcome (α : Type) where
  | returns (a : α)
  | panics
  deriving Repr

/-- Source `Miner.updateDealResponse`, with `f` the mutator. The expression
`sm.deals[proposalCid].Response` dereferences the pointer stored in the map,
which is `nil` when there is no record. The result is the returned error,
`none` for `nil`, and the miner afterwards. -/
def updateDealResponse (env : Env) (sm : Miner) (proposalCid : Cid)
    (f : DealResponse → DealResponse) : Outcome (Option String × Miner) :=
  match sm.deals proposalCid with
  | none => .panics
  | some d =>
    let sm1 := sm.storeDeal proposalCid ⟨d.Proposal, f d.Response⟩
    match saveDeal env sm1 proposalCid with
    | .error err =>
      .returns (some (wrapError err "failed to store updated deal response in datastore"), sm1)
    | .ok sm2 => .returns (none, sm2)

/-- A call of `updateDealResponse` whose error is only logged. -/
def updateAndLog (env : Env) (sm : Miner) (proposalCid : Cid)
    (f : DealResponse → DealResponse) : Outcome Miner :=
  match updateDealResponse env sm proposalCid f with
  | .panics => .panics
  | .returns (_, sm1) => .returns sm1

/-- Source `Miner.onCommitSuccess`. -/
def onCommitSuccess (env : Env) (sm : Miner) (dealCid : Cid) (sector : SealedSectorMetadata) :
    Outcome Miner :=
  updateAndLog env sm dealCid (fun resp =>
    { resp with State := .Posted,
                ProofInfo := some ⟨sector.SectorID, sector.CommR, sector.CommD⟩ })

/-- Source `Miner.onCommitFail`. -/
def onCommitFail (env : Env) (sm : Miner) (dealCid : Cid) (message : String) : Outcome Miner :=
  updateAndLog env sm dealCid (fun resp => { resp with Message := message, State := .Failed })

/-- The callback invocations of a registry operation, run in order with
`onSuccess = sm.onCommitSuccess` and `onFail = sm.onCommitFail`, as `NewMiner`
installs them. -/
def runCallbacks (env : Env) : Miner → List Callback → Outcome Miner
  | sm, [] => .returns sm
  | sm, .onSuccess dealCid sector :: calls =>
    match onCommitSuccess env sm dealCid sector with
    | .panics => .panics
    | .returns sm1 => runCallbacks env sm1 calls
  | sm, .onFail dealCid message :: calls =>
    match onCommitFail env sm dealCid message with
    | .panics => .panics
    | .returns sm1 => runCallbacks env sm1 calls

/-- Source constant `dealsAwatingSealDatastorePrefix`. -/
def dealsAwatingSealDatastorePrefix : String := "dealsAwaitingSeal"

/-- Source `Miner.saveDealsAwaitingSeal`. -/
def saveDealsAwaitingSeal (env : Env) (sm : Miner) : Except String Miner :=
  match env.MarshalAwaitingSeal sm.dealsAwaitingSeal with
  | .error err => .error (wrapError err "Could not marshal dealsAwaitingSeal")
  | .ok marshalledDealsAwaitingSeal =>
    let key := KeyWithNamespaces [dealsAwatingSealDatastorePrefix]
    match env.PutError key marshalledDealsAwaitingSeal with
    | some err =>
      .error (wrapError err ("could not save deal awaiting seal record to disk, "
        ++ "in-memory deals differ from persisted deals!"))
    | none => .ok { sm with dealsDs := dsPut sm.dealsDs key marshalledDealsAwaitingSeal }

/-- Source `Miner.processStorageDeal`. The record `d` is read through the
pointer `getStorageDeal` returns, `nil` when there is no record, and
`d.Proposal.Size.Uint64()` reads through the pointer `Size`. -/
def processStorageDeal (env : Env) (sm : Miner) (c : Cid) : Outcome Miner :=
  match sm.deals c with
  | none => .panics
  | some d =>
    if d.Response.State ≠ .Accepted then
      .returns sm
    else
      match env.FetchGraph d.Proposal.PieceRef with
      | some _ =>
        updateAndLog env sm c (fun resp =>
          { resp with Message := "Transfer failed", State := .Failed })
      | none =>
        match d.Proposal.Size with
        | none => .panics
        | some size =>
          match env.AddPiece d.Proposal.PieceRef size with
          | .error _ =>
            updateAndLog env sm c (fun resp =>
              { resp with Message := "failed to submit seal proof", State := .Failed })
          | .ok sectorID =>
            match updateAndLog env sm c (fun resp => { resp with State := .Staged }) with
            | .panics => .panics
            | .returns sm1 =>
              match runCallbacks env
                  { sm1 with dealsAwaitingSeal := (sm1.dealsAwaitingSeal.add sectorID c).1 }
                  (sm1.dealsAwaitingSeal.add sectorID c).2 with
              | .panics => .panics
              | .returns sm2 =>
                match saveDealsAwaitingSeal env sm2 with
                | .error _ => .returns sm2
                | .ok sm3 => .returns sm3

/-- The message `OnCommitmentAddedToChain` builds from a sealing error:
`fmt.Sprintf("failed sealing sector: %v: %s:", sectorID, err)`. -/
def sealingErrorMessage (sectorID : Nat) (err : String) : String :=
  "failed sealing sector: " ++ toString sectorID ++ ": " ++ err ++ ":"

/-- Source `Miner.OnCommitmentAddedToChain`; `err` is `none` for a `nil` error. -/
def OnCommitmentAddedToChain (env : Env) (sm : Miner) (sector : SealedSectorMetadata)
    (err : Option String) : Outcome Miner :=
  let reported :=
    match err with
    | some e => sm.dealsAwaitingSeal.fail sector.SectorID (sealingErrorMessage sector.SectorID e)
    | none => sm.dealsAwaitingSeal.success sector
  match runCallbacks env { sm with dealsAwaitingSeal := reported.1 } reported.2 with
  | .panics => .panics
  | .returns sm1 =>
    match saveDealsAwaitingSeal env sm1 with
    | .ok sm2 => .returns sm2
    | .error e =>
      let failed := sm1.dealsAwaitingSeal.fail sector.SectorID
        ("failed persisting deals awaiting seal: " ++ e)
      runCallbacks env { sm1 with dealsAwaitingSeal := failed.1 } failed.2

/-! ## Loading the deals -/

/-- Whether the key `s` starts with `pre`: the filter of a datastore query with
a `Prefix`. -/
def hasPrefix (pre s : String) : Bool :=
  pre.data.isPrefixOf s.data

/-- The datastore key `saveDeal` writes the record of `c` under. -/
def dealKey (c : Cid) : String :=
  KeyWithNamespaces [minerDatastorePrefix, c.key]

/-- The loop of `loadDeals` over the entries the query returned: the error, if
any, and the deal map so far. -/
def loadEntries (env : Env) :
    List (String × Bytes) → (Cid → Option storageDeal) →
      Option String × (Cid → Option storageDeal)
  | [], deals => (none, deals)
  | entry :: rest, deals =>
    match env.DecodeDeal entry.2 with
    | .error err => (some (wrapError err "failed to unmarshal deals from datastore"), deals)
    | .ok deal => loadEntries env rest (mapSet deals deal.Response.ProposalCid deal)

/-- Source `Miner.loadDeals`: the returned error, `none` for `nil`, and the
miner afterwards. The ghost `stateLog` is left as it is. -/
def loadDeals (env : Env) (sm : Miner) : Option String × Miner :=
  match env.QueryError ("/" ++ minerDatastorePrefix) with
  | some err => (some (wrapError err "failed to query deals from datastore"), sm)
  | none =>
    ((loadEntries env
        (sm.dealsDs.filter (fun entry => hasPrefix ("/" ++ minerDatastorePrefix) entry.1))
        (fun _ => none)).1,
      { sm with
        deals := (loadEntries env
          (sm.dealsDs.filter (fun entry => hasPrefix ("/" ++ minerDatastorePrefix) entry.1))
          (fun _ => none)).2 })

/-- The datastore and the deal map agree: every entry under the `miner` prefix
decodes to a record of the map, stored under the key of its `ProposalCid`, and
every record of the map has an entry. -/
def StoreAgrees (env : Env) (sm : Miner) : Prop :=
  (∀ entry ∈ sm.dealsDs, hasPrefix ("/" ++ minerDatastorePrefix) entry.1 = true →
    ∃ d, env.DecodeDeal entry.2 = .ok d ∧ entry.1 = dealKey d.Response.ProposalCid
      ∧ sm.deals d.Response.ProposalCid = some d)
  ∧ (∀ c, sm.deals c ≠ none → ∃ value, (dealKey c, value) ∈ sm.dealsDs)

/-- The record encoding round-trips: what `cbor.DumpObject` writes, the decoder
reads back. -/
def RoundTrips (env : Env) : Prop :=
  ∀ d marshalled, env.DumpObject (some d) = .ok marshalled → env.DecodeDeal marshalled = .ok d

/-- Two proposals for the persistence scenario, told apart by their piece. -/
def proposalA : DealProposal := { scenarioProposal with PieceRef := ⟨"pieceA"⟩ }

/-- The second proposal of the persistence scenario. -/
def proposalB : DealProposal := { scenarioProposal with PieceRef := ⟨"pieceB"⟩ }

/-- The record `rejectProposal` stores for a proposal of the persistence
scenario. -/
def rejectedRecord (p : DealProposal) : storageDeal :=
  ⟨p, ⟨.Rejected, "no", p.PieceRef, none, "signaturrreee"⟩⟩

/-- Collaborators of the persistence scenario: the cid of a proposal is its
piece, the encoding writes the two records of the scenario as `[1]` and `[2]`
and reads them back, and the datastore fails every write for `pieceA`. -/
def flakyStoreEnv : Env :=
  { scenarioEnv scenarioConstants 10 with
    ToCid := fun p => .ok p.PieceRef,
    DumpObject := fun d =>
      if d = some (rejectedRecord proposalA) then .ok [1]
      else if d = some (rejectedRecord proposalB) then .ok [2]
      else .error "unsupported record",
    DecodeDeal := fun b =>
      if b = [1] then .ok (rejectedRecord proposalA)
      else if b = [2] then .ok (rejectedRecord proposalB)
      else .error "not a deal record",
    PutError := fun key _ => if key = dealKey ⟨"pieceA"⟩ then some "disk full" else none }

/-! ## The proving-period scheduler -/

/-- Source `types.Commitments` (`types/commitments.go`). -/
structure Commitments where
  CommD : Bytes
  CommR : Bytes
  CommRStar : Bytes
  deriving DecidableEq, Repr

/-- What `abi.Deserialize` returns in `Val`: a `map[string]types.Commitments`,
its entries in the order `range` visits them, or a value of another type. -/
inductive AbiValue where
  | commitments (entries : List (String × Commitments))
  | other
  deriving DecidableEq, Repr

/-- Modelled from the spec: `types.TipSet` is declared outside `src/`; the new
heaviest tip, of which the source only calls `Height()`. -/
structure TipSet where
  Height : Except String Nat

/-- Modelled from the spec: the response of `GeneratePoST`, declared outside
`src/`; the proof and the faulting sectors. -/
structure GeneratePoSTResponse where
  Proof : Bytes
  Faults : List Nat
  deriving DecidableEq, Repr

/-- One call of `porcelainAPI.MessageSend`, with its arguments. -/
structure SentMessage where
  sender : Address
  target : Address
  value : Nat
  gasPrice : Nat
  gasLimit : Nat
  method : String
  params : List Bytes
  deriving DecidableEq, Repr

/-- The collaborators of one head callback or of one proof worker: each field
is what the collaborator answers. -/
structure PoStEnv where
  /-- The first value `MessageQuery` returns for `getSectorCommitments`. -/
  QuerySectorCommitments : Except String Bytes
  /-- The call `abi.Deserialize` on it. -/
  Deserialize : Bytes → Except String AbiValue
  /-- The block height `MessageQuery` returns for `getProvingPeriodStart`, on
  the first query (number 0) and the second query (number 1) of a callback. -/
  QueryProvingPeriodStart : Nat → Except String Nat
  /-- The bytes `Bytes()` of a block height. -/
  HeightBytes : Nat → Bytes
  /-- The function `sha256.Sum256`. -/
  Sum256 : Bytes → Bytes
  /-- The call `SectorBuilder().GeneratePoST` on `{CommRs, ChallengeSeed}`. -/
  GeneratePoST : List Bytes → Bytes → Except String GeneratePoSTResponse
  /-- The call `node.BlockHeight`. -/
  BlockHeight : Except String Nat

/-- Source constant `submitPostGasPrice`. -/
def submitPostGasPrice : Nat := 0

/-- Source constant `submitPostGasLimit`. -/
def submitPostGasLimit : Nat := 300

/-- Source `Miner.getProvingPeriodStart`, as query number `n` of a callback. -/
def getProvingPeriodStart (pe : PoStEnv) (n : Nat) : Except String Nat :=
  pe.QueryProvingPeriodStart n

/-- Source `Miner.provingPeriodPoStChallengeSeed`. -/
def provingPeriodPoStChallengeSeed (pe : PoStEnv) : Except String Bytes :=
  match getProvingPeriodStart pe 0 with
  | .error err => .error (wrapError err "failed to get miner proving period start block height")
  | .ok height => .ok (pe.Sum256 (pe.HeightBytes height))

/-- Source `Miner.OnNewHeaviestTipSet`. `provingPeriodBlocks` is the constant
`miner.ProvingPeriodBlocks`, declared outside `src/`. -/
def OnNewHeaviestTipSet (provingPeriodBlocks : Nat) (pe : PoStEnv) (sm : Miner) (ts : TipSet) :
    Miner :=
  match pe.QuerySectorCommitments with
  | .error _ => sm
  | .ok ret =>
    match pe.Deserialize ret with
    | .error _ => sm
    | .ok .other => sm
    | .ok (.commitments commitments) =>
      let commRs := commitments.map (fun v => v.2.CommR)
      if commRs.length = 0 then
        sm
      else
        match provingPeriodPoStChallengeSeed pe with
        | .error _ => sm
        | .ok challengeSeed =>
          match getProvingPeriodStart pe 1 with
          | .error _ => sm
          | .ok provingPeriodStart =>
            if sm.postInProcess = some provingPeriodStart then
              sm
            else
              match ts.Height with
              | .error _ => sm
              | .ok h =>
                let provingPeriodEnd := provingPeriodStart + provingPeriodBlocks
                if h ≥ provingPeriodStart then
                  if h < provingPeriodEnd then
                    { sm with
                      postInProcess := some provingPeriodStart,
                      postWorkers := sm.postWorkers ++
                        [⟨provingPeriodStart, provingPeriodEnd, challengeSeed, commRs⟩] }
                  else
                    sm
                else
                  sm

/-- Source `Miner.generateAndSubmitPoSt`: the calls of `MessageSend` it makes;
an error of `MessageSend` is only logged. It writes no field of the miner. -/
def generateAndSubmitPoSt (pe : PoStEnv) (sm : Miner) (job : PoStJob) : List SentMessage :=
  match pe.GeneratePoST job.commRs job.challengeSeed with
  | .error _ => []
  | .ok res =>
    match pe.BlockHeight with
    | .error _ => []
    | .ok height =>
      if height < job.provingPeriodStart then
        []
      else if height ≥ job.provingPeriodEnd then
        []
      else
        [{ sender := sm.minerOwnerAddr, target := sm.minerAddr, value := 0,
           gasPrice := submitPostGasPrice, gasLimit := submitPostGasLimit,
           method := "submitPoSt", params := [res.Proof] }]

/-- A sequence of head callbacks, each with its collaborators and its tip. -/
def runHeads (provingPeriodBlocks : Nat) : List (PoStEnv × TipSet) → Miner → Miner
  | [], sm => sm
  | call :: calls, sm =>
    runHeads provingPeriodBlocks calls (OnNewHeaviestTipSet provingPeriodBlocks call.1 sm call.2)

/-- The messages sent by the proof workers `jobs`, worker `i` running with the
collaborators `workerEnv i`. -/
def sentBy (workerEnv : Nat → PoStEnv) (sm : Miner) : Nat → List PoStJob → List SentMessage
  | _, [] => []
  | i, job :: jobs =>
    generateAndSubmitPoSt (workerEnv i) sm job ++ sentBy workerEnv sm (i + 1) jobs

/-- A head callback that gets as far as comparing the tip height `h` with the
period start `P`: a non-empty commitment set, both period queries answering
`P`, and a tip of height `h`. -/
def ReachesHeightCheck (P h : Nat) (call : PoStEnv × TipSet) : Prop :=
  (∃ ret commitments, call.1.QuerySectorCommitments = .ok ret
    ∧ call.1.Deserialize ret = .ok (.commitments commitments) ∧ commitments ≠ [])
  ∧ call.1.QueryProvingPeriodStart 0 = .ok P
  ∧ call.1.QueryProvingPeriodStart 1 = .ok P
  ∧ call.2.Height = .ok h

/-- Collaborators of a head callback in a period starting at 100, with one
sealed sector. -/
def periodEnv : PoStEnv :=
  { QuerySectorCommitments := .ok [],
    Deserialize := fun _ => .ok (.commitments [("1", ⟨[1], [2], [3]⟩)]),
    QueryProvingPeriodStart := fun _ => .ok 100,
    HeightBytes := fun h => [h],
    Sum256 := fun b => b,
    GeneratePoST := fun _ _ => .ok ⟨[9], []⟩,
    BlockHeight := .ok 120 }

/-! ## The engine: operations in sequence -/

/-- An operation of the deal engine, with the collaborators that answer during
it: a proposal arrives on the make-deal stream (default acceptor and rejector),
a started deal worker runs, or the sector builder reports a commitment. -/
inductive EngineOp where
  | receive (k : Constants) (env : Env) (f : Fmt) (p : DealProposal)
  | work (env : Env) (c : Cid)
  | commitment (env : Env) (sector : SealedSectorMetadata) (err : Option String)

/-- One operation on the miner. Each operation runs to completion before the
next. A worker for `c` runs only if `acceptProposal` has started one that has
not run yet; it then leaves the list of waiting workers. -/
def EngineOp.step (sm : Miner) : EngineOp → Outcome Miner
  | .receive k env f p =>
    .returns (receiveStorageProposal k env f (acceptProposal env) (rejectProposal env) sm p).2
  | .work env c =>
    if c ∈ sm.workers then
      processStorageDeal env { sm with workers := sm.workers.erase c } c
    else
      .returns sm
  | .commitment env sector err => OnCommitmentAddedToChain env sm sector err

/-- A sequence of operations on the miner. -/
def runEngine : List EngineOp → Miner → Outcome Miner
  | [], sm => .returns sm
  | op :: ops, sm =>
    match op.step sm with
    | .panics => .panics
    | .returns sm1 => runEngine ops sm1

/-- The states stored for the deal `c`, in the order of the stores. -/
def statesOf (log : List (Cid × DealState)) (c : Cid) : List DealState :=
  (log.filter (fun e => e.1 = c)).map (fun e => e.2)

/-- The state stored for `c` in the deal map, `none` without a record. -/
def Miner.stateAt (sm : Miner) (c : Cid) : Option DealState :=
  (sm.deals c).map (fun d => d.Response.State)

/-- The maximal paths of the state diagram of a deal. -/
def statePaths : List (List DealState) :=
  [[.Rejected], [.Accepted, .Staged, .Posted], [.Accepted, .Failed],
    [.Accepted, .Staged, .Failed]]

/-- A sequence of states that is a prefix of a path of the state diagram. -/
def IsPathPrefix (l : List DealState) : Prop :=
  ∃ path ∈ statePaths, l <+: path

/-- The proposal received by this operation, if it is one, has a cid without a
record: no proposal with that cid was received before. -/
def EngineOp.Fresh (sm : Miner) : EngineOp → Prop
  | .receive _ env _ p => ∀ c, env.ToCid p = .ok c → sm.deals c = none
  | .work _ _ => True
  | .commitment _ _ _ => True

/-- Along the run of `ops` from `sm`, no proposal is received twice. -/
def FreshRun : List EngineOp → Miner → Prop
  | [], _ => True
  | op :: ops, sm => op.Fresh sm ∧ ∀ sm1, op.step sm = .returns sm1 → FreshRun ops sm1

/-- A miner as `NewMiner` builds it on an empty datastore: no deals, no started
workers, an empty registry, nothing stored yet. -/
def Miner.IsNew (sm : Miner) : Prop :=
  sm.deals = (fun _ => none) ∧ sm.workers = []
    ∧ sm.dealsAwaitingSeal.SectorsToDeals = (fun _ => none) ∧ sm.stateLog = []

/-- The prefixes of the paths of the state diagram, listed. -/
def tracePrefixes : List (List DealState) :=
  [[], [.Rejected], [.Accepted], [.Accepted, .Staged], [.Accepted, .Failed],
    [.Accepted, .Staged, .Posted], [.Accepted, .Staged, .Failed]]

/-- An edge of the state diagram. -/
def Edge (x y : DealState) : Prop :=
  (x = .Accepted ∧ (y = .Staged ∨ y = .Failed)) ∨ (x = .Staged ∧ (y = .Posted ∨ y = .Failed))

/-- The invariant of the engine: the stored states of every deal follow the
diagram and end in the state of its record; waiting workers are distinct and
their deals `Accepted`, with a size; the deals waiting in `SectorsToDeals` are
`Staged`, each waiting once and in one sector. -/
structure EngineInv (sm : Miner) : Prop where
  trace : ∀ c, statesOf sm.stateLog c ∈ tracePrefixes
    ∧ (statesOf sm.stateLog c).getLast? = sm.stateAt c
  workersNodup : sm.workers.Nodup
  workersAccepted : ∀ c ∈ sm.workers,
    ∃ d, sm.deals c = some d ∧ d.Response.State = .Accepted ∧ d.Proposal.Size ≠ none
  listsNodup : ∀ s, (sm.dealsAwaitingSeal.dealsOf s).Nodup
  listsStaged : ∀ s, ∀ c ∈ sm.dealsAwaitingSeal.dealsOf s, sm.stateAt c = some .Staged
  listsDisjoint : ∀ s1 s2 c, c ∈ sm.dealsAwaitingSeal.dealsOf s1 →
    c ∈ sm.dealsAwaitingSeal.dealsOf s2 → s1 = s2

/-- Two miners that differ at most in the content of the datastore. -/
def SameCore (sm sm1 : Miner) : Prop :=
  sm1.deals = sm.deals ∧ sm1.workers = sm.workers
    ∧ sm1.dealsAwaitingSeal = sm.dealsAwaitingSeal ∧ sm1.stateLog = sm.stateLog

/-- Collaborators of the scenario at offered price 9 whose sector builder puts
every piece in sector 42. -/
def sector42Env : Env := scenarioEnv scenarioConstants 9

/-- The metadata of the sealed sector 42. -/
def sector42 : SealedSectorMetadata := ⟨42, [4], [2]⟩

/-- A sealing failure of sector 42 reported before any deal, the scenario
proposal accepted and its worker run with the piece added to sector 42, then
sector 42 reported sealed. -/
def staleFailureRun : List EngineOp :=
  [.commitment sector42Env sector42 (some "sealing failed"),
    .receive scenarioConstants sector42Env decimalFmt scenarioProposal,
    .work sector42Env ⟨"proposal"⟩,
    .commitment sector42Env sector42 none]

/-- The scenario proposal accepted, its worker failing to fetch the piece, and
the same proposal received again. -/
def duplicateProposalRun : List EngineOp :=
  [.receive scenarioConstants sector42Env decimalFmt scenarioProposal,
    .work { sector42Env with FetchGraph := fun _ => some "not found" } ⟨"proposal"⟩,
    .receive scenarioConstants sector42Env decimalFmt scenarioProposal]

/-- The deal a callback invocation is about. -/
def Callback.target : Callback → Cid
  | .onSuccess dealCid _ => dealCid
  | .onFail dealCid _ => dealCid

/-- The scenario proposal accepted, its worker run with the piece added to
sector 42, then sector 42 reported sealed. -/
def sealedRun : List EngineOp :=
  [.receive scenarioConstants sector42Env decimalFmt scenarioProposal,
    .work sector42Env ⟨"proposal"⟩,
    .commitment sector42Env sector42 none]

/-- The first started proof worker runs: the goroutine
`go sm.generateAndSubmitPoSt(...)` leaves the list of started workers, and the
miner is otherwise as it was, since `generateAndSubmitPoSt` assigns no field of
the miner. The result is the miner afterwards and the messages sent. -/
def runPoStWorker (pe : PoStEnv) (sm : Miner) : Miner × List SentMessage :=
  match sm.postWorkers with
  | [] => (sm, [])
  | job :: jobs => ({ sm with postWorkers := jobs }, generateAndSubmitPoSt pe sm job)

/-- Collaborators of a proof worker whose proof generation reports faulting
sectors 3 and 5, at block height 120. -/
def faultyPoStEnv : PoStEnv :=
  { periodEnv with GeneratePoST := fun _ _ => .ok ⟨[9], [3, 5]⟩ }

/-- The scenario miner after the scenario proposal was accepted and its worker
has registered the deal against sector 42. -/
def stagedMiner : Miner :=
  match runEngine (sealedRun.take 2) scenarioMiner with
  | .returns sm => sm
  | .panics => scenarioMiner

/-- The collaborators of the scenario, with a block service that does not find
the piece. -/
def missingPieceEnv : Env :=
  { sector42Env with FetchGraph := fun _ => some "not found" }

/-- The wrapped duration never exceeds the duration. -/
theorem int64_le (d : Nat) : int64 d ≤ (d : Int) := by
  unfold int64
  have h := Nat.mod_le d (2 ^ 64)
  split <;> omega

/-- Below `2^63` the conversion `int64` is exact. -/
theorem int64_eq_of_lt (d : Nat) (h : d < 2 ^ 63) : int64 d = (d : Int) := by
  unfold int64
  have h1 : d % 2 ^ 64 = d := Nat.mod_eq_of_lt (by omega)
  rw [h1, if_pos h]

/-- What one passing iteration of the voucher loop has checked. -/
theorem checkVoucher_ok {k : Constants} {env : Env} {p : DealProposal}
    {blockHeight lastValidAt next : Nat} {v : PaymentVoucher}
    (h : checkVoucher k env p blockHeight lastValidAt v = .ok next) :
    env.VerifyVoucherSignature p.Payment.Payer p.Payment.Channel v.Amount v.ValidAt
        v.Signature = true
      ∧ v.ValidAt ≤ lastValidAt + k.VoucherInterval
      ∧ (p.TotalPrice : Int) * ((v.ValidAt : Int) - (blockHeight : Int))
          ≤ (v.Amount : Int) * int64 p.Duration
      ∧ next = v.ValidAt := by
  unfold checkVoucher at h
  split at h
  · cases h
  · rename_i hsig
    simp only [] at h
    split at h
    · cases h
    · rename_i hsp
      split at h
      · cases h
      · rename_i hlin
        injection h with h
        exact ⟨by simpa using hsig, not_lt.mp hsp, not_lt.mp hlin, h.symm⟩

/-- One iteration of the voucher loop passes when its three checks pass. -/
theorem checkVoucher_of_checks {k : Constants} {env : Env} {p : DealProposal}
    {blockHeight lastValidAt : Nat} {v : PaymentVoucher}
    (hsig : env.VerifyVoucherSignature p.Payment.Payer p.Payment.Channel v.Amount v.ValidAt
        v.Signature = true)
    (hsp : v.ValidAt ≤ lastValidAt + k.VoucherInterval)
    (hlin : (p.TotalPrice : Int) * ((v.ValidAt : Int) - (blockHeight : Int))
          ≤ (v.Amount : Int) * int64 p.Duration) :
    checkVoucher k env p blockHeight lastValidAt v = .ok v.ValidAt := by
  unfold checkVoucher
  simp only [hsig, Bool.not_true, Bool.false_eq_true, if_false]
  rw [if_neg (not_lt.mpr hsp), if_neg (not_lt.mpr hlin)]

/-- Every voucher of a passing loop has a verifying signature and passes the
linearity test the source computes, with the wrapped duration. -/
theorem checkVouchers_ok_mem {k : Constants} {env : Env} {p : DealProposal}
    {blockHeight : Nat} :
    ∀ (vs : List PaymentVoucher) (lastValidAt last : Nat),
      checkVouchers k env p blockHeight lastValidAt vs = .ok last →
      ∀ v ∈ vs,
        env.VerifyVoucherSignature p.Payment.Payer p.Payment.Channel v.Amount v.ValidAt
            v.Signature = true
          ∧ (p.TotalPrice : Int) * ((v.ValidAt : Int) - (blockHeight : Int))
              ≤ (v.Amount : Int) * int64 p.Duration
  | [], _, _, _, v, hv => by cases hv
  | w :: ws, lastValidAt, last, h, v, hv => by
    unfold checkVouchers at h
    split at h
    · cases h
    · rename_i next hw
      have hc := checkVoucher_ok hw
      rcases List.mem_cons.mp hv with rfl | hmem
      · exact ⟨hc.1, hc.2.2.1⟩
      · exact checkVouchers_ok_mem ws next last h v hmem

/-- The first voucher of a passing loop is within one interval of the height the
loop starts from. -/
theorem checkVouchers_ok_head {k : Constants} {env : Env} {p : DealProposal}
    {blockHeight lastValidAt last : Nat} {w : PaymentVoucher} {ws : List PaymentVoucher}
    (h : checkVouchers k env p blockHeight lastValidAt (w :: ws) = .ok last) :
    w.ValidAt ≤ lastValidAt + k.VoucherInterval
      ∧ checkVouchers k env p blockHeight w.ValidAt ws = .ok last := by
  unfold checkVouchers at h
  split at h
  · cases h
  · rename_i next hw
    have hc := checkVoucher_ok hw
    rw [hc.2.2.2] at h
    exact ⟨hc.2.1, h⟩

/-- Consecutive vouchers of a passing loop are at most one interval apart. -/
theorem checkVouchers_ok_spacing {k : Constants} {env : Env} {p : DealProposal}
    {blockHeight : Nat} :
    ∀ (vs : List PaymentVoucher) (lastValidAt last : Nat),
      checkVouchers k env p blockHeight lastValidAt vs = .ok last →
      ∀ (i : Nat) (hi : i + 1 < vs.length),
        vs[i + 1].ValidAt ≤ vs[i].ValidAt + k.VoucherInterval
  | [], _, _, _, i, hi => by simp at hi
  | [_], _, _, _, i, hi => by simp at hi
  | w :: w2 :: ws, lastValidAt, last, h, i, hi => by
    have h1 := checkVouchers_ok_head h
    cases i with
    | zero => exact (checkVouchers_ok_head h1.2).1
    | succ j =>
      have hj : j + 1 < (w2 :: ws).length := by simpa using hi
      exact checkVouchers_ok_spacing (w2 :: ws) w.ValidAt last h1.2 j hj

/-- Everything an accepting run of `validateDealPayment` has established. -/
theorem validateDealPayment_ok {k : Constants} {env : Env} {sm : Miner} {p : DealProposal}
    (h : validateDealPayment k env sm p = .ok ()) :
    ∃ (price : Nat) (size : Nat) (channel : PaymentChannel)
      (blockHeight last : Nat) (first : PaymentVoucher) (rest : List PaymentVoucher),
      getStoragePrice env = .ok price
      ∧ p.Size = some size
      ∧ expectedPrice price p size ≤ p.TotalPrice
      ∧ getPaymentChannel env p = .ok channel
      ∧ channel.Target = sm.minerOwnerAddr
      ∧ expectedPrice price p size ≤ channel.Amount
      ∧ env.ChainBlockHeight = .ok blockHeight
      ∧ p.Payment.Vouchers = first :: rest
      ∧ first.ValidAt ≤ blockHeight + k.VoucherInterval
      ∧ checkVouchers k env p blockHeight (blockHeight + k.VoucherInterval) (first :: rest)
          = .ok last
      ∧ p.TotalPrice ≤ ((first :: rest).getLast (List.cons_ne_nil first rest)).Amount
      ∧ ((first :: rest).getLast (List.cons_ne_nil first rest)).ValidAt
          + k.ChannelExpiryInterval ≤ channel.Eol := by
  unfold validateDealPayment at h
  split at h
  · cases h
  · rename_i price hprice
    split at h
    · cases h
    · rename_i size hsize
      split at h
      · cases h
      · rename_i hp
        split at h
        · cases h
        · rename_i channel hch
          split at h
          · cases h
          · rename_i htarget
            split at h
            · cases h
            · rename_i hamount
              split at h
              · cases h
              · rename_i blockHeight hbh
                split at h
                · cases h
                · rename_i first rest hv
                  simp only [] at h
                  split at h
                  · cases h
                  · rename_i hfirst
                    split at h
                    · cases h
                    · rename_i last hloop
                      split at h
                      · cases h
                      · rename_i hlast
                        split at h
                        · cases h
                        · rename_i heol
                          refine ⟨price, size, channel, blockHeight, last, first, rest, hprice,
                            hsize, not_lt.mp hp, hch, by simpa using htarget, not_lt.mp hamount,
                            hbh, hv, not_lt.mp hfirst, hloop, not_lt.mp hlast, not_lt.mp heol⟩

/-- The loop on a concatenation runs the first part, then the second from the
height the first part ended at. -/
theorem checkVouchers_append {k : Constants} {env : Env} {p : DealProposal}
    {blockHeight : Nat} :
    ∀ (xs ys : List PaymentVoucher) (lastValidAt : Nat),
      checkVouchers k env p blockHeight lastValidAt (xs ++ ys)
        = match checkVouchers k env p blockHeight lastValidAt xs with
          | .error e => .error e
          | .ok next => checkVouchers k env p blockHeight next ys
  | [], ys, lastValidAt => by simp [checkVouchers]
  | x :: xs, ys, lastValidAt => by
    simp only [List.cons_append, checkVouchers]
    cases checkVoucher k env p blockHeight lastValidAt x with
    | error e => rfl
    | ok next => exact checkVouchers_append xs ys next

/-- When every check before the voucher loop passes, an error of the loop is the
error `validateDealPayment` returns. -/
theorem validateDealPayment_loop_error {k : Constants} {env : Env} {sm : Miner}
    {p : DealProposal} {price : Nat} {size : Nat} {channel : PaymentChannel}
    {blockHeight : Nat} {first : PaymentVoucher} {rest : List PaymentVoucher}
    {e : PaymentError}
    (hprice : getStoragePrice env = .ok price) (hsize : p.Size = some size)
    (hp : expectedPrice price p size ≤ p.TotalPrice)
    (hch : getPaymentChannel env p = .ok channel)
    (htarget : channel.Target = sm.minerOwnerAddr)
    (hamount : expectedPrice price p size ≤ channel.Amount)
    (hbh : env.ChainBlockHeight = .ok blockHeight)
    (hvs : p.Payment.Vouchers = first :: rest)
    (hfirst : first.ValidAt ≤ blockHeight + k.VoucherInterval)
    (hloop : checkVouchers k env p blockHeight (blockHeight + k.VoucherInterval) (first :: rest)
        = .error e) :
    validateDealPayment k env sm p = .error e := by
  unfold validateDealPayment
  simp only [hprice, hsize, hch, hbh, hvs, hloop, htarget, ne_eq, not_true_eq_false, if_false,
    if_neg (not_lt.mpr hp), if_neg (not_lt.mpr hamount), if_neg (not_lt.mpr hfirst)]

/-- The converse of `validateDealPayment_ok`: when every check passes the
validator returns `nil`. -/
theorem validateDealPayment_of_checks {k : Constants} {env : Env} {sm : Miner}
    {p : DealProposal} {price : Nat} {size : Nat} {channel : PaymentChannel}
    {blockHeight last : Nat} {first : PaymentVoucher} {rest : List PaymentVoucher}
    (hprice : getStoragePrice env = .ok price) (hsize : p.Size = some size)
    (hp : expectedPrice price p size ≤ p.TotalPrice)
    (hch : getPaymentChannel env p = .ok channel)
    (htarget : channel.Target = sm.minerOwnerAddr)
    (hamount : expectedPrice price p size ≤ channel.Amount)
    (hbh : env.ChainBlockHeight = .ok blockHeight)
    (hvs : p.Payment.Vouchers = first :: rest)
    (hfirst : first.ValidAt ≤ blockHeight + k.VoucherInterval)
    (hloop : checkVouchers k env p blockHeight (blockHeight + k.VoucherInterval) (first :: rest)
        = .ok last)
    (hlast : p.TotalPrice ≤ ((first :: rest).getLast (List.cons_ne_nil first rest)).Amount)
    (heol : ((first :: rest).getLast (List.cons_ne_nil first rest)).ValidAt
        + k.ChannelExpiryInterval ≤ channel.Eol) :
    validateDealPayment k env sm p = .ok () := by
  unfold validateDealPayment
  simp only [hprice, hsize, hch, hbh, hvs, hloop, htarget, ne_eq, not_true_eq_false, if_false,
    if_neg (not_lt.mpr hp), if_neg (not_lt.mpr hamount), if_neg (not_lt.mpr hfirst),
    if_neg (not_lt.mpr hlast), if_neg (not_lt.mpr heol)]

/-- The voucher loop passes when every voucher has a verifying signature and
passes the linearity test of the source, the first voucher is within one
interval of the starting height, and consecutive vouchers are at most one
interval apart. -/
theorem checkVouchers_of_checks {k : Constants} {env : Env} {p : DealProposal}
    {blockHeight : Nat} :
    ∀ (vs : List PaymentVoucher) (lastValidAt : Nat),
      (∀ v ∈ vs,
        env.VerifyVoucherSignature p.Payment.Payer p.Payment.Channel v.Amount v.ValidAt
            v.Signature = true
          ∧ (p.TotalPrice : Int) * ((v.ValidAt : Int) - (blockHeight : Int))
              ≤ (v.Amount : Int) * int64 p.Duration) →
      (∀ first ∈ vs.head?, first.ValidAt ≤ lastValidAt + k.VoucherInterval) →
      List.Chain' (fun a b : PaymentVoucher => b.ValidAt ≤ a.ValidAt + k.VoucherInterval) vs →
      ∃ last, checkVouchers k env p blockHeight lastValidAt vs = .ok last
  | [], lastValidAt, _, _, _ => ⟨lastValidAt, rfl⟩
  | v :: vs, lastValidAt, hall, hhead, hchain => by
    have hv := hall v (List.mem_cons_self v vs)
    have hstep := @checkVoucher_of_checks k env p blockHeight lastValidAt v hv.1
      (hhead v (by simp)) hv.2
    rw [List.chain'_cons'] at hchain
    obtain ⟨last, hrest⟩ := checkVouchers_of_checks vs v.ValidAt
      (fun w hw => hall w (List.mem_cons_of_mem v hw)) hchain.1 hchain.2
    refine ⟨last, ?_⟩
    unfold checkVouchers
    rw [hstep]
    exact hrest

/-- Completeness of the validator below the wrap: when price, channel and height
are obtained, the eight listed conditions hold and `Duration < 2^63`, the
validator returns `nil`. -/
theorem validateDealPayment_complete_of_lt {k : Constants} {env : Env} {sm : Miner}
    {p : DealProposal} {price : Nat} {channel : PaymentChannel} {blockHeight : Nat}
    (hprice : getStoragePrice env = .ok price)
    (hch : getPaymentChannel env p = .ok channel)
    (hbh : env.ChainBlockHeight = .ok blockHeight)
    (hduration : p.Duration < 2 ^ 63)
    (hc : ListedConditions k env sm p price channel blockHeight) :
    validateDealPayment k env sm p = .ok () := by
  obtain ⟨hsize, hp, ⟨htarget, hamount⟩, hne, hfirst, ⟨hsig, hchain, hlin⟩, hlast, heol⟩ := hc
  obtain ⟨size, hsz⟩ := Option.ne_none_iff_exists'.mp hsize
  obtain ⟨first, rest, hvs⟩ := List.exists_cons_of_ne_nil hne
  rw [hvs] at hfirst hsig hchain hlin hlast heol
  have hgl : (first :: rest).getLast? = some ((first :: rest).getLast (List.cons_ne_nil first rest)) :=
    List.getLast?_eq_getLast _ _
  obtain ⟨last, hloop⟩ := @checkVouchers_of_checks k env p blockHeight (first :: rest)
    (blockHeight + k.VoucherInterval)
    (fun v hv => ⟨hsig v hv, by rw [int64_eq_of_lt _ hduration]; exact hlin v hv⟩)
    (fun v hv => by
      have := hfirst v hv
      omega)
    hchain
  exact validateDealPayment_of_checks hprice hsz (hp size hsz) hch htarget (hamount size hsz) hbh
    hvs (hfirst first (by simp)) hloop (hlast _ hgl) (heol _ hgl)

/-! ## The payment validator: what acceptance guarantees -/

/-- C1: for a proposal whose `Size` is present and an offered price `price`, an
accepting run of `validateDealPayment` implies
`TotalPrice ≥ price * Duration * Size`; and a proposal with
`TotalPrice < price * Duration * Size` is rejected with the underpriced error,
whose text prints the expected price and the asking price. -/
theorem validateDealPayment_price_floor (k : Constants) (env : Env) (sm : Miner)
    (p : DealProposal) (f : Fmt) (price : Nat) (size : Nat)
    (hprice : getStoragePrice env = .ok price) (hsize : p.Size = some size) :
    (validateDealPayment k env sm p = .ok () → price * p.Duration * size ≤ p.TotalPrice)
    ∧ (p.TotalPrice < price * p.Duration * size →
        validateDealPayment k env sm p
            = .error (.priceTooLow p.TotalPrice (price * p.Duration * size) price)
        ∧ (PaymentError.priceTooLow p.TotalPrice (price * p.Duration * size) price).Error f
            = "proposed price (" ++ f.attoFIL p.TotalPrice ++ ") is less than expected ("
                ++ f.attoFIL (price * p.Duration * size) ++ ") given asking price of "
                ++ f.attoFIL price) := by
  constructor
  · intro h
    obtain ⟨price1, size1, _, _, _, _, _, hp1, hs1, hle, _⟩ := validateDealPayment_ok h
    rw [hprice] at hp1
    rw [hsize] at hs1
    cases hp1
    cases hs1
    exact hle
  · intro hlt
    refine ⟨?_, rfl⟩
    unfold validateDealPayment
    simp only [hprice, hsize, expectedPrice, if_pos hlt]

/-- Witness of C1: the underpriced scenario, `TotalPrice = 999000` at price 10. -/
theorem validateDealPayment_price_floor_witness :
    getStoragePrice (scenarioEnv scenarioConstants 10) = .ok 10
    ∧ ({ scenarioProposal with TotalPrice := 999000 } : DealProposal).Size = some 1024
    ∧ validateDealPayment scenarioConstants (scenarioEnv scenarioConstants 10) scenarioMiner
        { scenarioProposal with TotalPrice := 999000 }
        = .error (.priceTooLow 999000 1024000 10) :=
  ⟨rfl, rfl,
    ((validateDealPayment_price_floor scenarioConstants (scenarioEnv scenarioConstants 10)
      scenarioMiner { scenarioProposal with TotalPrice := 999000 } decimalFmt 10 1024 rfl rfl).2
      (by decide)).1⟩

/-- C2: voucher linearity. For a proposal accepted at current height
`blockHeight`, every voucher `v` satisfies
`v.Amount * Duration ≥ TotalPrice * (v.ValidAt - blockHeight)`, where `Duration`
is the unsigned duration of the proposal, whatever its size. -/
theorem validateDealPayment_voucher_linearity (k : Constants) (env : Env) (sm : Miner)
    (p : DealProposal) (blockHeight : Nat)
    (hheight : env.ChainBlockHeight = .ok blockHeight)
    (hacc : validateDealPayment k env sm p = .ok ()) :
    ∀ v ∈ p.Payment.Vouchers,
      (p.TotalPrice : Int) * ((v.ValidAt : Int) - (blockHeight : Int))
        ≤ (v.Amount : Int) * (p.Duration : Int) := by
  intro v hv
  obtain ⟨_, _, _, bh, last, first, rest, _, _, _, _, _, _, hbh, hvs, _, hloop, _⟩ :=
    validateDealPayment_ok hacc
  rw [hheight] at hbh
  cases hbh
  rw [hvs] at hv
  have hcode := (checkVouchers_ok_mem (first :: rest) _ last hloop v hv).2
  have hmono : (v.Amount : Int) * int64 p.Duration ≤ (v.Amount : Int) * (p.Duration : Int) :=
    mul_le_mul_of_nonneg_left (int64_le p.Duration) (Int.ofNat_nonneg v.Amount)
  exact le_trans hcode hmono

/-- C3: voucher spacing. In an accepted proposal consecutive vouchers are at most
`VoucherInterval` apart, and a proposal with two consecutive vouchers further
apart is rejected. -/
theorem validateDealPayment_voucher_spacing (k : Constants) (env : Env) (sm : Miner)
    (p : DealProposal) :
    (validateDealPayment k env sm p = .ok () →
      ∀ (i : Nat) (hi : i + 1 < p.Payment.Vouchers.length),
        p.Payment.Vouchers[i + 1].ValidAt ≤ p.Payment.Vouchers[i].ValidAt + k.VoucherInterval)
    ∧ ((∃ (i : Nat) (hi : i + 1 < p.Payment.Vouchers.length),
          p.Payment.Vouchers[i].ValidAt + k.VoucherInterval < p.Payment.Vouchers[i + 1].ValidAt) →
        ∃ e, validateDealPayment k env sm p = .error e) := by
  have hacc : validateDealPayment k env sm p = .ok () →
      ∀ (i : Nat) (hi : i + 1 < p.Payment.Vouchers.length),
        p.Payment.Vouchers[i + 1].ValidAt
          ≤ p.Payment.Vouchers[i].ValidAt + k.VoucherInterval := by
    intro h i hi
    obtain ⟨_, _, _, bh, last, first, rest, _, _, _, _, _, _, _, hvs, _, hloop, _⟩ :=
      validateDealPayment_ok h
    have hsp := checkVouchers_ok_spacing (first :: rest) _ last hloop
    simp only [hvs] at hi ⊢
    exact hsp i hi
  refine ⟨hacc, ?_⟩
  rintro ⟨i, hi, hbreak⟩
  cases hres : validateDealPayment k env sm p with
  | error e => exact ⟨e, rfl⟩
  | ok u =>
    cases u
    exact absurd (hacc hres i hi) (not_le.mpr hbreak)

/-- Witness of C2: the scenario proposal, accepted at offered price 9, and a
free deal of duration `2^63`, accepted at offered price 0. -/
theorem validateDealPayment_voucher_linearity_witness :
    (validateDealPayment scenarioConstants (scenarioEnv scenarioConstants 9) scenarioMiner
        scenarioProposal = .ok ()
      ∧ ∀ v ∈ scenarioProposal.Payment.Vouchers,
          (1000000 : Int) * ((v.ValidAt : Int) - 0) ≤ (v.Amount : Int) * 100)
    ∧ (validateDealPayment scenarioConstants (scenarioEnv scenarioConstants 0) scenarioMiner
        freeLongProposal = .ok ()
      ∧ ∀ v ∈ freeLongProposal.Payment.Vouchers,
          (0 : Int) * ((v.ValidAt : Int) - 0) ≤ (v.Amount : Int) * (2 ^ 63 : Nat)) :=
  ⟨⟨rfl, validateDealPayment_voucher_linearity scenarioConstants
      (scenarioEnv scenarioConstants 9) scenarioMiner scenarioProposal 0 rfl rfl⟩,
    ⟨rfl, validateDealPayment_voucher_linearity scenarioConstants
      (scenarioEnv scenarioConstants 0) scenarioMiner freeLongProposal 0 rfl rfl⟩⟩

/-- Witness of C3: the scenario proposal, accepted at offered price 9. -/
theorem validateDealPayment_voucher_spacing_witness :
    validateDealPayment scenarioConstants (scenarioEnv scenarioConstants 9) scenarioMiner
        scenarioProposal = .ok ()
    ∧ ∀ (i : Nat) (hi : i + 1 < scenarioProposal.Payment.Vouchers.length),
        scenarioProposal.Payment.Vouchers[i + 1].ValidAt
          ≤ scenarioProposal.Payment.Vouchers[i].ValidAt + 1000 :=
  ⟨rfl, (validateDealPayment_voucher_spacing scenarioConstants
    (scenarioEnv scenarioConstants 9) scenarioMiner scenarioProposal).1 rfl⟩

/-- C5: for an accepted proposal the payment channel fetched for
`(Payer, Channel)` has `Target` equal to the miner's owner address,
`Amount ≥ offeredPrice * Duration * Size`, and
`Eol ≥ ValidAt of the last voucher + ChannelExpiryInterval`. -/
theorem validateDealPayment_channel (k : Constants) (env : Env) (sm : Miner)
    (p : DealProposal) (hacc : validateDealPayment k env sm p = .ok ()) :
    ∃ (channel : PaymentChannel) (price : Nat) (size : Nat)
      (hne : p.Payment.Vouchers ≠ []),
      getPaymentChannel env p = .ok channel
      ∧ getStoragePrice env = .ok price
      ∧ p.Size = some size
      ∧ channel.Target = sm.minerOwnerAddr
      ∧ price * p.Duration * size ≤ channel.Amount
      ∧ (p.Payment.Vouchers.getLast hne).ValidAt + k.ChannelExpiryInterval ≤ channel.Eol := by
  obtain ⟨price, size, channel, _, _, first, rest, hprice, hsize, _, hch, htarget, hamount, _,
    hvs, _, _, _, heol⟩ := validateDealPayment_ok hacc
  have hne : p.Payment.Vouchers ≠ [] := by rw [hvs]; exact List.cons_ne_nil first rest
  refine ⟨channel, price, size, hne, hch, hprice, hsize, htarget, hamount, ?_⟩
  simp only [hvs]
  exact heol

/-- Witness of C5: the scenario proposal, accepted at offered price 9. -/
theorem validateDealPayment_channel_witness :
    validateDealPayment scenarioConstants (scenarioEnv scenarioConstants 9) scenarioMiner
        scenarioProposal = .ok ()
    ∧ ∃ (channel : PaymentChannel) (price : Nat) (size : Nat)
        (hne : scenarioProposal.Payment.Vouchers ≠ []),
        getPaymentChannel (scenarioEnv scenarioConstants 9) scenarioProposal = .ok channel
        ∧ getStoragePrice (scenarioEnv scenarioConstants 9) = .ok price
        ∧ scenarioProposal.Size = some size
        ∧ channel.Target = "minerOwner"
        ∧ price * 100 * size ≤ channel.Amount
        ∧ (scenarioProposal.Payment.Vouchers.getLast hne).ValidAt + 2000 ≤ channel.Eol :=
  ⟨rfl, validateDealPayment_channel scenarioConstants (scenarioEnv scenarioConstants 9)
    scenarioMiner scenarioProposal rfl⟩

/-- C6: a proposal accepted at current height `blockHeight` has at least one
voucher, its first voucher has `ValidAt ≤ blockHeight + VoucherInterval`, and
its last voucher has `Amount ≥ TotalPrice`. -/
theorem validateDealPayment_vouchers (k : Constants) (env : Env) (sm : Miner)
    (p : DealProposal) (blockHeight : Nat)
    (hheight : env.ChainBlockHeight = .ok blockHeight)
    (hacc : validateDealPayment k env sm p = .ok ()) :
    ∃ (hne : p.Payment.Vouchers ≠ []),
      (p.Payment.Vouchers.head hne).ValidAt ≤ blockHeight + k.VoucherInterval
      ∧ p.TotalPrice ≤ (p.Payment.Vouchers.getLast hne).Amount := by
  obtain ⟨_, _, _, bh, _, first, rest, _, _, _, _, _, _, hbh, hvs, hfirst, _, hlast, _⟩ :=
    validateDealPayment_ok hacc
  rw [hheight] at hbh
  cases hbh
  have hne : p.Payment.Vouchers ≠ [] := by rw [hvs]; exact List.cons_ne_nil first rest
  refine ⟨hne, ?_, ?_⟩
  · simp only [hvs, List.head_cons]
    exact hfirst
  · simp only [hvs]
    exact hlast

/-- Witness of C6: the scenario proposal, accepted at offered price 9. -/
theorem validateDealPayment_vouchers_witness :
    validateDealPayment scenarioConstants (scenarioEnv scenarioConstants 9) scenarioMiner
        scenarioProposal = .ok ()
    ∧ ∃ (hne : scenarioProposal.Payment.Vouchers ≠ []),
        (scenarioProposal.Payment.Vouchers.head hne).ValidAt ≤ 0 + 1000
        ∧ 1000000 ≤ (scenarioProposal.Payment.Vouchers.getLast hne).Amount :=
  ⟨rfl, validateDealPayment_vouchers scenarioConstants (scenarioEnv scenarioConstants 9)
    scenarioMiner scenarioProposal 0 rfl rfl⟩

/-- C7: in an accepted proposal every voucher's signature verifies against
`(Payer, Channel, Amount, ValidAt)`; and a proposal that passes the price,
channel and first-voucher checks, whose vouchers are `pre ++ bad :: post` with
the loop passing on all of `pre` and the signature of `bad` not verifying, is
rejected with the reason `invalid signature in voucher`. -/
theorem validateDealPayment_signatures (k : Constants) (env : Env) (sm : Miner)
    (p : DealProposal) (f : Fmt) :
    (validateDealPayment k env sm p = .ok () →
      ∀ v ∈ p.Payment.Vouchers,
        env.VerifyVoucherSignature p.Payment.Payer p.Payment.Channel v.Amount v.ValidAt
          v.Signature = true)
    ∧ (∀ (price : Nat) (size : Nat) (channel : PaymentChannel)
        (blockHeight last : Nat) (pre post : List PaymentVoucher) (bad : PaymentVoucher),
        getStoragePrice env = .ok price →
        p.Size = some size →
        price * p.Duration * size ≤ p.TotalPrice →
        getPaymentChannel env p = .ok channel →
        channel.Target = sm.minerOwnerAddr →
        price * p.Duration * size ≤ channel.Amount →
        env.ChainBlockHeight = .ok blockHeight →
        p.Payment.Vouchers = pre ++ bad :: post →
        (∀ first ∈ p.Payment.Vouchers.head?, first.ValidAt ≤ blockHeight + k.VoucherInterval) →
        checkVouchers k env p blockHeight (blockHeight + k.VoucherInterval) pre = .ok last →
        env.VerifyVoucherSignature p.Payment.Payer p.Payment.Channel bad.Amount bad.ValidAt
          bad.Signature = false →
        validateDealPayment k env sm p = .error .invalidSignature
          ∧ PaymentError.invalidSignature.Error f = "invalid signature in voucher") := by
  constructor
  · intro hacc v hv
    obtain ⟨_, _, _, _, last, first, rest, _, _, _, _, _, _, _, hvs, _, hloop, _⟩ :=
      validateDealPayment_ok hacc
    rw [hvs] at hv
    exact (checkVouchers_ok_mem (first :: rest) _ last hloop v hv).1
  · intro price size channel blockHeight last pre post bad hprice hsize hp hch htarget hamount
      hbh hvs hfirst hpre hbad
    refine ⟨?_, rfl⟩
    have hloop : checkVouchers k env p blockHeight (blockHeight + k.VoucherInterval)
        p.Payment.Vouchers = .error .invalidSignature := by
      rw [hvs, checkVouchers_append, hpre]
      simp only [checkVouchers, checkVoucher, hbad, Bool.not_false, if_true]
    cases hcase : p.Payment.Vouchers with
    | nil =>
      rw [hcase] at hvs
      exact absurd hvs (by simp)
    | cons first rest =>
      rw [hcase] at hloop
      have hf : first.ValidAt ≤ blockHeight + k.VoucherInterval :=
        hfirst first (by simp [hcase])
      exact validateDealPayment_loop_error hprice hsize hp hch htarget hamount hbh hcase hf hloop

/-- Witness of C7: the scenario proposal at offered price 9 with the signature
of its second voucher flipped. -/
theorem validateDealPayment_signatures_witness :
    validateDealPayment scenarioConstants (scenarioEnv scenarioConstants 9) scenarioMiner
        { scenarioProposal with
          Payment := { scenarioProposal.Payment with
            Vouchers := [⟨333334, 10, "valid"⟩, ⟨666667, 20, "flipped"⟩,
              ⟨1000000, 30, "valid"⟩] } }
      = .error .invalidSignature
    ∧ PaymentError.invalidSignature.Error decimalFmt = "invalid signature in voucher" :=
  (validateDealPayment_signatures scenarioConstants (scenarioEnv scenarioConstants 9)
    scenarioMiner
    { scenarioProposal with
      Payment := { scenarioProposal.Payment with
        Vouchers := [⟨333334, 10, "valid"⟩, ⟨666667, 20, "flipped"⟩,
          ⟨1000000, 30, "valid"⟩] } } decimalFmt).2
    9 1024 ⟨"minerOwner", 1000000, 2030⟩ 0 10 [⟨333334, 10, "valid"⟩] [⟨1000000, 30, "valid"⟩]
    ⟨666667, 20, "flipped"⟩ rfl rfl (by decide) rfl rfl (by decide) rfl rfl
    (by intro first h; cases h; decide) rfl rfl

/-! ## The happy-path scenario -/

/-- C4, as stated, fails: at offered price 10 the scenario proposal is not
accepted by `validateDealPayment`, whatever the constants. -/
theorem happy_path_not_accepted :
    ¬ ∃ k : Constants,
      validateDealPayment k (scenarioEnv k 10) scenarioMiner scenarioProposal = .ok () := by
  rintro ⟨k, h⟩
  have herr : validateDealPayment k (scenarioEnv k 10) scenarioMiner scenarioProposal
      = .error (.priceTooLow 1000000 1024000 10) := rfl
  rw [herr] at h
  cases h

/-- C4, amended: for the scenario proposal, channel and height, at offered price
10 the expected price is `10 * 100 * 1024 = 1024000 > 1000000`, so
`validateDealPayment` returns the underpriced error and `receiveStorageProposal`
returns a response with `State = Rejected`; at an offered price of at most 9,
with `VoucherInterval ≥ 10`, `validateDealPayment` returns no error and
`receiveStorageProposal` returns a response with `State = Accepted`. -/
theorem happy_path_amended (k : Constants) (f : Fmt) :
    (validateDealPayment k (scenarioEnv k 10) scenarioMiner scenarioProposal
        = .error (.priceTooLow 1000000 1024000 10)
      ∧ ∃ resp,
          (receiveStorageProposal k (scenarioEnv k 10) f (acceptProposal (scenarioEnv k 10))
            (rejectProposal (scenarioEnv k 10)) scenarioMiner scenarioProposal).1 = .ok resp
          ∧ resp.State = .Rejected)
    ∧ (10 ≤ k.VoucherInterval → ∀ price ≤ 9,
        validateDealPayment k (scenarioEnv k price) scenarioMiner scenarioProposal = .ok ()
        ∧ ∃ resp,
            (receiveStorageProposal k (scenarioEnv k price) f
              (acceptProposal (scenarioEnv k price)) (rejectProposal (scenarioEnv k price))
              scenarioMiner scenarioProposal).1 = .ok resp
            ∧ resp.State = .Accepted) := by
  have herr : validateDealPayment k (scenarioEnv k 10) scenarioMiner scenarioProposal
      = .error (.priceTooLow 1000000 1024000 10) := rfl
  refine ⟨⟨herr, ?_⟩, ?_⟩
  · unfold receiveStorageProposal
    rw [herr]
    exact ⟨_, rfl, rfl⟩
  · intro hk price hprice
    have hacc : validateDealPayment k (scenarioEnv k price) scenarioMiner scenarioProposal
        = .ok () := by
      refine @validateDealPayment_complete_of_lt k (scenarioEnv k price) scenarioMiner
        scenarioProposal price ⟨"minerOwner", 1000000, 30 + k.ChannelExpiryInterval⟩ 0
        rfl rfl rfl (by decide) ?_
      simp only [ListedConditions, scenarioProposal, scenarioEnv, scenarioMiner]
      refine ⟨by simp, ?_, ⟨trivial, ?_⟩, by simp, ?_, ⟨?_, ?_, ?_⟩, ?_, ?_⟩
      · intro size hs
        cases hs
        omega
      · intro size hs
        cases hs
        omega
      · intro first h
        cases h
        simp only
        omega
      · intro v hv
        simp only [List.mem_cons, List.mem_singleton, List.not_mem_nil, or_false] at hv
        rcases hv with rfl | rfl | rfl <;> simp
      · simp only [List.chain'_cons, List.chain'_singleton, and_true]
        omega
      · intro v hv
        simp only [List.mem_cons, List.mem_singleton, List.not_mem_nil, or_false] at hv
        rcases hv with rfl | rfl | rfl <;> norm_num
      · intro final h
        cases h
        exact le_refl _
      · intro final h
        cases h
        exact le_refl _
    refine ⟨hacc, ?_⟩
    unfold receiveStorageProposal
    rw [hacc]
    exact ⟨_, rfl, rfl⟩

/-- Witness of C4, amended: the constants `1000` and `2000`, offered price 9. -/
theorem happy_path_amended_witness :
    (10 ≤ scenarioConstants.VoucherInterval ∧ 9 ≤ 9)
    ∧ validateDealPayment scenarioConstants (scenarioEnv scenarioConstants 9) scenarioMiner
        scenarioProposal = .ok ()
    ∧ ∃ resp,
        (receiveStorageProposal scenarioConstants (scenarioEnv scenarioConstants 9) decimalFmt
          (acceptProposal (scenarioEnv scenarioConstants 9))
          (rejectProposal (scenarioEnv scenarioConstants 9))
          scenarioMiner scenarioProposal).1 = .ok resp
        ∧ resp.State = .Accepted :=
  ⟨⟨by decide, le_refl 9⟩,
    (happy_path_amended scenarioConstants decimalFmt).2 (by decide) 9 (le_refl 9)⟩

/-! ## Completeness of the validator -/

/-- C8 fails at `longProposal`: price, channel and height are obtained and all
eight listed conditions hold, the linearity test included
(`2^63 * 2^63 ≥ 2^63 * (0 - 0)`), yet `validateDealPayment` rejects the
proposal: the source multiplies the voucher amount by `int64(Duration) = -2^63`. -/
theorem validateDealPayment_rejects_long_duration :
    getStoragePrice longEnv = .ok 1
    ∧ getPaymentChannel longEnv longProposal = .ok longChannel
    ∧ longEnv.ChainBlockHeight = .ok 0
    ∧ ListedConditions scenarioConstants longEnv scenarioMiner longProposal 1 longChannel 0
    ∧ validateDealPayment scenarioConstants longEnv scenarioMiner longProposal
        = .error (.voucherAmountTooLow (2 ^ 63) 0) := by
  refine ⟨rfl, rfl, rfl, ?_, rfl⟩
  simp [ListedConditions, longProposal, longChannel, longEnv, scenarioEnv, scenarioMiner,
    scenarioConstants]

/-! ## The proposal entry points -/

/-- C9: when `validateDealPayment` returns an error `e` on `p`, the cid of `p`
is `c` and the record is marshalled and written, `receiveStorageProposal` with
the default rejector returns a response with `State = Rejected`, `Message` the
text of `e` and `ProposalCid = c`; afterwards the deal map holds `{p, response}`
under `c`, `Query c` returns the response, and no worker has been started. -/
theorem receiveStorageProposal_reject (k : Constants) (env : Env) (f : Fmt)
    (proposalAcceptor : Acceptor) (sm : Miner) (p : DealProposal) (e : PaymentError) (c : Cid)
    (marshalled : Bytes)
    (herr : validateDealPayment k env sm p = .error e)
    (hcid : env.ToCid p = .ok c)
    (hdump : env.DumpObject (some ⟨p, ⟨.Rejected, e.Error f, c, none, "signaturrreee"⟩⟩)
      = .ok marshalled)
    (hput : env.PutError (KeyWithNamespaces [minerDatastorePrefix, c.key]) marshalled = none) :
    ∃ (resp : DealResponse) (sm1 : Miner),
      receiveStorageProposal k env f proposalAcceptor (rejectProposal env) sm p = (.ok resp, sm1)
      ∧ resp.State = .Rejected
      ∧ resp.Message = e.Error f
      ∧ resp.ProposalCid = c
      ∧ sm1.deals c = some ⟨p, resp⟩
      ∧ Query sm1 c = resp
      ∧ sm1.workers = sm.workers := by
  refine ⟨⟨.Rejected, e.Error f, c, none, "signaturrreee"⟩,
    { sm.storeDeal c ⟨p, ⟨.Rejected, e.Error f, c, none, "signaturrreee"⟩⟩ with
      dealsDs := dsPut sm.dealsDs (KeyWithNamespaces [minerDatastorePrefix, c.key])
        marshalled }, ?_, rfl, rfl, rfl, ?_, ?_, rfl⟩
  · unfold receiveStorageProposal
    rw [herr]
    simp only [rejectProposal, hcid, saveDeal, Miner.storeDeal, mapSet, if_true, hdump, hput]
  · simp only [Miner.storeDeal, mapSet, if_true]
  · simp only [Query, Miner.storeDeal, mapSet, if_true]

/-- Witness of C9: the scenario proposal at offered price 10, where the
validator returns the underpriced error. -/
theorem receiveStorageProposal_reject_witness :
    validateDealPayment scenarioConstants (scenarioEnv scenarioConstants 10) scenarioMiner
        scenarioProposal = .error (.priceTooLow 1000000 1024000 10)
    ∧ ∃ (resp : DealResponse) (sm1 : Miner),
        receiveStorageProposal scenarioConstants (scenarioEnv scenarioConstants 10) decimalFmt
            (acceptProposal (scenarioEnv scenarioConstants 10))
            (rejectProposal (scenarioEnv scenarioConstants 10)) scenarioMiner scenarioProposal
          = (.ok resp, sm1)
        ∧ resp.State = .Rejected
        ∧ resp.Message = (PaymentError.priceTooLow 1000000 1024000 10).Error decimalFmt
        ∧ resp.ProposalCid = ⟨"proposal"⟩
        ∧ sm1.deals ⟨"proposal"⟩ = some ⟨scenarioProposal, resp⟩
        ∧ Query sm1 ⟨"proposal"⟩ = resp
        ∧ sm1.workers = scenarioMiner.workers :=
  ⟨rfl, receiveStorageProposal_reject scenarioConstants (scenarioEnv scenarioConstants 10)
    decimalFmt (acceptProposal (scenarioEnv scenarioConstants 10)) scenarioMiner
    scenarioProposal (.priceTooLow 1000000 1024000 10) ⟨"proposal"⟩ [] rfl rfl rfl rfl⟩

/-- C10, as stated, fails: with no sector builder the validator accepts the
scenario proposal, yet `handleMakeDeal` closes the stream without handing any
response to the writer. -/
theorem handleMakeDeal_silent_without_sector_builder :
    validateDealPayment scenarioConstants noBuilderEnv scenarioMiner scenarioProposal = .ok ()
    ∧ (handleMakeDeal scenarioConstants noBuilderEnv decimalFmt (acceptProposal noBuilderEnv)
        (rejectProposal noBuilderEnv) scenarioMiner scenarioStream).2.written = []
    ∧ (handleMakeDeal scenarioConstants noBuilderEnv decimalFmt (acceptProposal noBuilderEnv)
        (rejectProposal noBuilderEnv) scenarioMiner scenarioStream).2.closed = true :=
  ⟨rfl, rfl, rfl⟩

/-- C10, amended: for a proposal `p` read on the make-deal stream,
`handleMakeDeal` closes the stream, and hands a response to the writer exactly
when `receiveStorageProposal` returns one: then it writes that one response, and
when `receiveStorageProposal` returns an error it writes nothing. With the cid
computed and a datastore that stores, a response is returned, `Accepted` when
the validator accepts (a sector builder being available) and `Rejected` with the
validator's reason otherwise. An error is returned when the validator accepts
and there is no sector builder, when the cid computation fails, and when every
datastore write fails. -/
theorem handleMakeDeal_response (k : Constants) (env : Env) (f : Fmt) (sm : Miner)
    (s : Stream) (p : DealProposal) (hin : s.incoming = .ok p) :
    (handleMakeDeal k env f (acceptProposal env) (rejectProposal env) sm s).2.closed = true
    ∧ (∀ resp,
        (receiveStorageProposal k env f (acceptProposal env) (rejectProposal env) sm p).1
          = .ok resp →
        (handleMakeDeal k env f (acceptProposal env) (rejectProposal env) sm s).2.written
          = s.written ++ [resp])
    ∧ (∀ err,
        (receiveStorageProposal k env f (acceptProposal env) (rejectProposal env) sm p).1
          = .error err →
        (handleMakeDeal k env f (acceptProposal env) (rejectProposal env) sm s).2.written
          = s.written)
    ∧ (∀ c, env.ToCid p = .ok c →
        (validateDealPayment k env sm p = .ok () → env.SectorBuilderAvailable = true) →
        (∀ d, ∃ marshalled, env.DumpObject d = .ok marshalled) →
        (∀ key marshalled, env.PutError key marshalled = none) →
        ∃ resp,
          (receiveStorageProposal k env f (acceptProposal env) (rejectProposal env) sm p).1
            = .ok resp
          ∧ resp.ProposalCid = c
          ∧ (validateDealPayment k env sm p = .ok () → resp.State = .Accepted)
          ∧ (∀ e, validateDealPayment k env sm p = .error e →
              resp.State = .Rejected ∧ resp.Message = e.Error f))
    ∧ (validateDealPayment k env sm p = .ok () → env.SectorBuilderAvailable = false →
        ∃ err,
          (receiveStorageProposal k env f (acceptProposal env) (rejectProposal env) sm p).1
            = .error err)
    ∧ (∀ e, env.ToCid p = .error e →
        ∃ err,
          (receiveStorageProposal k env f (acceptProposal env) (rejectProposal env) sm p).1
            = .error err)
    ∧ ((∀ key marshalled, env.PutError key marshalled ≠ none) →
        ∃ err,
          (receiveStorageProposal k env f (acceptProposal env) (rejectProposal env) sm p).1
            = .error err) := by
  refine ⟨?_, ?_, ?_, ?_, ?_, ?_, ?_⟩
  · unfold handleMakeDeal
    rw [hin]
    simp only
    split <;> rfl
  · intro resp hresp
    unfold handleMakeDeal
    rw [hin]
    simp only
    split
    · rename_i heq
      rw [heq] at hresp
      cases hresp
    · rename_i heq
      rw [heq] at hresp
      cases hresp
      rfl
  · intro err herr
    unfold handleMakeDeal
    rw [hin]
    simp only
    split
    · rfl
    · rename_i heq
      rw [heq] at herr
      cases herr
  · intro c hcid hsb hdump hput
    unfold receiveStorageProposal
    cases hv : validateDealPayment k env sm p with
    | error e =>
      obtain ⟨marshalled, hm⟩ := hdump
        (some ⟨p, ⟨.Rejected, e.Error f, c, none, "signaturrreee"⟩⟩)
      refine ⟨⟨.Rejected, e.Error f, c, none, "signaturrreee"⟩, ?_, rfl, ?_, ?_⟩
      · simp only [rejectProposal, hcid, saveDeal, Miner.storeDeal, mapSet, if_true, hm, hput]
      · intro h
        cases h
      · intro e1 h
        cases h
        exact ⟨rfl, rfl⟩
    | ok u =>
      cases u
      obtain ⟨marshalled, hm⟩ := hdump
        (some ⟨p, ⟨.Accepted, "", c, none, "signaturrreee"⟩⟩)
      refine ⟨⟨.Accepted, "", c, none, "signaturrreee"⟩, ?_, rfl, ?_, ?_⟩
      · simp only [acceptProposal, hsb hv, Bool.not_true, Bool.false_eq_true, if_false, hcid,
          saveDeal, Miner.storeDeal, mapSet, if_true, hm, hput]
      · intro _
        rfl
      · intro e1 h
        cases h
  · intro hv hsb
    unfold receiveStorageProposal
    rw [hv]
    simp only [acceptProposal, hsb, Bool.not_false, if_true]
    exact ⟨_, rfl⟩
  · intro e hcid
    unfold receiveStorageProposal
    cases validateDealPayment k env sm p with
    | error e1 =>
      simp only [rejectProposal, hcid]
      exact ⟨_, rfl⟩
    | ok u =>
      cases u
      simp only [acceptProposal, hcid]
      split <;> exact ⟨_, rfl⟩
  · intro hput
    have hsave : ∀ (sm1 : Miner) (c : Cid), ∃ err, saveDeal env sm1 c = .error err := by
      intro sm1 c
      unfold saveDeal
      cases env.DumpObject (sm1.deals c) with
      | error err => exact ⟨_, rfl⟩
      | ok marshalled =>
        simp only
        cases hp : env.PutError (KeyWithNamespaces [minerDatastorePrefix, c.key]) marshalled with
        | none => exact absurd hp (hput _ _)
        | some err => exact ⟨_, rfl⟩
    unfold receiveStorageProposal
    cases validateDealPayment k env sm p with
    | error e1 =>
      simp only [rejectProposal]
      cases env.ToCid p with
      | error err => exact ⟨_, rfl⟩
      | ok c =>
        simp only
        obtain ⟨err, herr⟩ := hsave
          (sm.storeDeal c ⟨p, ⟨.Rejected, e1.Error f, c, none, "signaturrreee"⟩⟩) c
        rw [herr]
        exact ⟨_, rfl⟩
    | ok u =>
      cases u
      simp only [acceptProposal]
      split
      · exact ⟨_, rfl⟩
      · cases env.ToCid p with
        | error err => exact ⟨_, rfl⟩
        | ok c =>
          simp only
          obtain ⟨err, herr⟩ := hsave
            (sm.storeDeal c ⟨p, ⟨.Accepted, "", c, none, "signaturrreee"⟩⟩) c
          rw [herr]
          exact ⟨_, rfl⟩

/-- Witness of C10, amended: the scenario proposal at offered price 9 on a fresh
stream; the one response written is the `Accepted` one. -/
theorem handleMakeDeal_response_witness :
    scenarioStream.incoming = .ok scenarioProposal
    ∧ (handleMakeDeal scenarioConstants (scenarioEnv scenarioConstants 9) decimalFmt
        (acceptProposal (scenarioEnv scenarioConstants 9))
        (rejectProposal (scenarioEnv scenarioConstants 9)) scenarioMiner scenarioStream).2.written
      = [] ++ [⟨.Accepted, "", ⟨"proposal"⟩, none, "signaturrreee"⟩] :=
  ⟨rfl, (handleMakeDeal_response scenarioConstants (scenarioEnv scenarioConstants 9) decimalFmt
    scenarioMiner scenarioStream scenarioProposal rfl).2.1
    ⟨.Accepted, "", ⟨"proposal"⟩, none, "signaturrreee"⟩ rfl⟩

/-! ## The registry of deals awaiting seal: theorems -/

/-- C11: race symmetry. From the empty registry, with `m.SectorID = s`, both
orders of `add(s, d)` and `success(m)` invoke `onSuccess(d, m)` exactly once and
`onFail` never, and both orders of `add(s, d)` and `fail(s, msg)` invoke
`onFail(d, msg)` exactly once and `onSuccess` never. -/
theorem registry_race_symmetry (s : Nat) (d : Cid) (m : SealedSectorMetadata) (msg : String)
    (hm : m.SectorID = s) :
    (runRegistry [.add s d, .success m] .empty).2 = [.onSuccess d m]
    ∧ (runRegistry [.success m, .add s d] .empty).2 = [.onSuccess d m]
    ∧ (runRegistry [.add s d, .fail s msg] .empty).2 = [.onFail d msg]
    ∧ (runRegistry [.fail s msg, .add s d] .empty).2 = [.onFail d msg] := by
  subst hm
  refine ⟨?_, ?_, ?_, ?_⟩ <;>
    simp [runRegistry, RegistryOp.apply, dealsAwaitingSealStruct.add,
      dealsAwaitingSealStruct.success, dealsAwaitingSealStruct.fail,
      dealsAwaitingSealStruct.empty, dealsAwaitingSealStruct.dealsOf, mapSet, mapDelete]

/-- Witness of C11: sector 7, either order of registration and success. -/
theorem registry_race_symmetry_witness :
    sector7.SectorID = 7
    ∧ (runRegistry [.add 7 ⟨"D"⟩, .success sector7] .empty).2 = [.onSuccess ⟨"D"⟩ sector7]
    ∧ (runRegistry [.success sector7, .add 7 ⟨"D"⟩] .empty).2 = [.onSuccess ⟨"D"⟩ sector7] :=
  ⟨rfl, (registry_race_symmetry 7 ⟨"D"⟩ sector7 "" rfl).1,
    (registry_race_symmetry 7 ⟨"D"⟩ sector7 "" rfl).2.1⟩

/-- C12: `add` is the three-way `register` of the specification on every
registry state; and after `success(m)` for sector 7 followed by `add(7, D)` on
the empty registry, `SuccessfulSectors` is empty. -/
theorem registry_add_eq_registerSpec (r : dealsAwaitingSealStruct) (sectorID : Nat)
    (dealCid : Cid) :
    r.add sectorID dealCid = registerSpec r sectorID dealCid
    ∧ ∀ (m : SealedSectorMetadata) (D : Cid), m.SectorID = 7 →
        ∀ x, (runRegistry [.success m, .add 7 D] .empty).1.SuccessfulSectors x = none := by
  constructor
  · unfold dealsAwaitingSealStruct.add registerSpec
    cases hs : r.SuccessfulSectors sectorID with
    | some sector =>
      simp only [Option.isSome_some, if_true, Option.toList_some, List.map_cons, List.map_nil,
        Prod.mk.injEq, and_true, dealsAwaitingSealStruct.mk.injEq, true_and]
      funext x
      simp [mapDelete]
    | none =>
      cases hf : r.FailedSectors sectorID with
      | some message =>
        simp only [Option.isSome_some, if_true, Option.toList_some, List.map_cons, List.map_nil,
          Option.isSome_none, Bool.false_eq_true, if_false,
          Prod.mk.injEq, and_true, dealsAwaitingSealStruct.mk.injEq, true_and]
        funext x
        simp [mapDelete]
      | none =>
        cases hd : r.SectorsToDeals sectorID with
        | some deals =>
          simp only [Option.isSome_none, Bool.false_eq_true, if_false, Prod.mk.injEq, and_true,
            dealsAwaitingSealStruct.mk.injEq, mapSet]
          funext x
          by_cases hx : x = sectorID
          · simp [mapSet, hx, hd]
          · simp [mapSet, hx]
        | none =>
          simp only [Option.isSome_none, Bool.false_eq_true, if_false, Prod.mk.injEq, and_true,
            dealsAwaitingSealStruct.mk.injEq, mapSet]
          funext x
          by_cases hx : x = sectorID
          · simp [mapSet, hx, hd]
          · simp [mapSet, hx]
  · intro m D hm x
    simp only [runRegistry, RegistryOp.apply, dealsAwaitingSealStruct.success,
      dealsAwaitingSealStruct.add, dealsAwaitingSealStruct.empty, mapSet, mapDelete, hm, if_true]
    by_cases hx : x = 7 <;> simp [hx]

/-- Witness of C12: success for sector 7, then `add(7, D)`. -/
theorem registry_add_eq_registerSpec_witness :
    sector7.SectorID = 7
    ∧ ∀ x, (runRegistry [.success sector7, .add 7 ⟨"D"⟩] .empty).1.SuccessfulSectors x = none :=
  ⟨rfl, (registry_add_eq_registerSpec .empty 7 ⟨"D"⟩).2 sector7 ⟨"D"⟩ rfl⟩

/-- C13: on every registry state `success(m)` stores `m` under
`SuccessfulSectors[m.SectorID]`, invokes `onSuccess(d, m)` once for each entry
`d` of `SectorsToDeals[m.SectorID]`, in registration order, and nothing else,
removes the key `m.SectorID` from `SectorsToDeals`, and leaves the other sectors
and `FailedSectors` unchanged; `fail(sectorID, msg)` does the same with
`FailedSectors` and `onFail`. -/
theorem registry_success_fail (r : dealsAwaitingSealStruct) (m : SealedSectorMetadata)
    (sectorID : Nat) (msg : String) :
    ((r.success m).1.SuccessfulSectors m.SectorID = some m
      ∧ (∀ deals, r.SectorsToDeals m.SectorID = some deals →
          (r.success m).2 = deals.map (fun d => Callback.onSuccess d m))
      ∧ (r.SectorsToDeals m.SectorID = none → (r.success m).2 = [])
      ∧ (r.success m).1.SectorsToDeals m.SectorID = none
      ∧ (∀ x, x ≠ m.SectorID →
          (r.success m).1.SectorsToDeals x = r.SectorsToDeals x
          ∧ (r.success m).1.SuccessfulSectors x = r.SuccessfulSectors x)
      ∧ (r.success m).1.FailedSectors = r.FailedSectors)
    ∧ ((r.fail sectorID msg).1.FailedSectors sectorID = some msg
      ∧ (∀ deals, r.SectorsToDeals sectorID = some deals →
          (r.fail sectorID msg).2 = deals.map (fun d => Callback.onFail d msg))
      ∧ (r.SectorsToDeals sectorID = none → (r.fail sectorID msg).2 = [])
      ∧ (r.fail sectorID msg).1.SectorsToDeals sectorID = none
      ∧ (∀ x, x ≠ sectorID →
          (r.fail sectorID msg).1.SectorsToDeals x = r.SectorsToDeals x
          ∧ (r.fail sectorID msg).1.FailedSectors x = r.FailedSectors x)
      ∧ (r.fail sectorID msg).1.SuccessfulSectors = r.SuccessfulSectors) := by
  refine ⟨⟨?_, ?_, ?_, ?_, ?_, rfl⟩, ⟨?_, ?_, ?_, ?_, ?_, rfl⟩⟩
  · simp [dealsAwaitingSealStruct.success, mapSet]
  · intro deals h
    simp [dealsAwaitingSealStruct.success, dealsAwaitingSealStruct.dealsOf, h]
  · intro h
    simp [dealsAwaitingSealStruct.success, dealsAwaitingSealStruct.dealsOf, h]
  · simp [dealsAwaitingSealStruct.success, mapDelete]
  · intro x hx
    simp [dealsAwaitingSealStruct.success, mapDelete, mapSet, hx]
  · simp [dealsAwaitingSealStruct.fail, mapSet]
  · intro deals h
    simp [dealsAwaitingSealStruct.fail, dealsAwaitingSealStruct.dealsOf, h]
  · intro h
    simp [dealsAwaitingSealStruct.fail, dealsAwaitingSealStruct.dealsOf, h]
  · simp [dealsAwaitingSealStruct.fail, mapDelete]
  · intro x hx
    simp [dealsAwaitingSealStruct.fail, mapDelete, mapSet, hx]

/-- Witness of C13: two deals registered for sector 7, then `success`. -/
theorem registry_success_fail_witness :
    (runRegistry [.add 7 ⟨"D1"⟩, .add 7 ⟨"D2"⟩] .empty).1.SectorsToDeals sector7.SectorID
      = some [⟨"D1"⟩, ⟨"D2"⟩]
    ∧ ((runRegistry [.add 7 ⟨"D1"⟩, .add 7 ⟨"D2"⟩] .empty).1.success sector7).2
      = [.onSuccess ⟨"D1"⟩ sector7, .onSuccess ⟨"D2"⟩ sector7] :=
  ⟨rfl, (registry_success_fail (runRegistry [.add 7 ⟨"D1"⟩, .add 7 ⟨"D2"⟩] .empty).1 sector7 7
    "").1.2.1 [⟨"D1"⟩, ⟨"D2"⟩] rfl⟩

/-- Every operation of the registry keeps `Exclusive`. -/
theorem RegistryOp.apply_exclusive (r : dealsAwaitingSealStruct) (op : RegistryOp)
    (h : r.Exclusive) : (op.apply r).1.Exclusive := by
  intro s hs
  cases op with
  | add sectorID dealCid =>
    simp only [RegistryOp.apply, dealsAwaitingSealStruct.add] at hs ⊢
    cases hsu : r.SuccessfulSectors sectorID with
    | some sector =>
      simp only [hsu] at hs ⊢
      have := h s hs
      by_cases hx : s = sectorID
      · simp [mapDelete, hx, this.2] at this ⊢
        exact this.2
      · simp [mapDelete, hx, this]
    | none =>
      simp only [hsu] at hs ⊢
      cases hfa : r.FailedSectors sectorID with
      | some message =>
        simp only [hfa] at hs ⊢
        have := h s hs
        by_cases hx : s = sectorID
        · simp [mapDelete, hx, this.1] at this ⊢
          exact this.1
        · simp [mapDelete, hx, this]
      | none =>
        simp only [hfa] at hs ⊢
        by_cases hx : s = sectorID
        · subst hx
          cases hd : r.SectorsToDeals s <;> simp [hsu, hfa]
        · cases hd : r.SectorsToDeals sectorID <;>
            simp only [hd, mapSet, hx, if_false] at hs ⊢ <;> exact h s hs
  | success sector =>
    simp only [RegistryOp.apply, dealsAwaitingSealStruct.success, mapDelete, mapSet] at hs ⊢
    by_cases hx : s = sector.SectorID
    · simp [hx] at hs
    · simp only [hx, if_false] at hs ⊢
      exact h s hs
  | fail sectorID message =>
    simp only [RegistryOp.apply, dealsAwaitingSealStruct.fail, mapDelete, mapSet] at hs ⊢
    by_cases hx : s = sectorID
    · simp [hx] at hs
    · simp only [hx, if_false] at hs ⊢
      exact h s hs

/-- A sequence of operations of the registry keeps `Exclusive`. -/
theorem runRegistry_exclusive :
    ∀ (ops : List RegistryOp) (r : dealsAwaitingSealStruct), r.Exclusive →
      (runRegistry ops r).1.Exclusive
  | [], _, h => h
  | op :: ops, r, h => runRegistry_exclusive ops (op.apply r).1 (RegistryOp.apply_exclusive r op h)

/-- C14, as stated, fails: after `success` for sector 7 and then `fail` for
sector 7, the sequence `OnCommitmentAddedToChain` performs when persisting the
registry fails, sector 7 is a key of both `SuccessfulSectors` and
`FailedSectors`. -/
theorem registry_success_then_fail_overlap :
    (runRegistry [.success sector7, .fail 7 "failed persisting deals awaiting seal"]
        .empty).1.SuccessfulSectors 7 = some sector7
    ∧ (runRegistry [.success sector7, .fail 7 "failed persisting deals awaiting seal"]
        .empty).1.FailedSectors 7 = some "failed persisting deals awaiting seal" :=
  ⟨rfl, rfl⟩

/-- C14, amended: in every registry state reachable from the empty registry by
a sequence of `add`, `success` and `fail` calls, the key set of `SectorsToDeals`
is disjoint from the key sets of `SuccessfulSectors` and of `FailedSectors`. -/
theorem registry_sectorsToDeals_exclusive (ops : List RegistryOp) (s : Nat) :
    (runRegistry ops .empty).1.SectorsToDeals s ≠ none →
      (runRegistry ops .empty).1.SuccessfulSectors s = none
      ∧ (runRegistry ops .empty).1.FailedSectors s = none :=
  runRegistry_exclusive ops .empty (fun _ h => absurd rfl h) s

/-- Witness of C14, amended: a deal registered for sector 7 after a success and
a failure of sector 9. -/
theorem registry_sectorsToDeals_exclusive_witness :
    (runRegistry [.success ⟨9, [], []⟩, .fail 9 "x", .add 7 ⟨"D"⟩] .empty).1.SectorsToDeals 7
      ≠ none
    ∧ (runRegistry [.success ⟨9, [], []⟩, .fail 9 "x", .add 7 ⟨"D"⟩] .empty).1.SuccessfulSectors 7
      = none
    ∧ (runRegistry [.success ⟨9, [], []⟩, .fail 9 "x", .add 7 ⟨"D"⟩] .empty).1.FailedSectors 7
      = none :=
  ⟨by simp [runRegistry, RegistryOp.apply, dealsAwaitingSealStruct.add,
      dealsAwaitingSealStruct.success, dealsAwaitingSealStruct.fail,
      dealsAwaitingSealStruct.empty, mapSet, mapDelete],
    registry_sectorsToDeals_exclusive [.success ⟨9, [], []⟩, .fail 9 "x", .add 7 ⟨"D"⟩] 7
      (by simp [runRegistry, RegistryOp.apply, dealsAwaitingSealStruct.add,
        dealsAwaitingSealStruct.success, dealsAwaitingSealStruct.fail,
        dealsAwaitingSealStruct.empty, mapSet, mapDelete])⟩

/-! ## The deal store -/

/-- C17: `Query(c)` returns the stored response when the deal map has a record
under `c`, and otherwise a response with `State = Unknown` and
`Message = "no such deal"`. `Query` is a function of the miner's state alone:
it returns no new state. -/
theorem Query_spec (sm : Miner) (c : Cid) :
    (∀ d, sm.deals c = some d → Query sm c = d.Response)
    ∧ (sm.deals c = none →
        (Query sm c).State = .Unknown ∧ (Query sm c).Message = "no such deal") := by
  constructor
  · intro d h
    simp [Query, h]
  · intro h
    simp [Query, h]

/-- Witness of C17: a query for an unknown cid, then for the cid of the
rejected scenario proposal. -/
theorem Query_spec_witness :
    (scenarioMiner.deals ⟨"proposal"⟩ = none
      ∧ (Query scenarioMiner ⟨"proposal"⟩).State = .Unknown
      ∧ (Query scenarioMiner ⟨"proposal"⟩).Message = "no such deal")
    ∧ ((rejectProposal (scenarioEnv scenarioConstants 10) scenarioMiner scenarioProposal
          "underpriced").2.deals ⟨"proposal"⟩
        = some ⟨scenarioProposal, ⟨.Rejected, "underpriced", ⟨"proposal"⟩, none, "signaturrreee"⟩⟩
      ∧ Query (rejectProposal (scenarioEnv scenarioConstants 10) scenarioMiner scenarioProposal
          "underpriced").2 ⟨"proposal"⟩
        = ⟨.Rejected, "underpriced", ⟨"proposal"⟩, none, "signaturrreee"⟩) :=
  ⟨⟨rfl, (Query_spec scenarioMiner ⟨"proposal"⟩).2 rfl⟩,
    ⟨rfl, (Query_spec (rejectProposal (scenarioEnv scenarioConstants 10) scenarioMiner
      scenarioProposal "underpriced").2 ⟨"proposal"⟩).1 _ rfl⟩⟩

/-- The characters of a datastore key of two namespaces. -/
theorem KeyWithNamespaces_pair_data (a b : String) :
    (KeyWithNamespaces [a, b]).data = '/' :: (a.data ++ '/' :: b.data) := by
  simp [KeyWithNamespaces, String.intercalate, String.intercalate.go]

/-- Different cids have different datastore keys. -/
theorem dealKey_injective {c1 c2 : Cid} (h : dealKey c1 = dealKey c2) : c1 = c2 := by
  have hd := congrArg String.data h
  unfold dealKey at hd
  rw [KeyWithNamespaces_pair_data, KeyWithNamespaces_pair_data] at hd
  simp only [List.cons.injEq, true_and, List.append_cancel_left_eq] at hd
  cases c1
  cases c2
  simp only [Cid.mk.injEq]
  exact String.ext hd

/-- The key of a deal record is under the prefix `loadDeals` queries. -/
theorem hasPrefix_dealKey (c : Cid) :
    hasPrefix ("/" ++ minerDatastorePrefix) (dealKey c) = true := by
  unfold hasPrefix dealKey
  rw [KeyWithNamespaces_pair_data]
  simp [minerDatastorePrefix]

/-- The loop of `loadDeals` over entries that all decode to records of `deals`:
no error, and the loaded map is `deals` at the cids of the entries and
untouched elsewhere. -/
theorem loadEntries_of_records (env : Env) (deals : Cid → Option storageDeal) :
    ∀ (es : List (String × Bytes)) (m0 : Cid → Option storageDeal),
      (∀ e ∈ es, ∃ d, env.DecodeDeal e.2 = .ok d ∧ deals d.Response.ProposalCid = some d) →
      (loadEntries env es m0).1 = none
      ∧ ∀ c,
          ((∃ e ∈ es, ∃ d, env.DecodeDeal e.2 = .ok d ∧ d.Response.ProposalCid = c) →
            (loadEntries env es m0).2 c = deals c)
          ∧ ((¬ ∃ e ∈ es, ∃ d, env.DecodeDeal e.2 = .ok d ∧ d.Response.ProposalCid = c) →
            (loadEntries env es m0).2 c = m0 c)
  | [], m0, _ => by
    refine ⟨rfl, fun c => ⟨?_, fun _ => rfl⟩⟩
    rintro ⟨e, he, _⟩
    cases he
  | e :: es, m0, h => by
    obtain ⟨d, hd, hrec⟩ := h e (List.mem_cons_self e es)
    have ih := loadEntries_of_records env deals es (mapSet m0 d.Response.ProposalCid d)
      (fun e1 he1 => h e1 (List.mem_cons_of_mem e he1))
    have hstep : loadEntries env (e :: es) m0
        = loadEntries env es (mapSet m0 d.Response.ProposalCid d) := by
      simp only [loadEntries, hd]
    rw [hstep]
    refine ⟨ih.1, fun c => ⟨?_, ?_⟩⟩
    · rintro ⟨e1, he1, d1, hd1, hc1⟩
      by_cases hrest : ∃ e2 ∈ es, ∃ d2, env.DecodeDeal e2.2 = .ok d2 ∧ d2.Response.ProposalCid = c
      · exact (ih.2 c).1 hrest
      · rw [(ih.2 c).2 hrest]
        rcases List.mem_cons.mp he1 with rfl | hmem
        · rw [hd] at hd1
          cases hd1
          subst hc1
          simp [mapSet, hrec]
        · exact absurd ⟨e1, hmem, d1, hd1, hc1⟩ hrest
    · intro hnone
      have hrest : ¬ ∃ e2 ∈ es, ∃ d2, env.DecodeDeal e2.2 = .ok d2 ∧ d2.Response.ProposalCid = c := by
        rintro ⟨e2, he2, d2, hd2, hc2⟩
        exact hnone ⟨e2, List.mem_cons_of_mem e he2, d2, hd2, hc2⟩
      rw [(ih.2 c).2 hrest]
      have hne : c ≠ d.Response.ProposalCid := by
        intro hc
        exact hnone ⟨e, List.mem_cons_self e es, d, hd, hc.symm⟩
      simp [mapSet, hne]

/-- When the datastore agrees with the deal map, `loadDeals` returns no error
and rebuilds the deal map. -/
theorem loadDeals_of_agrees (env : Env) (sm : Miner)
    (hquery : env.QueryError ("/" ++ minerDatastorePrefix) = none)
    (hagree : StoreAgrees env sm) :
    (loadDeals env sm).1 = none ∧ (loadDeals env sm).2.deals = sm.deals := by
  obtain ⟨hentries, hcover⟩ := hagree
  have hrec := loadEntries_of_records env sm.deals
    (sm.dealsDs.filter (fun entry => hasPrefix ("/" ++ minerDatastorePrefix) entry.1))
    (fun _ => none)
    (fun e he => by
      rw [List.mem_filter] at he
      obtain ⟨d, hd, _, hdeal⟩ := hentries e he.1 (by simpa using he.2)
      exact ⟨d, hd, hdeal⟩)
  unfold loadDeals
  rw [hquery]
  refine ⟨hrec.1, ?_⟩
  funext c
  show (loadEntries env _ _).2 c = sm.deals c
  by_cases hex : ∃ e ∈ sm.dealsDs.filter
      (fun entry => hasPrefix ("/" ++ minerDatastorePrefix) entry.1),
      ∃ d, env.DecodeDeal e.2 = .ok d ∧ d.Response.ProposalCid = c
  · exact (hrec.2 c).1 hex
  · rw [(hrec.2 c).2 hex]
    cases hc : sm.deals c with
    | none => rfl
    | some d0 =>
      exfalso
      obtain ⟨value, hmem⟩ := hcover c (by rw [hc]; simp)
      obtain ⟨d, hd, hkey, _⟩ := hentries (dealKey c, value) hmem (hasPrefix_dealKey c)
      refine hex ⟨(dealKey c, value), ?_, d, hd, (dealKey_injective hkey).symm⟩
      rw [List.mem_filter]
      exact ⟨hmem, by simpa using hasPrefix_dealKey c⟩

/-- A store followed by a successful `saveDeal` keeps the agreement of the
datastore with the deal map, when the stored response carries the cid it is
stored under. -/
theorem saveDeal_storeDeal_agrees (env : Env) (sm sm2 : Miner) (c : Cid) (d : storageDeal)
    (hround : RoundTrips env) (hagree : StoreAgrees env sm)
    (hcid : d.Response.ProposalCid = c)
    (hsave : saveDeal env (sm.storeDeal c d) c = .ok sm2) :
    StoreAgrees env sm2 ∧ sm2.deals = mapSet sm.deals c d ∧ sm2.workers = sm.workers := by
  obtain ⟨hentries, hcover⟩ := hagree
  unfold saveDeal at hsave
  have hget : (sm.storeDeal c d).deals c = some d := by simp [Miner.storeDeal, mapSet]
  rw [hget] at hsave
  cases hdump : env.DumpObject (some d) with
  | error err =>
    rw [hdump] at hsave
    cases hsave
  | ok marshalled =>
    rw [hdump] at hsave
    simp only at hsave
    cases hput : env.PutError (KeyWithNamespaces [minerDatastorePrefix, c.key]) marshalled with
    | some err =>
      rw [hput] at hsave
      cases hsave
    | none =>
      rw [hput] at hsave
      injection hsave with hsave
      subst hsave
      have hdecode := hround d marshalled hdump
      refine ⟨⟨?_, ?_⟩, rfl, rfl⟩
      · intro entry hmem hpre
        simp only [Miner.storeDeal, dsPut, List.mem_cons, List.mem_filter] at hmem
        rcases hmem with rfl | ⟨hold, hkey⟩
        · refine ⟨d, hdecode, ?_, ?_⟩
          · rw [hcid]
            rfl
          · simp [Miner.storeDeal, mapSet, hcid]
        · obtain ⟨d0, hd0, hk0, hdeal0⟩ := hentries entry hold hpre
          refine ⟨d0, hd0, hk0, ?_⟩
          have hne : d0.Response.ProposalCid ≠ c := by
            intro heq
            rw [hk0, heq] at hkey
            simp [dealKey] at hkey
          simp [Miner.storeDeal, mapSet, hne, hdeal0]
      · intro c1 hc1
        by_cases hc : c1 = c
        · subst hc
          exact ⟨marshalled, by simp [Miner.storeDeal, dsPut, dealKey]⟩
        · have hold : sm.deals c1 ≠ none := by
            simpa [Miner.storeDeal, mapSet, hc] using hc1
          obtain ⟨value, hmem⟩ := hcover c1 hold
          refine ⟨value, ?_⟩
          simp only [Miner.storeDeal, dsPut, List.mem_cons, List.mem_filter]
          right
          refine ⟨hmem, ?_⟩
          have hkne : dealKey c1 ≠ dealKey c := fun h => hc (dealKey_injective h)
          simpa [dealKey] using hkne

/-- A miner with no deals and an empty datastore: the two agree. -/
theorem StoreAgrees_fresh (env : Env) (sm : Miner) (hdeals : sm.deals = fun _ => none)
    (hds : sm.dealsDs = []) : StoreAgrees env sm := by
  refine ⟨?_, ?_⟩
  · intro entry hmem
    rw [hds] at hmem
    cases hmem
  · intro c hc
    rw [hdeals] at hc
    exact absurd rfl hc

/-- The encoding of the persistence scenario round-trips. -/
theorem flakyStoreEnv_roundTrips : RoundTrips flakyStoreEnv := by
  intro d marshalled h
  simp only [flakyStoreEnv, Option.some.injEq] at h ⊢
  by_cases hA : d = rejectedRecord proposalA
  · simp only [hA, if_true] at h
    cases h
    simp [hA]
  · by_cases hB : d = rejectedRecord proposalB
    · simp only [hA, hB, if_false, if_true] at h
      have hAB : ¬ rejectedRecord proposalB = rejectedRecord proposalA := by decide
      simp only [hAB, if_false] at h
      cases h
      simp [hB]
    · simp [hA, hB] at h

/-- C19, as stated, fails: with an encoding that round-trips, the insert of
`proposalA` fails on the datastore write and keeps its record in the deal map;
the insert of `proposalB` then returns without error, and `loadDeals` on the
datastore yields a deal map without the record of `proposalA` that the
in-memory deal map holds. -/
theorem persistence_lost_after_failed_save :
    RoundTrips flakyStoreEnv
    ∧ (rejectProposal flakyStoreEnv scenarioMiner proposalA "no").1
        = .error "failed to save miner deal: could not save client storage deal: disk full"
    ∧ (rejectProposal flakyStoreEnv
          (rejectProposal flakyStoreEnv scenarioMiner proposalA "no").2 proposalB "no").1
        = .ok ⟨.Rejected, "no", ⟨"pieceB"⟩, none, "signaturrreee"⟩
    ∧ (loadDeals flakyStoreEnv (rejectProposal flakyStoreEnv
          (rejectProposal flakyStoreEnv scenarioMiner proposalA "no").2 proposalB "no").2).1
        = none
    ∧ (loadDeals flakyStoreEnv (rejectProposal flakyStoreEnv
          (rejectProposal flakyStoreEnv scenarioMiner proposalA "no").2 proposalB
          "no").2).2.deals ⟨"pieceA"⟩
        = none
    ∧ (rejectProposal flakyStoreEnv
          (rejectProposal flakyStoreEnv scenarioMiner proposalA "no").2 proposalB
          "no").2.deals ⟨"pieceA"⟩
        = some (rejectedRecord proposalA) :=
  ⟨flakyStoreEnv_roundTrips, rfl, rfl, rfl, rfl, rfl⟩

/-- C19, amended: assume the record encoding round-trips, the datastore query
succeeds and the datastore agrees with the deal map before the operation. Then
after an insert (`acceptProposal`, `rejectProposal`) that returns a response,
and after an `updateDealResponse` that returns no error and whose mutator keeps
`ProposalCid`, `loadDeals` returns no error and yields the in-memory deal map of
right after the operation, and the datastore still agrees with the deal map. -/
theorem persistence_agreement (env : Env) (sm : Miner) (hround : RoundTrips env)
    (hquery : env.QueryError ("/" ++ minerDatastorePrefix) = none)
    (hagree : StoreAgrees env sm) :
    (∀ p resp sm1, acceptProposal env sm p = (.ok resp, sm1) →
      (loadDeals env sm1).1 = none ∧ (loadDeals env sm1).2.deals = sm1.deals
        ∧ StoreAgrees env sm1)
    ∧ (∀ p reason resp sm1, rejectProposal env sm p reason = (.ok resp, sm1) →
      (loadDeals env sm1).1 = none ∧ (loadDeals env sm1).2.deals = sm1.deals
        ∧ StoreAgrees env sm1)
    ∧ (∀ c f sm1, (∀ resp, (f resp).ProposalCid = resp.ProposalCid) →
      updateDealResponse env sm c f = .returns (none, sm1) →
      (loadDeals env sm1).1 = none ∧ (loadDeals env sm1).2.deals = sm1.deals
        ∧ StoreAgrees env sm1) := by
  have hload : ∀ sm1, StoreAgrees env sm1 →
      (loadDeals env sm1).1 = none ∧ (loadDeals env sm1).2.deals = sm1.deals
        ∧ StoreAgrees env sm1 :=
    fun sm1 h => ⟨(loadDeals_of_agrees env sm1 hquery h).1,
      (loadDeals_of_agrees env sm1 hquery h).2, h⟩
  refine ⟨?_, ?_, ?_⟩
  · intro p resp sm1 h
    apply hload
    unfold acceptProposal at h
    split at h
    · cases h
    · split at h
      · cases h
      · rename_i proposalCid hcid
        simp only at h
        split at h
        · cases h
        · rename_i sm2 hsave
          simp only [Prod.mk.injEq] at h
          have hs := saveDeal_storeDeal_agrees env sm sm2 proposalCid _ hround hagree rfl hsave
          rw [← h.2]
          exact hs.1
  · intro p reason resp sm1 h
    apply hload
    unfold rejectProposal at h
    split at h
    · cases h
    · rename_i proposalCid hcid
      simp only at h
      split at h
      · cases h
      · rename_i sm2 hsave
        simp only [Prod.mk.injEq] at h
        have hs := saveDeal_storeDeal_agrees env sm sm2 proposalCid _ hround hagree rfl hsave
        rw [← h.2]
        exact hs.1
  · intro c f sm1 hf h
    apply hload
    unfold updateDealResponse at h
    split at h
    · cases h
    · rename_i d hd
      simp only at h
      split at h
      · cases h
      · rename_i sm2 hsave
        simp only [Outcome.returns.injEq, Prod.mk.injEq, true_and] at h
        have hc : d.Response.ProposalCid = c := by
          obtain ⟨value, hmem⟩ := hagree.2 c (by rw [hd]; simp)
          obtain ⟨d0, _, hkey, hdeal⟩ := hagree.1 (dealKey c, value) hmem (hasPrefix_dealKey c)
          have hc0 := dealKey_injective hkey
          rw [← hc0, hd] at hdeal
          cases hdeal
          exact hc0.symm
        have hs := saveDeal_storeDeal_agrees env sm sm2 c ⟨d.Proposal, f d.Response⟩ hround
          hagree (by rw [hf]; exact hc) hsave
        rw [← h]
        exact hs.1

/-- Witness of C19, amended: the insert of `proposalB` into a fresh miner. -/
theorem persistence_agreement_witness :
    (RoundTrips flakyStoreEnv
      ∧ flakyStoreEnv.QueryError ("/" ++ minerDatastorePrefix) = none
      ∧ StoreAgrees flakyStoreEnv scenarioMiner
      ∧ rejectProposal flakyStoreEnv scenarioMiner proposalB "no"
          = (.ok ⟨.Rejected, "no", ⟨"pieceB"⟩, none, "signaturrreee"⟩,
              (rejectProposal flakyStoreEnv scenarioMiner proposalB "no").2))
    ∧ (loadDeals flakyStoreEnv (rejectProposal flakyStoreEnv scenarioMiner proposalB "no").2).1
        = none
    ∧ (loadDeals flakyStoreEnv
          (rejectProposal flakyStoreEnv scenarioMiner proposalB "no").2).2.deals
        = (rejectProposal flakyStoreEnv scenarioMiner proposalB "no").2.deals :=
  ⟨⟨flakyStoreEnv_roundTrips, rfl, StoreAgrees_fresh flakyStoreEnv scenarioMiner rfl rfl, rfl⟩,
    ((persistence_agreement flakyStoreEnv scenarioMiner flakyStoreEnv_roundTrips rfl
      (StoreAgrees_fresh flakyStoreEnv scenarioMiner rfl rfl)).2.1 proposalB "no" _ _ rfl).1,
    ((persistence_agreement flakyStoreEnv scenarioMiner flakyStoreEnv_roundTrips rfl
      (StoreAgrees_fresh flakyStoreEnv scenarioMiner rfl rfl)).2.1 proposalB "no" _ _ rfl).2.1⟩

/-! ## The proving-period scheduler: theorems -/

/-- One head callback in a period starting at `P` either leaves the miner as
it is, or finds `postInProcess` different from `P`, sets it to `P` and starts
one proof worker. -/
theorem OnNewHeaviestTipSet_step (provingPeriodBlocks P : Nat) (pe : PoStEnv) (sm : Miner)
    (ts : TipSet) (hP : ∀ n v, pe.QueryProvingPeriodStart n = .ok v → v = P) :
    OnNewHeaviestTipSet provingPeriodBlocks pe sm ts = sm
    ∨ (sm.postInProcess ≠ some P
      ∧ (OnNewHeaviestTipSet provingPeriodBlocks pe sm ts).postInProcess = some P
      ∧ ∃ job, (OnNewHeaviestTipSet provingPeriodBlocks pe sm ts).postWorkers
          = sm.postWorkers ++ [job]) := by
  unfold OnNewHeaviestTipSet
  split
  · exact Or.inl rfl
  · split
    · exact Or.inl rfl
    · exact Or.inl rfl
    · simp only
      split
      · exact Or.inl rfl
      · split
        · exact Or.inl rfl
        · split
          · exact Or.inl rfl
          · rename_i provingPeriodStart hstart
            have hval : provingPeriodStart = P := hP 1 provingPeriodStart hstart
            subst hval
            split
            · exact Or.inl rfl
            · rename_i hnot
              split
              · exact Or.inl rfl
              · split
                · split
                  · exact Or.inr ⟨hnot, rfl, _, rfl⟩
                  · exact Or.inl rfl
                · exact Or.inl rfl

/-- Once `postInProcess` equals `P`, head callbacks of that period change
nothing. -/
theorem runHeads_of_inProcess (provingPeriodBlocks P : Nat) :
    ∀ (calls : List (PoStEnv × TipSet)) (sm : Miner),
      (∀ call ∈ calls, ∀ n v, call.1.QueryProvingPeriodStart n = .ok v → v = P) →
      sm.postInProcess = some P →
      runHeads provingPeriodBlocks calls sm = sm
  | [], _, _, _ => rfl
  | call :: calls, sm, hP, hin => by
    have hstep : OnNewHeaviestTipSet provingPeriodBlocks call.1 sm call.2 = sm := by
      rcases OnNewHeaviestTipSet_step provingPeriodBlocks P call.1 sm call.2
        (hP call (List.mem_cons_self call calls)) with h | ⟨hne, _⟩
      · exact h
      · exact absurd hin hne
    unfold runHeads
    rw [hstep]
    exact runHeads_of_inProcess provingPeriodBlocks P calls sm
      (fun c hc => hP c (List.mem_cons_of_mem call hc)) hin

/-- Over head callbacks of one period at most one proof worker is started, and
when one is started `postInProcess` ends equal to `P`. -/
theorem runHeads_started (provingPeriodBlocks P : Nat) :
    ∀ (calls : List (PoStEnv × TipSet)) (sm : Miner),
      (∀ call ∈ calls, ∀ n v, call.1.QueryProvingPeriodStart n = .ok v → v = P) →
      ∃ started : List PoStJob,
        (runHeads provingPeriodBlocks calls sm).postWorkers = sm.postWorkers ++ started
        ∧ started.length ≤ 1
  | [], sm, _ => ⟨[], by simp [runHeads], by simp⟩
  | call :: calls, sm, hP => by
    unfold runHeads
    rcases OnNewHeaviestTipSet_step provingPeriodBlocks P call.1 sm call.2
      (hP call (List.mem_cons_self call calls)) with h | ⟨_, hin, job, hjob⟩
    · rw [h]
      exact runHeads_started provingPeriodBlocks P calls sm
        (fun c hc => hP c (List.mem_cons_of_mem call hc))
    · rw [runHeads_of_inProcess provingPeriodBlocks P calls _
        (fun c hc => hP c (List.mem_cons_of_mem call hc)) hin]
      exact ⟨[job], hjob, by simp⟩

/-- A proof worker sends at most one message. -/
theorem generateAndSubmitPoSt_length (pe : PoStEnv) (sm : Miner) (job : PoStJob) :
    (generateAndSubmitPoSt pe sm job).length ≤ 1 := by
  unfold generateAndSubmitPoSt
  split
  · simp
  · split
    · simp
    · split
      · simp
      · split <;> simp

/-- A head callback that reaches the height check with the tip inside the
period leaves `postInProcess` equal to `P`. -/
theorem OnNewHeaviestTipSet_in_window (provingPeriodBlocks P h : Nat) (call : PoStEnv × TipSet)
    (sm : Miner) (hcall : ReachesHeightCheck P h call) (hlo : P ≤ h)
    (hhi : h < P + provingPeriodBlocks) :
    (OnNewHeaviestTipSet provingPeriodBlocks call.1 sm call.2).postInProcess = some P := by
  obtain ⟨⟨ret, commitments, hq, hd, hne⟩, h0, h1, hheight⟩ := hcall
  have hlen : ¬ (commitments.map (fun v => v.2.CommR)).length = 0 := by
    simpa using hne
  unfold OnNewHeaviestTipSet
  simp only [hq, hd, hlen, if_false, provingPeriodPoStChallengeSeed, getProvingPeriodStart, h0,
    h1, hheight]
  by_cases hin : sm.postInProcess = some P
  · simp [hin]
  · simp [hin, hlo, hhi]

/-- C20: proof idempotence per period. Over every sequence of head callbacks
during which `getProvingPeriodStart` returns `P` whenever it returns, at most
one proof worker `generateAndSubmitPoSt` is started and, whatever the workers'
collaborators answer, at most one `submitPoSt` message is sent; and when some
callback reaches the height check with `P ≤ h < P + ProvingPeriodBlocks`,
`postInProcess` equals `P` after that callback and after every later one. -/
theorem proof_idempotence_per_period (provingPeriodBlocks P : Nat) (sm : Miner)
    (calls : List (PoStEnv × TipSet))
    (hP : ∀ call ∈ calls, ∀ n v, call.1.QueryProvingPeriodStart n = .ok v → v = P) :
    (∃ started : List PoStJob,
      (runHeads provingPeriodBlocks calls sm).postWorkers = sm.postWorkers ++ started
      ∧ started.length ≤ 1
      ∧ ∀ (workerEnv : Nat → PoStEnv) (owner : Miner),
          (sentBy workerEnv owner 0 started).length ≤ 1)
    ∧ (∀ (before later after : List (PoStEnv × TipSet)) (call : PoStEnv × TipSet) (h : Nat),
        calls = before ++ call :: (later ++ after) →
        ReachesHeightCheck P h call → P ≤ h → h < P + provingPeriodBlocks →
        (runHeads provingPeriodBlocks (before ++ call :: later) sm).postInProcess = some P) := by
  constructor
  · obtain ⟨started, hw, hlen⟩ := runHeads_started provingPeriodBlocks P calls sm hP
    refine ⟨started, hw, hlen, ?_⟩
    intro workerEnv owner
    match started, hlen with
    | [], _ => simp [sentBy]
    | [job], _ =>
      simpa [sentBy] using generateAndSubmitPoSt_length (workerEnv 0) owner job
  · intro before later after call h hcalls hcall hlo hhi
    have hsplit : ∀ (xs ys : List (PoStEnv × TipSet)) (m : Miner),
        runHeads provingPeriodBlocks (xs ++ ys) m
          = runHeads provingPeriodBlocks ys (runHeads provingPeriodBlocks xs m) := by
      intro xs
      induction xs with
      | nil => intro ys m; rfl
      | cons x xs ih =>
        intro ys m
        show runHeads provingPeriodBlocks (xs ++ ys) _ = _
        rw [ih]
        rfl
    rw [hsplit]
    have hin := OnNewHeaviestTipSet_in_window provingPeriodBlocks P h call
      (runHeads provingPeriodBlocks before sm) hcall hlo hhi
    have hlater : ∀ c ∈ later, ∀ n v, c.1.QueryProvingPeriodStart n = .ok v → v = P := by
      intro c hc
      apply hP
      rw [hcalls]
      simp [hc]
    show (runHeads provingPeriodBlocks later
      (OnNewHeaviestTipSet provingPeriodBlocks call.1
        (runHeads provingPeriodBlocks before sm) call.2)).postInProcess = some P
    rw [runHeads_of_inProcess provingPeriodBlocks P later _ hlater hin]
    exact hin

/-- Witness of C20: two head callbacks at heights 110 and 115 in the period
starting at 100, with 50 blocks per period: one worker, `postInProcess = 100`. -/
theorem proof_idempotence_per_period_witness :
    (∀ call ∈ [(periodEnv, (⟨.ok 110⟩ : TipSet)), (periodEnv, ⟨.ok 115⟩)],
      ∀ n v, call.1.QueryProvingPeriodStart n = .ok v → v = 100)
    ∧ (runHeads 50 [(periodEnv, ⟨.ok 110⟩), (periodEnv, ⟨.ok 115⟩)] scenarioMiner).postWorkers
        = [⟨100, 150, [100], [[2]]⟩]
    ∧ (runHeads 50 [(periodEnv, ⟨.ok 110⟩), (periodEnv, ⟨.ok 115⟩)]
        scenarioMiner).postInProcess = some 100
    ∧ ∃ started : List PoStJob,
        (runHeads 50 [(periodEnv, ⟨.ok 110⟩), (periodEnv, ⟨.ok 115⟩)] scenarioMiner).postWorkers
          = scenarioMiner.postWorkers ++ started
        ∧ started.length ≤ 1
        ∧ ∀ (workerEnv : Nat → PoStEnv) (owner : Miner),
            (sentBy workerEnv owner 0 started).length ≤ 1 :=
  ⟨by
      intro call hcall n v hv
      simp only [List.mem_cons, List.mem_singleton, List.not_mem_nil, or_false] at hcall
      rcases hcall with rfl | rfl <;> simpa [periodEnv] using hv.symm,
    rfl, rfl,
    (proof_idempotence_per_period 50 100 scenarioMiner
      [(periodEnv, ⟨.ok 110⟩), (periodEnv, ⟨.ok 115⟩)] (by
        intro call hcall n v hv
        simp only [List.mem_cons, List.mem_singleton, List.not_mem_nil, or_false] at hcall
        rcases hcall with rfl | rfl <;> simpa [periodEnv] using hv.symm)).1⟩

/-! ## The deal worker and the seal callbacks: what they leave behind -/

/-- `SameCore` is reflexive. -/
theorem SameCore.refl (sm : Miner) : SameCore sm sm :=
  ⟨rfl, rfl, rfl, rfl⟩

/-- `SameCore` is transitive. -/
theorem SameCore.trans {a b c : Miner} (h1 : SameCore a b) (h2 : SameCore b c) : SameCore a c :=
  ⟨h2.1.trans h1.1, h2.2.1.trans h1.2.1, h2.2.2.1.trans h1.2.2.1, h2.2.2.2.trans h1.2.2.2⟩

/-- A successful `saveDeal` writes the datastore only. -/
theorem saveDeal_sameCore {env : Env} {sm sm2 : Miner} {c : Cid}
    (h : saveDeal env sm c = .ok sm2) : SameCore sm sm2 := by
  unfold saveDeal at h
  split at h
  · cases h
  · simp only at h
    split at h
    · cases h
    · injection h with h
      subst h
      exact ⟨rfl, rfl, rfl, rfl⟩

/-- A successful `saveDealsAwaitingSeal` writes the datastore only. -/
theorem saveDealsAwaitingSeal_sameCore {env : Env} {sm sm2 : Miner}
    (h : saveDealsAwaitingSeal env sm = .ok sm2) : SameCore sm sm2 := by
  unfold saveDealsAwaitingSeal at h
  split at h
  · cases h
  · simp only at h
    split at h
    · cases h
    · injection h with h
      subst h
      exact ⟨rfl, rfl, rfl, rfl⟩

/-- On a deal with a record, `updateDealResponse` returns, whether the save
succeeds or not, and leaves the record with the mutated response. -/
theorem updateAndLog_returns (env : Env) (sm : Miner) (c : Cid)
    (f : DealResponse → DealResponse) (d : storageDeal) (hd : sm.deals c = some d) :
    ∃ sm1, updateAndLog env sm c f = .returns sm1
      ∧ SameCore (sm.storeDeal c ⟨d.Proposal, f d.Response⟩) sm1 := by
  unfold updateAndLog updateDealResponse
  rw [hd]
  simp only
  cases hsave : saveDeal env (sm.storeDeal c ⟨d.Proposal, f d.Response⟩) c with
  | error err => exact ⟨_, rfl, SameCore.refl _⟩
  | ok sm2 => exact ⟨_, rfl, saveDeal_sameCore hsave⟩

/-- The deal worker on an `Accepted` deal whose piece is fetched and added to
sector `sectorID`: the deal is stored as `Staged`, then registered, and the
callbacks the registration invokes are run; the registry is then saved. -/
theorem processStorageDeal_staged (env : Env) (sm : Miner) (c : Cid) (d : storageDeal)
    (size sectorID : Nat) (hd : sm.deals c = some d) (hstate : d.Response.State = .Accepted)
    (hsize : d.Proposal.Size = some size) (hfetch : env.FetchGraph d.Proposal.PieceRef = none)
    (hadd : env.AddPiece d.Proposal.PieceRef size = .ok sectorID) :
    ∃ sm1, SameCore (sm.storeDeal c ⟨d.Proposal, { d.Response with State := .Staged }⟩) sm1
      ∧ ∀ sm2,
          runCallbacks env
              { sm1 with dealsAwaitingSeal := (sm1.dealsAwaitingSeal.add sectorID c).1 }
              (sm1.dealsAwaitingSeal.add sectorID c).2 = .returns sm2 →
          ∃ sm3, processStorageDeal env sm c = .returns sm3 ∧ SameCore sm2 sm3 := by
  obtain ⟨sm1, hup, hcore⟩ := updateAndLog_returns env sm c
    (fun resp => { resp with State := .Staged }) d hd
  refine ⟨sm1, hcore, ?_⟩
  intro sm2 hcalls
  unfold processStorageDeal
  simp only [hd, hstate, ne_eq, not_true_eq_false, if_false, hfetch, hsize, hadd, hup, hcalls]
  cases hsave : saveDealsAwaitingSeal env sm2 with
  | error err => exact ⟨sm2, rfl, SameCore.refl _⟩
  | ok sm3 => exact ⟨sm3, rfl, saveDealsAwaitingSeal_sameCore hsave⟩

/-- The success callback on a deal with a record stores it as `Posted` with the
proof data of the sector. -/
theorem runCallbacks_onSuccess (env : Env) (sm : Miner) (c : Cid) (d : storageDeal)
    (sector : SealedSectorMetadata) (hd : sm.deals c = some d) :
    ∃ sm1, runCallbacks env sm [.onSuccess c sector] = .returns sm1
      ∧ SameCore (sm.storeDeal c ⟨d.Proposal,
          { d.Response with
            State := .Posted,
            ProofInfo := some ⟨sector.SectorID, sector.CommR, sector.CommD⟩ }⟩) sm1 := by
  obtain ⟨sm1, hup, hcore⟩ := updateAndLog_returns env sm c
    (fun resp => { resp with
      State := .Posted,
      ProofInfo := some ⟨sector.SectorID, sector.CommR, sector.CommD⟩ }) d hd
  refine ⟨sm1, ?_, hcore⟩
  simp only [runCallbacks, onCommitSuccess, hup]

/-- After a reported success with no deal waiting for the sector, the registry
has cached the success and no deal is touched, whether the save succeeds or
not. -/
theorem OnCommitmentAddedToChain_success_early (env : Env) (sm : Miner)
    (sector : SealedSectorMetadata)
    (hnone : sm.dealsAwaitingSeal.SectorsToDeals sector.SectorID = none) :
    ∃ sm1, OnCommitmentAddedToChain env sm sector none = .returns sm1
      ∧ sm1.deals = sm.deals ∧ sm1.stateLog = sm.stateLog ∧ sm1.workers = sm.workers
      ∧ sm1.dealsAwaitingSeal.SuccessfulSectors sector.SectorID = some sector
      ∧ sm1.dealsAwaitingSeal.SectorsToDeals sector.SectorID = none := by
  unfold OnCommitmentAddedToChain
  have hcalls : (sm.dealsAwaitingSeal.success sector).2 = [] := by
    simp [dealsAwaitingSealStruct.success, dealsAwaitingSealStruct.dealsOf, hnone]
  simp only [hcalls, runCallbacks]
  cases hsave : saveDealsAwaitingSeal env
      { sm with dealsAwaitingSeal := (sm.dealsAwaitingSeal.success sector).1 } with
  | ok sm2 =>
    obtain ⟨h1, h2, h3, h4⟩ := saveDealsAwaitingSeal_sameCore hsave
    refine ⟨sm2, rfl, h1, h4, h2, ?_, ?_⟩
    · rw [h3]
      simp [dealsAwaitingSealStruct.success, mapSet]
    · rw [h3]
      simp [dealsAwaitingSealStruct.success, mapDelete]
  | error e =>
    simp only
    have hcalls2 : (dealsAwaitingSealStruct.fail (sm.dealsAwaitingSeal.success sector).1
        sector.SectorID ("failed persisting deals awaiting seal: " ++ e)).2 = [] := by
      simp [dealsAwaitingSealStruct.success, dealsAwaitingSealStruct.fail,
        dealsAwaitingSealStruct.dealsOf, mapDelete]
    rw [hcalls2]
    refine ⟨_, rfl, rfl, rfl, rfl, ?_, ?_⟩
    · simp [dealsAwaitingSealStruct.success, dealsAwaitingSealStruct.fail, mapSet]
    · simp [dealsAwaitingSealStruct.success, dealsAwaitingSealStruct.fail, mapDelete]

/-- After a reported success with exactly the deal `c` waiting for the sector,
`c` is stored as `Posted` with the proof data of the sector, whether the save
succeeds or not. -/
theorem OnCommitmentAddedToChain_success_late (env : Env) (sm : Miner)
    (sector : SealedSectorMetadata) (c : Cid) (d : storageDeal)
    (hlist : sm.dealsAwaitingSeal.SectorsToDeals sector.SectorID = some [c])
    (hd : sm.deals c = some d) :
    ∃ sm1, OnCommitmentAddedToChain env sm sector none = .returns sm1
      ∧ sm1.deals c = some ⟨d.Proposal,
          { d.Response with
            State := .Posted,
            ProofInfo := some ⟨sector.SectorID, sector.CommR, sector.CommD⟩ }⟩ := by
  unfold OnCommitmentAddedToChain
  have hcalls : (sm.dealsAwaitingSeal.success sector).2 = [.onSuccess c sector] := by
    simp [dealsAwaitingSealStruct.success, dealsAwaitingSealStruct.dealsOf, hlist]
  obtain ⟨sm1, hrun, hcore⟩ := runCallbacks_onSuccess env
    { sm with dealsAwaitingSeal := (sm.dealsAwaitingSeal.success sector).1 } c d sector hd
  simp only [hcalls, hrun]
  have hdeal : sm1.deals c = some ⟨d.Proposal,
      { d.Response with
        State := .Posted,
        ProofInfo := some ⟨sector.SectorID, sector.CommR, sector.CommD⟩ }⟩ := by
    rw [hcore.1]
    simp [Miner.storeDeal, mapSet]
  cases hsave : saveDealsAwaitingSeal env sm1 with
  | ok sm2 =>
    refine ⟨sm2, rfl, ?_⟩
    rw [(saveDealsAwaitingSeal_sameCore hsave).1]
    exact hdeal
  | error e =>
    simp only
    have hcalls2 : (dealsAwaitingSealStruct.fail sm1.dealsAwaitingSeal sector.SectorID
        ("failed persisting deals awaiting seal: " ++ e)).2 = [] := by
      rw [hcore.2.2.1]
      simp [Miner.storeDeal, dealsAwaitingSealStruct.success, dealsAwaitingSealStruct.fail,
        dealsAwaitingSealStruct.dealsOf, mapDelete]
    rw [hcalls2]
    exact ⟨_, rfl, hdeal⟩

/-! ## End to end -/

/-- C16, as stated, fails: a sealing failure of sector 42 is reported while no
deal is registered against it; the scenario proposal is then accepted, its
piece fetched and added to sector 42 with no other deal registered against that
sector, and sector 42 reported sealed. The worker and the success callback have
both run, yet the stored response is `Failed`, not `Posted`: the registration
consumed the cached failure. -/
theorem end_to_end_stale_failure :
    (∃ sm1, runEngine (staleFailureRun.take 2) scenarioMiner = .returns sm1
      ∧ (Query sm1 ⟨"proposal"⟩).State = .Accepted
      ∧ sm1.workers = [⟨"proposal"⟩]
      ∧ sm1.dealsAwaitingSeal.SectorsToDeals 42 = none)
    ∧ sector42Env.FetchGraph scenarioProposal.PieceRef = none
    ∧ sector42Env.AddPiece scenarioProposal.PieceRef 1024 = .ok 42
    ∧ ∃ sm, runEngine staleFailureRun scenarioMiner = .returns sm
      ∧ (Query sm ⟨"proposal"⟩).State = .Failed
      ∧ (Query sm ⟨"proposal"⟩).ProofInfo = none :=
  ⟨⟨_, rfl, rfl, rfl, rfl⟩, rfl, rfl, _, rfl, rfl, rfl⟩

/-- C16, amended: for a deal `c` in state `Accepted` whose piece fetch succeeds
and whose `AddPiece` returns sector `s`, with no deal registered against `s` and
no seal outcome cached for `s`, once the worker has finished and
`OnCommitmentAddedToChain(m, nil)` with `m.SectorID = s` has run, in either
order and whether or not the registry is saved, the stored response has
`State = Posted`, `ProofInfo = {SectorID: s, CommR: m.CommR, CommD: m.CommD}`,
its `ProposalCid` and every other field unchanged. -/
theorem end_to_end_posted (env1 env2 : Env) (sm : Miner) (c : Cid) (d : storageDeal)
    (size s : Nat) (m : SealedSectorMetadata)
    (hd : sm.deals c = some d) (hstate : d.Response.State = .Accepted)
    (hsize : d.Proposal.Size = some size)
    (hfetch : env1.FetchGraph d.Proposal.PieceRef = none)
    (hadd : env1.AddPiece d.Proposal.PieceRef size = .ok s)
    (hm : m.SectorID = s)
    (hlist : sm.dealsAwaitingSeal.SectorsToDeals s = none)
    (hsucc : sm.dealsAwaitingSeal.SuccessfulSectors s = none)
    (hfail : sm.dealsAwaitingSeal.FailedSectors s = none) :
    (∃ sm1 sm2, processStorageDeal env1 sm c = .returns sm1
      ∧ OnCommitmentAddedToChain env2 sm1 m none = .returns sm2
      ∧ sm2.deals c = some ⟨d.Proposal,
          { d.Response with
            State := .Posted, ProofInfo := some ⟨s, m.CommR, m.CommD⟩ }⟩)
    ∧ (∃ sm1 sm2, OnCommitmentAddedToChain env2 sm m none = .returns sm1
      ∧ processStorageDeal env1 sm1 c = .returns sm2
      ∧ sm2.deals c = some ⟨d.Proposal,
          { d.Response with
            State := .Posted, ProofInfo := some ⟨s, m.CommR, m.CommD⟩ }⟩) := by
  subst hm
  constructor
  · obtain ⟨smS, hcore, hrest⟩ := processStorageDeal_staged env1 sm c d size m.SectorID hd hstate
      hsize hfetch hadd
    have hreg : smS.dealsAwaitingSeal = sm.dealsAwaitingSeal := hcore.2.2.1
    have haddr : smS.dealsAwaitingSeal.add m.SectorID c
        = ({ sm.dealsAwaitingSeal with
              SectorsToDeals := mapSet sm.dealsAwaitingSeal.SectorsToDeals m.SectorID [c] },
            []) := by
      rw [hreg]
      simp [dealsAwaitingSealStruct.add, hlist, hsucc, hfail]
    obtain ⟨sm1, hproc, hcore1⟩ := hrest
      { smS with dealsAwaitingSeal := (smS.dealsAwaitingSeal.add m.SectorID c).1 }
      (by rw [haddr]; rfl)
    have hd1 : sm1.deals c = some ⟨d.Proposal, { d.Response with State := .Staged }⟩ := by
      rw [hcore1.1]
      show smS.deals c = _
      rw [hcore.1]
      simp [Miner.storeDeal, mapSet]
    have hl1 : sm1.dealsAwaitingSeal.SectorsToDeals m.SectorID = some [c] := by
      rw [hcore1.2.2.1]
      show (smS.dealsAwaitingSeal.add m.SectorID c).1.SectorsToDeals m.SectorID = _
      rw [haddr]
      simp [mapSet]
    obtain ⟨sm2, hcommit, hd2⟩ := OnCommitmentAddedToChain_success_late env2 sm1 m c _ hl1 hd1
    exact ⟨sm1, sm2, hproc, hcommit, hd2⟩
  · obtain ⟨sm1, hcommit, hdeals, _, _, hcached, _⟩ :=
      OnCommitmentAddedToChain_success_early env2 sm m hlist
    have hd1 : sm1.deals c = some d := by rw [hdeals]; exact hd
    obtain ⟨smS, hcore, hrest⟩ := processStorageDeal_staged env1 sm1 c d size m.SectorID hd1
      hstate hsize hfetch hadd
    have hreg : smS.dealsAwaitingSeal = sm1.dealsAwaitingSeal := hcore.2.2.1
    have haddr : (smS.dealsAwaitingSeal.add m.SectorID c).2 = [.onSuccess c m] := by
      rw [hreg]
      simp [dealsAwaitingSealStruct.add, hcached]
    have hdS : ({ smS with
        dealsAwaitingSeal := (smS.dealsAwaitingSeal.add m.SectorID c).1 } : Miner).deals c
        = some ⟨d.Proposal, { d.Response with State := .Staged }⟩ := by
      show smS.deals c = _
      rw [hcore.1]
      simp [Miner.storeDeal, mapSet]
    obtain ⟨smP, hrun, hcoreP⟩ := runCallbacks_onSuccess env1 _ c _ m hdS
    obtain ⟨sm2, hproc, hcore2⟩ := hrest smP (by rw [haddr]; exact hrun)
    refine ⟨sm1, sm2, hcommit, hproc, ?_⟩
    rw [hcore2.1, hcoreP.1]
    simp [Miner.storeDeal, mapSet]

/-- Witness of C16, amended: the scenario proposal accepted by a fresh miner,
its piece added to sector 42, and sector 42 reported sealed after the worker. -/
theorem end_to_end_posted_witness :
    (∃ sm1 sm2,
      processStorageDeal sector42Env
          (acceptProposal sector42Env scenarioMiner scenarioProposal).2 ⟨"proposal"⟩
        = .returns sm1
      ∧ OnCommitmentAddedToChain sector42Env sm1 sector42 none = .returns sm2
      ∧ sm2.deals ⟨"proposal"⟩ = some ⟨scenarioProposal,
          ⟨.Posted, "", ⟨"proposal"⟩, some ⟨42, [4], [2]⟩, "signaturrreee"⟩⟩) :=
  (end_to_end_posted sector42Env sector42Env
    (acceptProposal sector42Env scenarioMiner scenarioProposal).2 ⟨"proposal"⟩
    ⟨scenarioProposal, ⟨.Accepted, "", ⟨"proposal"⟩, none, "signaturrreee"⟩⟩ 1024 42 sector42
    rfl rfl rfl rfl rfl rfl rfl rfl rfl).1

/-! ## State monotonicity: the invariant of the engine -/

/-- The stored states of a deal after one more store. -/
theorem statesOf_append (log : List (Cid × DealState)) (c c1 : Cid) (y : DealState) :
    statesOf (log ++ [(c, y)]) c1
      = if c1 = c then statesOf log c1 ++ [y] else statesOf log c1 := by
  unfold statesOf
  by_cases h : c1 = c
  · subst h
    simp [List.filter_append]
  · have h2 : ¬ c = c1 := fun e => h e.symm
    simp [List.filter_append, h, h2]

/-- A store along an edge of the diagram extends a path prefix to a path
prefix. -/
theorem trace_extend (l : List DealState) (x y : DealState) (hl : l ∈ tracePrefixes)
    (hlast : l.getLast? = some x) (he : Edge x y) : l ++ [y] ∈ tracePrefixes := by
  simp only [tracePrefixes, List.mem_cons, List.mem_singleton, List.not_mem_nil, or_false] at hl
  rcases hl with rfl | rfl | rfl | rfl | rfl | rfl | rfl <;>
    simp at hlast <;> subst hlast <;>
    rcases he with ⟨h1, h2 | h2⟩ | ⟨h1, h2 | h2⟩ <;>
    first
      | (subst h2; simp [tracePrefixes]; done)
      | cases h1

/-- The listed prefixes are the prefixes of the paths of the diagram. -/
theorem isPathPrefix_of_mem (l : List DealState) (hl : l ∈ tracePrefixes) : IsPathPrefix l := by
  simp only [tracePrefixes, List.mem_cons, List.mem_singleton, List.not_mem_nil, or_false] at hl
  unfold IsPathPrefix statePaths
  rcases hl with rfl | rfl | rfl | rfl | rfl | rfl | rfl
  · exact ⟨[.Rejected], by simp, List.nil_prefix⟩
  · exact ⟨[.Rejected], by simp, List.prefix_refl _⟩
  · exact ⟨[.Accepted, .Failed], by simp, ⟨[.Failed], rfl⟩⟩
  · exact ⟨[.Accepted, .Staged, .Posted], by simp, ⟨[.Posted], rfl⟩⟩
  · exact ⟨[.Accepted, .Failed], by simp, List.prefix_refl _⟩
  · exact ⟨[.Accepted, .Staged, .Posted], by simp, List.prefix_refl _⟩
  · exact ⟨[.Accepted, .Staged, .Failed], by simp, List.prefix_refl _⟩

/-- In a path prefix every state but the last is `Accepted` or `Staged`: the
states `Rejected`, `Posted` and `Failed` are never followed by another. -/
theorem nonfinal_of_mem (l : List DealState) (hl : l ∈ tracePrefixes) :
    ∀ x ∈ l.dropLast, x = .Accepted ∨ x = .Staged := by
  simp only [tracePrefixes, List.mem_cons, List.mem_singleton, List.not_mem_nil, or_false] at hl
  rcases hl with rfl | rfl | rfl | rfl | rfl | rfl | rfl <;> simp [List.dropLast]

/-- The invariant does not read the datastore. -/
theorem EngineInv.of_sameCore {sm sm1 : Miner} (hcore : SameCore sm sm1) (h : EngineInv sm) :
    EngineInv sm1 := by
  obtain ⟨h1, h2, h3, h4⟩ := hcore
  have hst : sm1.stateAt = sm.stateAt := by
    funext c
    simp [Miner.stateAt, h1]
  exact ⟨by rw [h4, hst]; exact h.trace, by rw [h2]; exact h.workersNodup,
    by rw [h2, h1]; exact h.workersAccepted, by rw [h3]; exact h.listsNodup,
    by rw [h3, hst]; exact h.listsStaged, by rw [h3]; exact h.listsDisjoint⟩

/-- A new miner satisfies the invariant. -/
theorem EngineInv.of_isNew {sm : Miner} (h : sm.IsNew) : EngineInv sm := by
  obtain ⟨hdeals, hworkers, hlists, hlog⟩ := h
  have hof : ∀ s, sm.dealsAwaitingSeal.dealsOf s = [] := by
    intro s
    simp [dealsAwaitingSealStruct.dealsOf, hlists]
  refine ⟨?_, by rw [hworkers]; exact List.nodup_nil, ?_, ?_, ?_, ?_⟩
  · intro c
    simp [hlog, statesOf, tracePrefixes, Miner.stateAt, hdeals]
  · intro c hc
    rw [hworkers] at hc
    cases hc
  · intro s
    rw [hof]
    exact List.nodup_nil
  · intro s c hc
    rw [hof] at hc
    cases hc
  · intro s1 s2 c hc
    rw [hof] at hc
    cases hc

/-- A deal waiting in the registry is not one a worker is waiting to run for. -/
theorem EngineInv.not_worker_of_staged {sm : Miner} (h : EngineInv sm) {c : Cid}
    (hc : sm.stateAt c = some .Staged) : c ∉ sm.workers := by
  intro hw
  obtain ⟨d, hd, hs, _⟩ := h.workersAccepted c hw
  simp [Miner.stateAt, hd, hs] at hc

/-- The first store for a cid, of an `Accepted` or `Rejected` response, keeps
the invariant. -/
theorem EngineInv.store_fresh {sm : Miner} (h : EngineInv sm) (c : Cid) (d : storageDeal)
    (hnone : sm.deals c = none)
    (hstate : d.Response.State = .Accepted ∨ d.Response.State = .Rejected) :
    EngineInv (sm.storeDeal c d) := by
  have hkeep : ∀ c1, c1 ≠ c → (sm.storeDeal c d).stateAt c1 = sm.stateAt c1 := by
    intro c1 hne
    simp [Miner.stateAt, Miner.storeDeal, mapSet, hne]
  have hold : ∀ c1, sm.stateAt c1 ≠ none → c1 ≠ c := by
    intro c1 hc1 heq
    subst heq
    simp [Miner.stateAt, hnone] at hc1
  refine ⟨?_, h.workersNodup, ?_, h.listsNodup, ?_, h.listsDisjoint⟩
  · intro c1
    have hlog : (sm.storeDeal c d).stateLog = sm.stateLog ++ [(c, d.Response.State)] := rfl
    rw [hlog, statesOf_append]
    by_cases hc : c1 = c
    · subst hc
      have hempty : statesOf sm.stateLog c1 = [] := by
        have := (h.trace c1).2
        simp only [Miner.stateAt, hnone, Option.map_none'] at this
        exact List.getLast?_eq_none_iff.mp this
      simp only [if_true, hempty, List.nil_append]
      refine ⟨?_, by simp [Miner.stateAt, Miner.storeDeal, mapSet]⟩
      rcases hstate with hs | hs <;> simp [hs, tracePrefixes]
    · simp only [hc, if_false]
      rw [hkeep c1 hc]
      exact h.trace c1
  · intro c1 hc1
    obtain ⟨d1, hd1, hrest⟩ := h.workersAccepted c1 hc1
    have hne : c1 ≠ c := hold c1 (by simp [Miner.stateAt, hd1])
    exact ⟨d1, by simp [Miner.storeDeal, mapSet, hne, hd1], hrest⟩
  · intro s c1 hc1
    have hst := h.listsStaged s c1 hc1
    rw [hkeep c1 (hold c1 (by rw [hst]; simp))]
    exact hst

/-- A store along an edge of the diagram, for a deal no worker is waiting for
and that is not waiting in the registry, keeps the invariant. -/
theorem EngineInv.store_edge {sm : Miner} (h : EngineInv sm) (c : Cid) (d d1 : storageDeal)
    (hd : sm.deals c = some d) (hedge : Edge d.Response.State d1.Response.State)
    (hworker : c ∉ sm.workers) (hlists : ∀ s, c ∉ sm.dealsAwaitingSeal.dealsOf s) :
    EngineInv (sm.storeDeal c d1) := by
  have hkeep : ∀ c1, c1 ≠ c → (sm.storeDeal c d1).stateAt c1 = sm.stateAt c1 := by
    intro c1 hne
    simp [Miner.stateAt, Miner.storeDeal, mapSet, hne]
  refine ⟨?_, h.workersNodup, ?_, h.listsNodup, ?_, h.listsDisjoint⟩
  · intro c1
    have hlog : (sm.storeDeal c d1).stateLog = sm.stateLog ++ [(c, d1.Response.State)] := rfl
    rw [hlog, statesOf_append]
    by_cases hc : c1 = c
    · subst hc
      have hlast : (statesOf sm.stateLog c1).getLast? = some d.Response.State := by
        rw [(h.trace c1).2]
        simp [Miner.stateAt, hd]
      simp only [if_true]
      refine ⟨trace_extend _ _ _ (h.trace c1).1 hlast hedge, ?_⟩
      simp [Miner.stateAt, Miner.storeDeal, mapSet]
    · simp only [hc, if_false]
      rw [hkeep c1 hc]
      exact h.trace c1
  · intro c1 hc1
    obtain ⟨d2, hd2, hrest⟩ := h.workersAccepted c1 hc1
    have hne : c1 ≠ c := fun e => hworker (e ▸ hc1)
    exact ⟨d2, by simp [Miner.storeDeal, mapSet, hne, hd2], hrest⟩
  · intro s c1 hc1
    have hne : c1 ≠ c := fun e => hlists s (e ▸ hc1)
    rw [hkeep c1 hne]
    exact h.listsStaged s c1 hc1

/-- Starting a worker for an `Accepted` deal with a size, for which none is
waiting, keeps the invariant. -/
theorem EngineInv.spawn {sm : Miner} (h : EngineInv sm) (c : Cid) (d : storageDeal)
    (hd : sm.deals c = some d) (hstate : d.Response.State = .Accepted)
    (hsize : d.Proposal.Size ≠ none) (hworker : c ∉ sm.workers) :
    EngineInv { sm with workers := sm.workers ++ [c] } := by
  refine ⟨h.trace, ?_, ?_, h.listsNodup, h.listsStaged, h.listsDisjoint⟩
  · show (sm.workers ++ [c]).Nodup
    rw [List.nodup_append]
    refine ⟨h.workersNodup, List.nodup_singleton c, ?_⟩
    intro a ha hb
    rw [List.mem_singleton] at hb
    exact hworker (hb ▸ ha)
  · intro c1 hc1
    have hc1' : c1 ∈ sm.workers ++ [c] := hc1
    rw [List.mem_append, List.mem_singleton] at hc1'
    rcases hc1' with hmem | rfl
    · exact h.workersAccepted c1 hmem
    · exact ⟨d, hd, hstate, hsize⟩

/-- A worker leaving the waiting list keeps the invariant, and is no longer
waiting. -/
theorem EngineInv.erase {sm : Miner} (h : EngineInv sm) (c : Cid) :
    EngineInv { sm with workers := sm.workers.erase c }
      ∧ c ∉ sm.workers.erase c := by
  refine ⟨⟨h.trace, h.workersNodup.erase c, ?_, h.listsNodup, h.listsStaged, h.listsDisjoint⟩,
    ?_⟩
  · intro c1 hc1
    exact h.workersAccepted c1 (List.mem_of_mem_erase hc1)
  · intro hmem
    exact (h.workersNodup.mem_erase_iff.mp hmem).1 rfl

/-- A registry whose waiting lists are distinct `Staged` deals, each in one
sector, keeps the invariant. -/
theorem EngineInv.with_registry {sm : Miner} (h : EngineInv sm) (r : dealsAwaitingSealStruct)
    (h1 : ∀ s, (r.dealsOf s).Nodup)
    (h2 : ∀ s, ∀ c ∈ r.dealsOf s, sm.stateAt c = some .Staged)
    (h3 : ∀ s1 s2 c, c ∈ r.dealsOf s1 → c ∈ r.dealsOf s2 → s1 = s2) :
    EngineInv { sm with dealsAwaitingSeal := r } :=
  ⟨h.trace, h.workersNodup, h.workersAccepted, h1, h2, h3⟩

/-- A registry with the same waiting lists keeps the invariant. -/
theorem EngineInv.same_lists {sm : Miner} (h : EngineInv sm) (r : dealsAwaitingSealStruct)
    (hr : ∀ s, r.dealsOf s = sm.dealsAwaitingSeal.dealsOf s) :
    EngineInv { sm with dealsAwaitingSeal := r } :=
  h.with_registry r (fun s => by rw [hr]; exact h.listsNodup s)
    (fun s c hc => h.listsStaged s c (by rw [← hr]; exact hc))
    (fun s1 s2 c hc1 hc2 => h.listsDisjoint s1 s2 c (by rw [← hr]; exact hc1)
      (by rw [← hr]; exact hc2))

/-- What `add` does to the waiting lists: with a cached outcome it invokes one
callback for the deal and leaves the lists; otherwise it invokes none and puts
the deal at the end of the list of its sector. -/
theorem dealsAwaitingSealStruct.add_shape (r : dealsAwaitingSealStruct) (s : Nat) (c : Cid) :
    ((∃ call, (r.add s c).2 = [call] ∧ call.target = c)
      ∧ ∀ x, (r.add s c).1.dealsOf x = r.dealsOf x)
    ∨ ((r.add s c).2 = []
      ∧ ∀ x, (r.add s c).1.dealsOf x = if x = s then r.dealsOf s ++ [c] else r.dealsOf x) := by
  unfold dealsAwaitingSealStruct.add
  cases hsu : r.SuccessfulSectors s with
  | some sector => exact Or.inl ⟨⟨_, rfl, rfl⟩, fun x => rfl⟩
  | none =>
    cases hfa : r.FailedSectors s with
    | some message => exact Or.inl ⟨⟨_, rfl, rfl⟩, fun x => rfl⟩
    | none =>
      right
      cases hd : r.SectorsToDeals s with
      | some deals =>
        refine ⟨rfl, fun x => ?_⟩
        by_cases hx : x = s
        · subst hx
          simp [dealsAwaitingSealStruct.dealsOf, mapSet, hd]
        · simp [dealsAwaitingSealStruct.dealsOf, mapSet, hx]
      | none =>
        refine ⟨rfl, fun x => ?_⟩
        by_cases hx : x = s
        · subst hx
          simp [dealsAwaitingSealStruct.dealsOf, mapSet, hd]
        · simp [dealsAwaitingSealStruct.dealsOf, mapSet, hx]

/-- What `success` and `fail` do to the waiting lists: one callback for each
deal waiting for the sector, and the list of the sector removed. -/
theorem dealsAwaitingSealStruct.report_shape (r : dealsAwaitingSealStruct)
    (sector : SealedSectorMetadata) (s : Nat) (message : String) :
    ((r.success sector).2.map Callback.target = r.dealsOf sector.SectorID
      ∧ ∀ x, (r.success sector).1.dealsOf x = if x = sector.SectorID then [] else r.dealsOf x)
    ∧ ((r.fail s message).2.map Callback.target = r.dealsOf s
      ∧ ∀ x, (r.fail s message).1.dealsOf x = if x = s then [] else r.dealsOf x) := by
  refine ⟨⟨?_, fun x => ?_⟩, ⟨?_, fun x => ?_⟩⟩
  · simp [dealsAwaitingSealStruct.success, dealsAwaitingSealStruct.dealsOf, Function.comp_def,
      Callback.target]
  · by_cases hx : x = sector.SectorID <;>
      simp [dealsAwaitingSealStruct.success, dealsAwaitingSealStruct.dealsOf, mapDelete, hx]
  · simp [dealsAwaitingSealStruct.fail, dealsAwaitingSealStruct.dealsOf, Function.comp_def,
      Callback.target]
  · by_cases hx : x = s <;>
      simp [dealsAwaitingSealStruct.fail, dealsAwaitingSealStruct.dealsOf, mapDelete, hx]

/-- Callbacks for distinct `Staged` deals that are not waiting in the registry
all return, and keep the invariant and the registry. -/
theorem runCallbacks_inv (env : Env) :
    ∀ (calls : List Callback) (sm : Miner), EngineInv sm →
      (calls.map Callback.target).Nodup →
      (∀ call ∈ calls, sm.stateAt call.target = some .Staged
        ∧ ∀ s, call.target ∉ sm.dealsAwaitingSeal.dealsOf s) →
      ∃ sm1, runCallbacks env sm calls = .returns sm1 ∧ EngineInv sm1
        ∧ sm1.dealsAwaitingSeal = sm.dealsAwaitingSeal
  | [], sm, h, _, _ => ⟨sm, rfl, h, rfl⟩
  | call :: calls, sm, h, hnodup, hall => by
    obtain ⟨hstaged, hunreg⟩ := hall call (List.mem_cons_self call calls)
    rw [List.map_cons, List.nodup_cons] at hnodup
    have hrec : ∃ d, sm.deals call.target = some d ∧ d.Response.State = .Staged := by
      cases hd : sm.deals call.target with
      | none => simp [Miner.stateAt, hd] at hstaged
      | some d => exact ⟨d, rfl, by simpa [Miner.stateAt, hd] using hstaged⟩
    obtain ⟨d, hd, hds⟩ := hrec
    have hnext : ∀ (f : DealResponse → DealResponse),
        Edge d.Response.State (f d.Response).State →
        ∃ sm1, updateAndLog env sm call.target f = .returns sm1 ∧ EngineInv sm1
          ∧ sm1.dealsAwaitingSeal = sm.dealsAwaitingSeal
          ∧ ∀ c1, c1 ≠ call.target → sm1.stateAt c1 = sm.stateAt c1 := by
      intro f hedge
      obtain ⟨sm1, hup, hcore⟩ := updateAndLog_returns env sm call.target f d hd
      refine ⟨sm1, hup, ?_, hcore.2.2.1, ?_⟩
      · exact EngineInv.of_sameCore hcore
          (h.store_edge call.target d ⟨d.Proposal, f d.Response⟩ hd hedge
            (h.not_worker_of_staged hstaged) hunreg)
      · intro c1 hne
        simp [Miner.stateAt, hcore.1, Miner.storeDeal, mapSet, hne]
    have hrest : ∀ sm1, EngineInv sm1 → sm1.dealsAwaitingSeal = sm.dealsAwaitingSeal →
        (∀ c1, c1 ≠ call.target → sm1.stateAt c1 = sm.stateAt c1) →
        ∃ sm2, runCallbacks env sm1 calls = .returns sm2 ∧ EngineInv sm2
          ∧ sm2.dealsAwaitingSeal = sm.dealsAwaitingSeal := by
      intro sm1 hinv hreg hkeep
      obtain ⟨sm2, hrun, hinv2, hreg2⟩ := runCallbacks_inv env calls sm1 hinv hnodup.2
        (fun call1 hc1 => by
          obtain ⟨hs1, hu1⟩ := hall call1 (List.mem_cons_of_mem call hc1)
          have hne : call1.target ≠ call.target := by
            intro heq
            exact hnodup.1 (heq ▸ List.mem_map_of_mem Callback.target hc1)
          exact ⟨by rw [hkeep _ hne]; exact hs1, by rw [hreg]; exact hu1⟩)
      exact ⟨sm2, hrun, hinv2, hreg2.trans hreg⟩
    cases call with
    | onSuccess dealCid sector =>
      obtain ⟨sm1, hup, hinv, hreg, hkeep⟩ := hnext (fun resp =>
        { resp with
          State := .Posted,
          ProofInfo := some ⟨sector.SectorID, sector.CommR, sector.CommD⟩ })
        (Or.inr ⟨hds, Or.inl rfl⟩)
      obtain ⟨sm2, hrun, hinv2, hreg2⟩ := hrest sm1 hinv hreg hkeep
      refine ⟨sm2, ?_, hinv2, hreg2⟩
      simp only [runCallbacks, onCommitSuccess]
      simp only [Callback.target] at hup
      rw [hup]
      exact hrun
    | onFail dealCid message =>
      obtain ⟨sm1, hup, hinv, hreg, hkeep⟩ := hnext (fun resp =>
        { resp with Message := message, State := .Failed })
        (Or.inr ⟨hds, Or.inr rfl⟩)
      obtain ⟨sm2, hrun, hinv2, hreg2⟩ := hrest sm1 hinv hreg hkeep
      refine ⟨sm2, ?_, hinv2, hreg2⟩
      simp only [runCallbacks, onCommitFail]
      simp only [Callback.target] at hup
      rw [hup]
      exact hrun

/-- Registering a `Staged` deal that is not yet waiting keeps the invariant. -/
theorem EngineInv.register {sm : Miner} (h : EngineInv sm) (r : dealsAwaitingSealStruct)
    (s : Nat) (c : Cid) (hstaged : sm.stateAt c = some .Staged)
    (hunreg : ∀ x, c ∉ sm.dealsAwaitingSeal.dealsOf x)
    (hr : ∀ x, r.dealsOf x
      = if x = s then sm.dealsAwaitingSeal.dealsOf s ++ [c] else sm.dealsAwaitingSeal.dealsOf x) :
    EngineInv { sm with dealsAwaitingSeal := r } := by
  have hmem : ∀ x c1, c1 ∈ r.dealsOf x →
      c1 ∈ sm.dealsAwaitingSeal.dealsOf x ∨ (c1 = c ∧ x = s) := by
    intro x c1 hc1
    rw [hr] at hc1
    by_cases hx : x = s
    · subst hx
      simp only [if_true, List.mem_append, List.mem_singleton] at hc1
      rcases hc1 with h1 | h1
      · exact Or.inl h1
      · exact Or.inr ⟨h1, rfl⟩
    · simp only [hx, if_false] at hc1
      exact Or.inl hc1
  refine h.with_registry r ?_ ?_ ?_
  · intro x
    rw [hr]
    by_cases hx : x = s
    · subst hx
      simp only [if_true]
      rw [List.nodup_append]
      refine ⟨h.listsNodup x, List.nodup_singleton c, ?_⟩
      intro a ha hb
      rw [List.mem_singleton] at hb
      exact hunreg x (hb ▸ ha)
    · simp only [hx, if_false]
      exact h.listsNodup x
  · intro x c1 hc1
    rcases hmem x c1 hc1 with h1 | ⟨h1, _⟩
    · exact h.listsStaged x c1 h1
    · rw [h1]
      exact hstaged
  · intro x1 x2 c1 hc1 hc2
    rcases hmem x1 c1 hc1 with h1 | ⟨h1, hx1⟩
    · rcases hmem x2 c1 hc2 with h2 | ⟨h2, _⟩
      · exact h.listsDisjoint x1 x2 c1 h1 h2
      · exact absurd (h2 ▸ h1) (hunreg x1)
    · rcases hmem x2 c1 hc2 with h2 | ⟨_, hx2⟩
      · exact absurd (h1 ▸ h2) (hunreg x2)
      · rw [hx1, hx2]

/-- A report for sector `s`, with its callbacks run: when the report invokes
one callback per deal waiting for `s` and removes the list of `s`, all callbacks
return and the invariant holds afterwards. -/
theorem runCallbacks_report (env : Env) (sm : Miner) (h : EngineInv sm) (s : Nat)
    (reported : dealsAwaitingSealStruct × List Callback)
    (hcalls : reported.2.map Callback.target = sm.dealsAwaitingSeal.dealsOf s)
    (hlists : ∀ x, reported.1.dealsOf x = if x = s then [] else sm.dealsAwaitingSeal.dealsOf x) :
    ∃ sm1, runCallbacks env { sm with dealsAwaitingSeal := reported.1 } reported.2 = .returns sm1
      ∧ EngineInv sm1 ∧ sm1.dealsAwaitingSeal = reported.1 := by
  have hsub : ∀ x c, c ∈ reported.1.dealsOf x → x ≠ s ∧ c ∈ sm.dealsAwaitingSeal.dealsOf x := by
    intro x c hc
    rw [hlists] at hc
    by_cases hx : x = s
    · simp [hx] at hc
    · simp only [hx, if_false] at hc
      exact ⟨hx, hc⟩
  have hinv : EngineInv { sm with dealsAwaitingSeal := reported.1 } := by
    refine h.with_registry reported.1 ?_ ?_ ?_
    · intro x
      rw [hlists]
      by_cases hx : x = s
      · simp [hx]
      · simp only [hx, if_false]
        exact h.listsNodup x
    · intro x c hc
      exact h.listsStaged x c (hsub x c hc).2
    · intro x1 x2 c hc1 hc2
      exact h.listsDisjoint x1 x2 c (hsub x1 c hc1).2 (hsub x2 c hc2).2
  refine runCallbacks_inv env reported.2 _ hinv ?_ ?_
  · rw [hcalls]
    exact h.listsNodup s
  · intro call hcall
    have hmem : call.target ∈ sm.dealsAwaitingSeal.dealsOf s := by
      rw [← hcalls]
      exact List.mem_map_of_mem Callback.target hcall
    refine ⟨h.listsStaged s _ hmem, ?_⟩
    intro x hx
    obtain ⟨hne, hx2⟩ := hsub x _ hx
    exact hne (h.listsDisjoint x s _ hx2 hmem)

/-- A commitment report keeps the invariant, and never panics under it. -/
theorem OnCommitmentAddedToChain_inv (env : Env) (sm : Miner) (sector : SealedSectorMetadata)
    (err : Option String) (h : EngineInv sm) :
    ∃ sm1, OnCommitmentAddedToChain env sm sector err = .returns sm1 ∧ EngineInv sm1 := by
  have hshape : ∀ (r : dealsAwaitingSealStruct) (message : String),
      ((match err with
          | some e => r.fail sector.SectorID (sealingErrorMessage sector.SectorID e)
          | none => r.success sector).2.map Callback.target = r.dealsOf sector.SectorID)
      ∧ ∀ x, (match err with
          | some e => r.fail sector.SectorID (sealingErrorMessage sector.SectorID e)
          | none => r.success sector).1.dealsOf x
          = if x = sector.SectorID then [] else r.dealsOf x := by
    intro r message
    cases err with
    | some e => exact (r.report_shape sector sector.SectorID _).2
    | none => exact (r.report_shape sector sector.SectorID message).1
  obtain ⟨sm1, hrun, hinv, hreg⟩ := runCallbacks_report env sm h sector.SectorID _
    (hshape sm.dealsAwaitingSeal "").1 (hshape sm.dealsAwaitingSeal "").2
  unfold OnCommitmentAddedToChain
  simp only [hrun]
  cases hsave : saveDealsAwaitingSeal env sm1 with
  | ok sm2 => exact ⟨sm2, rfl, EngineInv.of_sameCore (saveDealsAwaitingSeal_sameCore hsave) hinv⟩
  | error e =>
    simp only
    have hempty : sm1.dealsAwaitingSeal.dealsOf sector.SectorID = [] := by
      rw [hreg, (hshape sm.dealsAwaitingSeal "").2]
      simp
    have hf := (sm1.dealsAwaitingSeal.report_shape sector sector.SectorID
      ("failed persisting deals awaiting seal: " ++ e)).2
    have hnil : (sm1.dealsAwaitingSeal.fail sector.SectorID
        ("failed persisting deals awaiting seal: " ++ e)).2 = [] := by
      have := hf.1
      rw [hempty] at this
      exact List.map_eq_nil_iff.mp this
    rw [hnil]
    refine ⟨_, rfl, hinv.same_lists _ ?_⟩
    intro x
    rw [hf.2]
    by_cases hx : x = sector.SectorID
    · simp [hx, hempty]
    · simp [hx]

/-- A worker keeps the invariant, and never panics under it. -/
theorem processStorageDeal_inv (env : Env) (sm : Miner) (c : Cid) (h : EngineInv sm)
    (hw : c ∈ sm.workers) :
    ∃ sm1, processStorageDeal env { sm with workers := sm.workers.erase c } c = .returns sm1
      ∧ EngineInv sm1 := by
  obtain ⟨d, hd, hstate, hsize⟩ := h.workersAccepted c hw
  obtain ⟨size, hsz⟩ := Option.ne_none_iff_exists'.mp hsize
  obtain ⟨hinv0, hgone⟩ := h.erase c
  have hunreg : ∀ x, c ∉ sm.dealsAwaitingSeal.dealsOf x := by
    intro x hx
    have := h.listsStaged x c hx
    simp [Miner.stateAt, hd, hstate] at this
  have hd0 : ({ sm with workers := sm.workers.erase c } : Miner).deals c = some d := hd
  have hfailed : ∀ (message : String),
      ∃ sm1, updateAndLog env { sm with workers := sm.workers.erase c } c
          (fun resp => { resp with Message := message, State := .Failed }) = .returns sm1
        ∧ EngineInv sm1 := by
    intro message
    obtain ⟨sm1, hup, hcore⟩ := updateAndLog_returns env _ c
      (fun resp => { resp with Message := message, State := .Failed }) d hd0
    exact ⟨sm1, hup, EngineInv.of_sameCore hcore
      (hinv0.store_edge c d _ hd0 (Or.inl ⟨hstate, Or.inr rfl⟩) hgone hunreg)⟩
  cases hfetch : env.FetchGraph d.Proposal.PieceRef with
  | some e =>
    obtain ⟨sm1, hup, hinv⟩ := hfailed "Transfer failed"
    refine ⟨sm1, ?_, hinv⟩
    unfold processStorageDeal
    simp [hd, hstate, hfetch, hup]
  | none =>
    cases hadd : env.AddPiece d.Proposal.PieceRef size with
    | error e =>
      obtain ⟨sm1, hup, hinv⟩ := hfailed "failed to submit seal proof"
      refine ⟨sm1, ?_, hinv⟩
      unfold processStorageDeal
      simp [hd, hstate, hfetch, hsz, hadd, hup]
    | ok sectorID =>
      obtain ⟨smS, hcore, hrest⟩ := processStorageDeal_staged env _ c d size sectorID hd0 hstate
        hsz hfetch hadd
      have hinvS : EngineInv smS := EngineInv.of_sameCore hcore
        (hinv0.store_edge c d _ hd0 (Or.inl ⟨hstate, Or.inl rfl⟩) hgone hunreg)
      have hstagedS : smS.stateAt c = some .Staged := by
        simp [Miner.stateAt, hcore.1, Miner.storeDeal, mapSet]
      have hregS : smS.dealsAwaitingSeal = sm.dealsAwaitingSeal := hcore.2.2.1
      have hunregS : ∀ x, c ∉ smS.dealsAwaitingSeal.dealsOf x := by
        rw [hregS]
        exact hunreg
      rcases smS.dealsAwaitingSeal.add_shape sectorID c with
        ⟨⟨call, hcalls, htarget⟩, hlists⟩ | ⟨hcalls, hlists⟩
      · have hinvX := hinvS.same_lists (smS.dealsAwaitingSeal.add sectorID c).1 hlists
        obtain ⟨sm2, hrun, hinv2, _⟩ := runCallbacks_inv env [call] _ hinvX
          (by simp)
          (fun call1 hc1 => by
            rw [List.mem_singleton] at hc1
            subst hc1
            rw [htarget]
            refine ⟨hstagedS, fun x hx => hunregS x ?_⟩
            rw [← hlists x]
            exact hx)
        obtain ⟨sm3, hproc, hcore3⟩ := hrest sm2 (by rw [hcalls]; exact hrun)
        exact ⟨sm3, hproc, EngineInv.of_sameCore hcore3 hinv2⟩
      · have hinvX := hinvS.register (smS.dealsAwaitingSeal.add sectorID c).1 sectorID c
          hstagedS hunregS hlists
        obtain ⟨sm3, hproc, hcore3⟩ := hrest _ (by rw [hcalls]; rfl)
        exact ⟨sm3, hproc, EngineInv.of_sameCore hcore3 hinvX⟩

/-- Receiving a proposal whose cid has no record keeps the invariant. -/
theorem receiveStorageProposal_inv (k : Constants) (env : Env) (f : Fmt) (sm : Miner)
    (p : DealProposal) (h : EngineInv sm)
    (hfresh : ∀ c, env.ToCid p = .ok c → sm.deals c = none) :
    EngineInv
      (receiveStorageProposal k env f (acceptProposal env) (rejectProposal env) sm p).2 := by
  unfold receiveStorageProposal
  cases hv : validateDealPayment k env sm p with
  | error e =>
    simp only [rejectProposal]
    cases hcid : env.ToCid p with
    | error err => exact h
    | ok c =>
      simp only
      have hinv1 := h.store_fresh c
        ⟨p, ⟨.Rejected, e.Error f, c, none, "signaturrreee"⟩⟩ (hfresh c hcid) (Or.inr rfl)
      cases hsave : saveDeal env
          (sm.storeDeal c ⟨p, ⟨.Rejected, e.Error f, c, none, "signaturrreee"⟩⟩) c with
      | error err => exact hinv1
      | ok sm2 => exact EngineInv.of_sameCore (saveDeal_sameCore hsave) hinv1
  | ok u =>
    cases u
    obtain ⟨_, size, _, _, _, _, _, _, hsize, _⟩ := validateDealPayment_ok hv
    simp only [acceptProposal]
    split
    · exact h
    · cases hcid : env.ToCid p with
      | error err => exact h
      | ok c =>
        simp only
        have hnone := hfresh c hcid
        have hinv1 := h.store_fresh c
          ⟨p, ⟨.Accepted, "", c, none, "signaturrreee"⟩⟩ hnone (Or.inl rfl)
        have hworker : c ∉ sm.workers := by
          intro hw
          obtain ⟨d, hd, _⟩ := h.workersAccepted c hw
          rw [hnone] at hd
          cases hd
        have hunreg : ∀ x, c ∉ sm.dealsAwaitingSeal.dealsOf x := by
          intro x hx
          have := h.listsStaged x c hx
          simp [Miner.stateAt, hnone] at this
        have hd1 : (sm.storeDeal c ⟨p, ⟨.Accepted, "", c, none, "signaturrreee"⟩⟩).deals c
            = some ⟨p, ⟨.Accepted, "", c, none, "signaturrreee"⟩⟩ := by
          simp [Miner.storeDeal, mapSet]
        cases hsave : saveDeal env
            (sm.storeDeal c ⟨p, ⟨.Accepted, "", c, none, "signaturrreee"⟩⟩) c with
        | error err =>
          exact hinv1.store_edge c _ _ hd1 (Or.inl ⟨rfl, Or.inr rfl⟩) hworker hunreg
        | ok sm2 =>
          have hcore := saveDeal_sameCore hsave
          have hinv2 := EngineInv.of_sameCore hcore hinv1
          refine hinv2.spawn c ⟨p, ⟨.Accepted, "", c, none, "signaturrreee"⟩⟩ ?_ rfl ?_ ?_
          · rw [hcore.1]
            exact hd1
          · show p.Size ≠ none
            rw [hsize]
            simp
          · rw [hcore.2.1]
            exact hworker

/-- Every operation of the engine returns and keeps the invariant, provided a
received proposal has a cid without a record. -/
theorem EngineOp.step_inv (op : EngineOp) (sm : Miner) (h : EngineInv sm) (hfresh : op.Fresh sm) :
    ∃ sm1, op.step sm = .returns sm1 ∧ EngineInv sm1 := by
  cases op with
  | receive k env f p => exact ⟨_, rfl, receiveStorageProposal_inv k env f sm p h hfresh⟩
  | work env c =>
    by_cases hw : c ∈ sm.workers
    · obtain ⟨sm1, hproc, hinv⟩ := processStorageDeal_inv env sm c h hw
      exact ⟨sm1, by simp only [EngineOp.step, hw, if_true, hproc], hinv⟩
    · exact ⟨sm, by simp only [EngineOp.step, hw, if_false], h⟩
  | commitment env sector err => exact OnCommitmentAddedToChain_inv env sm sector err h

/-- A run without a proposal received twice returns and keeps the invariant. -/
theorem runEngine_inv :
    ∀ (ops : List EngineOp) (sm : Miner), EngineInv sm → FreshRun ops sm →
      ∃ sm1, runEngine ops sm = .returns sm1 ∧ EngineInv sm1
  | [], sm, h, _ => ⟨sm, rfl, h⟩
  | op :: ops, sm, h, hfresh => by
    obtain ⟨sm1, hstep, hinv⟩ := op.step_inv sm h hfresh.1
    obtain ⟨sm2, hrun, hinv2⟩ := runEngine_inv ops sm1 hinv (hfresh.2 sm1 hstep)
    refine ⟨sm2, ?_, hinv2⟩
    simp only [runEngine, hstep]
    exact hrun

/-- C15, as stated, fails: the scenario proposal is accepted, its worker fails
to fetch the piece and stores `Failed`, and the same proposal, received again,
is stored as `Accepted`. The states stored for its cid are `Accepted`, `Failed`,
`Accepted`, which is no prefix of a path of the diagram. -/
theorem state_regresses_on_duplicate_proposal :
    (∃ sm2, runEngine (duplicateProposalRun.take 2) scenarioMiner = .returns sm2
      ∧ (Query sm2 ⟨"proposal"⟩).State = .Failed)
    ∧ ∃ sm, runEngine duplicateProposalRun scenarioMiner = .returns sm
      ∧ (Query sm ⟨"proposal"⟩).State = .Accepted
      ∧ statesOf sm.stateLog ⟨"proposal"⟩ = [.Accepted, .Failed, .Accepted]
      ∧ ¬ IsPathPrefix (statesOf sm.stateLog ⟨"proposal"⟩) := by
  refine ⟨⟨_, rfl, rfl⟩, _, rfl, rfl, rfl, ?_⟩
  rintro ⟨path, hpath, hpre⟩
  have hpre2 : [DealState.Accepted, .Failed, .Accepted] <+: path := hpre
  simp only [statePaths, List.mem_cons, List.mem_singleton, List.not_mem_nil, or_false] at hpath
  rcases hpath with rfl | rfl | rfl | rfl <;>
    · have hlen := hpre2.length_le
      obtain ⟨t, ht⟩ := hpre2
      simp at ht hlen

/-- C15, amended: from a new miner, for every sequence of engine operations
(proposals received, started workers run, seal successes and failures reported)
in which no proposal is received whose cid already has a record, every
operation returns, and for every deal id the sequence of states stored for it
is a prefix of a path of the diagram `Rejected | Accepted -> Staged -> Posted |
Accepted -> Failed | Staged -> Failed` and ends in the state of its record; in
particular no state is stored after `Posted`, `Rejected` or `Failed`. -/
theorem state_monotonicity (ops : List EngineOp) (sm0 : Miner) (hnew : sm0.IsNew)
    (hfresh : FreshRun ops sm0) :
    ∃ sm, runEngine ops sm0 = .returns sm
      ∧ ∀ c, IsPathPrefix (statesOf sm.stateLog c)
        ∧ (statesOf sm.stateLog c).getLast? = sm.stateAt c
        ∧ ∀ x ∈ (statesOf sm.stateLog c).dropLast, x = .Accepted ∨ x = .Staged := by
  obtain ⟨sm, hrun, hinv⟩ := runEngine_inv ops sm0 (EngineInv.of_isNew hnew) hfresh
  exact ⟨sm, hrun, fun c => ⟨isPathPrefix_of_mem _ (hinv.trace c).1, (hinv.trace c).2,
    nonfinal_of_mem _ (hinv.trace c).1⟩⟩

/-- A run whose first operation returns `sm1` is fresh when the operation is
and the rest of the run is fresh from `sm1`. -/
theorem FreshRun.cons {op : EngineOp} {ops : List EngineOp} {sm sm1 : Miner}
    (hstep : op.step sm = .returns sm1) (hop : op.Fresh sm) (hrest : FreshRun ops sm1) :
    FreshRun (op :: ops) sm := by
  refine ⟨hop, fun sm2 h2 => ?_⟩
  rw [hstep] at h2
  cases h2
  exact hrest

/-- Witness of C15, amended: the scenario proposal accepted by the new scenario
miner, its worker run, and its sector reported sealed. -/
theorem state_monotonicity_witness :
    scenarioMiner.IsNew ∧ FreshRun sealedRun scenarioMiner
      ∧ ∃ sm, runEngine sealedRun scenarioMiner = .returns sm
        ∧ ∀ c, IsPathPrefix (statesOf sm.stateLog c)
          ∧ (statesOf sm.stateLog c).getLast? = sm.stateAt c
          ∧ ∀ x ∈ (statesOf sm.stateLog c).dropLast, x = .Accepted ∨ x = .Staged :=
  have hfresh : FreshRun sealedRun scenarioMiner :=
    FreshRun.cons rfl (fun _ _ => rfl) (FreshRun.cons rfl trivial
      (FreshRun.cons rfl trivial trivial))
  ⟨⟨rfl, rfl, rfl, rfl⟩, hfresh,
    state_monotonicity sealedRun scenarioMiner ⟨rfl, rfl, rfl, rfl⟩ hfresh⟩

/-! ## The scheduler decision and the proof worker -/

/-- C21: scheduler decision. On a head callback with tip height `h` and period
start `P`, all queries succeeding (the commitments query, its decoding to a map
of commitments, the period query of the challenge seed answering `P0`, the
period query answering `P`, the tip height): when the commitment set is
non-empty, `postInProcess` is not `P` and `P ≤ h < P + ProvingPeriodBlocks`, the
callback sets `postInProcess` to `P` and starts one proof worker, for the period
`[P, P + ProvingPeriodBlocks)`, the seed of `P0` and the `CommR`s of the set,
and changes nothing else; in every other case the miner is unchanged. So a
worker is started exactly under the three conditions. -/
theorem scheduler_decision (provingPeriodBlocks P0 P h : Nat) (pe : PoStEnv) (sm : Miner)
    (ts : TipSet) (ret : Bytes) (commitments : List (String × Commitments))
    (hq : pe.QuerySectorCommitments = .ok ret)
    (hd : pe.Deserialize ret = .ok (.commitments commitments))
    (h0 : pe.QueryProvingPeriodStart 0 = .ok P0) (h1 : pe.QueryProvingPeriodStart 1 = .ok P)
    (hh : ts.Height = .ok h) :
    ((commitments ≠ [] ∧ sm.postInProcess ≠ some P ∧ P ≤ h ∧ h < P + provingPeriodBlocks) →
      OnNewHeaviestTipSet provingPeriodBlocks pe sm ts
        = { sm with
            postInProcess := some P,
            postWorkers := sm.postWorkers ++
              [⟨P, P + provingPeriodBlocks, pe.Sum256 (pe.HeightBytes P0),
                commitments.map (fun v => v.2.CommR)⟩] })
    ∧ (¬ (commitments ≠ [] ∧ sm.postInProcess ≠ some P ∧ P ≤ h ∧ h < P + provingPeriodBlocks) →
      OnNewHeaviestTipSet provingPeriodBlocks pe sm ts = sm)
    ∧ ((∃ job, (OnNewHeaviestTipSet provingPeriodBlocks pe sm ts).postWorkers
          = sm.postWorkers ++ [job]
        ∧ (OnNewHeaviestTipSet provingPeriodBlocks pe sm ts).postInProcess = some P)
      ↔ (commitments ≠ [] ∧ sm.postInProcess ≠ some P ∧ P ≤ h
          ∧ h < P + provingPeriodBlocks)) := by
  have hyes : (commitments ≠ [] ∧ sm.postInProcess ≠ some P ∧ P ≤ h
        ∧ h < P + provingPeriodBlocks) →
      OnNewHeaviestTipSet provingPeriodBlocks pe sm ts
        = { sm with
            postInProcess := some P,
            postWorkers := sm.postWorkers ++
              [⟨P, P + provingPeriodBlocks, pe.Sum256 (pe.HeightBytes P0),
                commitments.map (fun v => v.2.CommR)⟩] } := by
    rintro ⟨hne, hnot, hlo, hhi⟩
    have hlen : ¬ (commitments.map (fun v => v.2.CommR)).length = 0 := by
      simpa using hne
    unfold OnNewHeaviestTipSet
    simp only [hq, hd, hlen, if_false, provingPeriodPoStChallengeSeed, getProvingPeriodStart, h0,
      h1, hh]
    simp [hnot, hlo, hhi]
  have hno : ¬ (commitments ≠ [] ∧ sm.postInProcess ≠ some P ∧ P ≤ h
        ∧ h < P + provingPeriodBlocks) →
      OnNewHeaviestTipSet provingPeriodBlocks pe sm ts = sm := by
    intro hcond
    unfold OnNewHeaviestTipSet
    simp only [hq, hd, provingPeriodPoStChallengeSeed, getProvingPeriodStart, h0, h1, hh]
    by_cases hne : commitments = []
    · simp [hne]
    · have hlen : ¬ (commitments.map (fun v => v.2.CommR)).length = 0 := by
        simpa using hne
      simp only [hlen, if_false]
      by_cases hin : sm.postInProcess = some P
      · simp [hin]
      · simp only [hin, if_false]
        by_cases hlo : P ≤ h
        · by_cases hhi : h < P + provingPeriodBlocks
          · exact absurd ⟨hne, hin, hlo, hhi⟩ hcond
          · simp [hlo, hhi]
        · simp [hlo]
  refine ⟨hyes, hno, ⟨?_, fun hcond => ⟨_, by rw [hyes hcond], by rw [hyes hcond]⟩⟩⟩
  rintro ⟨job, hjob, _⟩
  by_contra hcond
  rw [hno hcond] at hjob
  have hlen := congrArg List.length hjob
  simp at hlen

/-- Witness of C21: in the period starting at 100 with 50 blocks per period, a
tip of height 110 starts the worker; a tip of height 150 does not. -/
theorem scheduler_decision_witness :
    OnNewHeaviestTipSet 50 periodEnv scenarioMiner ⟨.ok 110⟩
      = { scenarioMiner with
          postInProcess := some 100, postWorkers := [⟨100, 150, [100], [[2]]⟩] }
    ∧ OnNewHeaviestTipSet 50 periodEnv scenarioMiner ⟨.ok 150⟩ = scenarioMiner :=
  ⟨(scheduler_decision 50 100 100 110 periodEnv scenarioMiner ⟨.ok 110⟩ []
      [("1", ⟨[1], [2], [3]⟩)] rfl rfl rfl rfl rfl).1
      ⟨by simp, by simp [scenarioMiner], by decide, by decide⟩,
    (scheduler_decision 50 100 100 150 periodEnv scenarioMiner ⟨.ok 150⟩ []
      [("1", ⟨[1], [2], [3]⟩)] rfl rfl rfl rfl rfl).2.1 (by simp)⟩

/-- C22: the proof worker. `generateAndSubmitPoSt(start, end, seed, commRs)`
calls `MessageSend` if and only if `GeneratePoST` succeeds, the block height is
available, and `start ≤ height < end`; whatever faults the response reports, it
then sends one message, from the miner owner address to the miner address, with
value zero, gas price 0, gas limit 300, method `submitPoSt` and the generated
proof as parameter; and a worker that has run leaves `postInProcess` as it
was. -/
theorem proof_worker_sends (pe : PoStEnv) (sm : Miner) (job : PoStJob) :
    (generateAndSubmitPoSt pe sm job ≠ [] ↔
      ∃ res height, pe.GeneratePoST job.commRs job.challengeSeed = .ok res
        ∧ pe.BlockHeight = .ok height
        ∧ job.provingPeriodStart ≤ height ∧ height < job.provingPeriodEnd)
    ∧ (∀ res height, pe.GeneratePoST job.commRs job.challengeSeed = .ok res →
        pe.BlockHeight = .ok height →
        job.provingPeriodStart ≤ height → height < job.provingPeriodEnd →
        generateAndSubmitPoSt pe sm job
          = [⟨sm.minerOwnerAddr, sm.minerAddr, 0, 0, 300, "submitPoSt", [res.Proof]⟩])
    ∧ (runPoStWorker pe sm).1.postInProcess = sm.postInProcess
    ∧ (∀ jobs, sm.postWorkers = job :: jobs →
        runPoStWorker pe sm = ({ sm with postWorkers := jobs }, generateAndSubmitPoSt pe sm job))
    := by
  have hsend : ∀ res height, pe.GeneratePoST job.commRs job.challengeSeed = .ok res →
      pe.BlockHeight = .ok height →
      job.provingPeriodStart ≤ height → height < job.provingPeriodEnd →
      generateAndSubmitPoSt pe sm job
        = [⟨sm.minerOwnerAddr, sm.minerAddr, 0, 0, 300, "submitPoSt", [res.Proof]⟩] := by
    intro res height hgen hheight hlo hhi
    unfold generateAndSubmitPoSt
    simp [hgen, hheight, not_lt.mpr hlo, hhi, submitPostGasPrice, submitPostGasLimit]
  refine ⟨⟨fun hne => ?_, ?_⟩, hsend, ?_, ?_⟩
  · unfold generateAndSubmitPoSt at hne
    cases hgen : pe.GeneratePoST job.commRs job.challengeSeed with
    | error e => simp [hgen] at hne
    | ok res =>
      cases hheight : pe.BlockHeight with
      | error e => simp [hgen, hheight] at hne
      | ok height =>
        by_cases hlo : height < job.provingPeriodStart
        · simp [hgen, hheight, hlo] at hne
        · by_cases hhi : height ≥ job.provingPeriodEnd
          · simp [hgen, hheight, hlo, hhi] at hne
          · exact ⟨res, height, rfl, rfl, not_lt.mp hlo, not_le.mp hhi⟩
  · rintro ⟨res, height, hgen, hheight, hlo, hhi⟩
    rw [hsend res height hgen hheight hlo hhi]
    simp
  · unfold runPoStWorker
    split <;> rfl
  · intro jobs hjobs
    unfold runPoStWorker
    rw [hjobs]

/-- Witness of C22: the worker of the period `[100, 150)` at block height 120,
its proof generation reporting two faults, sends the one message. -/
theorem proof_worker_sends_witness :
    generateAndSubmitPoSt faultyPoStEnv scenarioMiner ⟨100, 150, [100], [[2]]⟩
      = [⟨"minerOwner", "miner", 0, 0, 300, "submitPoSt", [[9]]⟩]
    ∧ (faultyPoStEnv.GeneratePoST [[2]] [100]).map (fun res => res.Faults) = .ok [3, 5] :=
  ⟨(proof_worker_sends faultyPoStEnv scenarioMiner ⟨100, 150, [100], [[2]]⟩).2.1 ⟨[9], [3, 5]⟩ 120
    rfl rfl (by decide) (by decide), rfl⟩

/-! ## Seal failure -/

/-- The failure callback, invoked for each deal of a list of deals with
records: every call returns, the registry is not touched, and exactly the
records of the list are changed, to `Failed` with the message. -/
theorem runCallbacks_onFail_list (env : Env) (message : String) :
    ∀ (cs : List Cid) (sm : Miner), (∀ c ∈ cs, sm.deals c ≠ none) →
      ∃ sm1, runCallbacks env sm (cs.map (fun c => Callback.onFail c message)) = .returns sm1
        ∧ sm1.dealsAwaitingSeal = sm.dealsAwaitingSeal
        ∧ ∀ x, sm1.deals x
            = if x ∈ cs then
                (sm.deals x).map (fun d =>
                  ⟨d.Proposal, { d.Response with Message := message, State := .Failed }⟩)
              else sm.deals x
  | [], sm, _ => ⟨sm, rfl, rfl, fun x => by simp⟩
  | c :: cs, sm, hrec => by
    obtain ⟨d, hd⟩ := Option.ne_none_iff_exists'.mp (hrec c (List.mem_cons_self c cs))
    obtain ⟨sm1, hup, hcore⟩ := updateAndLog_returns env sm c
      (fun resp => { resp with Message := message, State := .Failed }) d hd
    have hdeals1 : ∀ x, sm1.deals x
        = if x = c then
            some ⟨d.Proposal, { d.Response with Message := message, State := .Failed }⟩
          else sm.deals x := by
      intro x
      rw [hcore.1]
      rfl
    have hrec1 : ∀ x ∈ cs, sm1.deals x ≠ none := by
      intro x hx
      rw [hdeals1]
      by_cases hxc : x = c
      · simp [hxc]
      · simp only [hxc, if_false]
        exact hrec x (List.mem_cons_of_mem c hx)
    obtain ⟨sm2, hrun, hreg, hdeals2⟩ := runCallbacks_onFail_list env message cs sm1 hrec1
    refine ⟨sm2, ?_, hreg.trans hcore.2.2.1, fun x => ?_⟩
    · simp only [List.map_cons, runCallbacks, onCommitFail, hup]
      exact hrun
    · rw [hdeals2, hdeals1]
      by_cases hxc : x = c
      · subst hxc
        by_cases hx : x ∈ cs <;> simp [hx, hd]
      · by_cases hx : x ∈ cs <;> simp [hx, hxc]

/-- C23: seal failure. For every sector `s` with deals registered in
`SectorsToDeals[s]`, each with a record, `OnCommitmentAddedToChain(sector s,
err)` with `err` not `nil` returns and leaves each of these deals with
`State = Failed` and `Message` the message passed to the registry, `failed
sealing sector: s: err:`, the rest of its record as it was; `s` is no key of
`SectorsToDeals` afterwards, the lists of the other sectors are as they were,
and no other deal is changed. This holds whether or not the datastore accepts
the saves. -/
theorem seal_failure (env : Env) (sm : Miner) (sector : SealedSectorMetadata) (err : String)
    (hrec : ∀ c ∈ sm.dealsAwaitingSeal.dealsOf sector.SectorID, sm.deals c ≠ none) :
    ∃ sm1, OnCommitmentAddedToChain env sm sector (some err) = .returns sm1
      ∧ (∀ c ∈ sm.dealsAwaitingSeal.dealsOf sector.SectorID, ∃ d, sm.deals c = some d
          ∧ sm1.deals c = some ⟨d.Proposal,
              { d.Response with
                Message := sealingErrorMessage sector.SectorID err, State := .Failed }⟩)
      ∧ sm1.dealsAwaitingSeal.SectorsToDeals sector.SectorID = none
      ∧ (∀ x, x ≠ sector.SectorID →
          sm1.dealsAwaitingSeal.SectorsToDeals x = sm.dealsAwaitingSeal.SectorsToDeals x)
      ∧ (∀ c, c ∉ sm.dealsAwaitingSeal.dealsOf sector.SectorID → sm1.deals c = sm.deals c) := by
  have hcalls : (sm.dealsAwaitingSeal.fail sector.SectorID
        (sealingErrorMessage sector.SectorID err)).2
      = (sm.dealsAwaitingSeal.dealsOf sector.SectorID).map
          (fun c => Callback.onFail c (sealingErrorMessage sector.SectorID err)) := by
    simp [dealsAwaitingSealStruct.fail, dealsAwaitingSealStruct.dealsOf]
  have hlists : ∀ x, (sm.dealsAwaitingSeal.fail sector.SectorID
        (sealingErrorMessage sector.SectorID err)).1.SectorsToDeals x
      = if x = sector.SectorID then none else sm.dealsAwaitingSeal.SectorsToDeals x := by
    intro x
    simp [dealsAwaitingSealStruct.fail, mapDelete]
  obtain ⟨sm1, hrun, hreg, hdeals⟩ := runCallbacks_onFail_list env
    (sealingErrorMessage sector.SectorID err) (sm.dealsAwaitingSeal.dealsOf sector.SectorID)
    { sm with dealsAwaitingSeal := (sm.dealsAwaitingSeal.fail sector.SectorID
        (sealingErrorMessage sector.SectorID err)).1 } hrec
  have hlists1 : ∀ x, sm1.dealsAwaitingSeal.SectorsToDeals x
      = if x = sector.SectorID then none else sm.dealsAwaitingSeal.SectorsToDeals x := by
    intro x
    rw [hreg]
    exact hlists x
  have hfailed : ∀ c ∈ sm.dealsAwaitingSeal.dealsOf sector.SectorID, ∃ d, sm.deals c = some d
      ∧ sm1.deals c = some ⟨d.Proposal,
          { d.Response with
            Message := sealingErrorMessage sector.SectorID err, State := .Failed }⟩ := by
    intro c hc
    obtain ⟨d, hd⟩ := Option.ne_none_iff_exists'.mp (hrec c hc)
    refine ⟨d, hd, ?_⟩
    rw [hdeals c]
    simp only [hc, if_true]
    show (sm.deals c).map _ = _
    rw [hd]
    rfl
  have hother : ∀ c, c ∉ sm.dealsAwaitingSeal.dealsOf sector.SectorID →
      sm1.deals c = sm.deals c := by
    intro c hc
    rw [hdeals c]
    simp only [hc, if_false]
  unfold OnCommitmentAddedToChain
  simp only [hcalls] at hrun ⊢
  rw [hrun]
  simp only
  cases hsave : saveDealsAwaitingSeal env sm1 with
  | ok sm2 =>
    obtain ⟨h1, _, h3, _⟩ := saveDealsAwaitingSeal_sameCore hsave
    refine ⟨sm2, rfl, ?_, ?_, ?_, ?_⟩
    · intro c hc
      rw [h1]
      exact hfailed c hc
    · rw [h3, hlists1]
      simp
    · intro x hx
      rw [h3, hlists1]
      simp [hx]
    · intro c hc
      rw [h1]
      exact hother c hc
  | error e =>
    have hnone : sm1.dealsAwaitingSeal.dealsOf sector.SectorID = [] := by
      simp [dealsAwaitingSealStruct.dealsOf, hlists1]
    have hcalls2 : (sm1.dealsAwaitingSeal.fail sector.SectorID
        ("failed persisting deals awaiting seal: " ++ e)).2 = [] := by
      simp [dealsAwaitingSealStruct.fail, dealsAwaitingSealStruct.dealsOf, hlists1]
    simp only [hcalls2, runCallbacks]
    refine ⟨_, rfl, hfailed, ?_, ?_, hother⟩
    · simp [dealsAwaitingSealStruct.fail, mapDelete]
    · intro x hx
      simp [dealsAwaitingSealStruct.fail, mapDelete, hx, hlists1]

/-- Witness of C23: with the scenario deal registered against sector 42, a
sealing failure of sector 42 leaves the deal `Failed` with the message built
from the error. -/
theorem seal_failure_witness :
    stagedMiner.dealsAwaitingSeal.dealsOf 42 = [⟨"proposal"⟩]
    ∧ ∃ sm1, OnCommitmentAddedToChain sector42Env stagedMiner sector42 (some "disk full")
        = .returns sm1
      ∧ (∀ c ∈ stagedMiner.dealsAwaitingSeal.dealsOf sector42.SectorID,
          ∃ d, stagedMiner.deals c = some d
          ∧ sm1.deals c = some ⟨d.Proposal,
              { d.Response with
                Message := sealingErrorMessage sector42.SectorID "disk full",
                State := .Failed }⟩)
      ∧ sm1.dealsAwaitingSeal.SectorsToDeals sector42.SectorID = none
      ∧ (∀ x, x ≠ sector42.SectorID →
          sm1.dealsAwaitingSeal.SectorsToDeals x = stagedMiner.dealsAwaitingSeal.SectorsToDeals x)
      ∧ (∀ c, c ∉ stagedMiner.dealsAwaitingSeal.dealsOf sector42.SectorID →
          sm1.deals c = stagedMiner.deals c) :=
  ⟨rfl, seal_failure sector42Env stagedMiner sector42 "disk full" (by
    intro c hc
    have hlist : stagedMiner.dealsAwaitingSeal.dealsOf sector42.SectorID = [⟨"proposal"⟩] := rfl
    rw [hlist, List.mem_singleton] at hc
    subst hc
    have hd : stagedMiner.deals ⟨"proposal"⟩
        = some ⟨scenarioProposal, ⟨.Staged, "", ⟨"proposal"⟩, none, "signaturrreee"⟩⟩ := rfl
    rw [hd]
    simp)⟩

/-! ## The paths of the deal worker -/

/-- One callback on a deal with a record returns, stores one state for that
deal and leaves the registry as it was. -/
theorem runCallbacks_single (env : Env) (sm : Miner) (call : Callback) (d : storageDeal)
    (hd : sm.deals call.target = some d) :
    ∃ sm1 state, runCallbacks env sm [call] = .returns sm1
      ∧ sm1.dealsAwaitingSeal = sm.dealsAwaitingSeal
      ∧ sm1.stateLog = sm.stateLog ++ [(call.target, state)] := by
  cases call with
  | onSuccess dealCid sector =>
    obtain ⟨sm1, hup, hcore⟩ := updateAndLog_returns env sm dealCid
      (fun resp => { resp with
        State := .Posted,
        ProofInfo := some ⟨sector.SectorID, sector.CommR, sector.CommD⟩ }) d hd
    exact ⟨sm1, .Posted, by simp only [runCallbacks, onCommitSuccess, hup], hcore.2.2.1,
      hcore.2.2.2⟩
  | onFail dealCid message =>
    obtain ⟨sm1, hup, hcore⟩ := updateAndLog_returns env sm dealCid
      (fun resp => { resp with Message := message, State := .Failed }) d hd
    exact ⟨sm1, .Failed, by simp only [runCallbacks, onCommitFail, hup], hcore.2.2.1,
      hcore.2.2.2⟩

/-- C24: the paths of the deal worker. On a deal whose state is not `Accepted`,
`processStorageDeal(c)` changes nothing. On a deal in state `Accepted`: when the
piece fetch fails it ends with `State = Failed` and `Message = "Transfer
failed"`, the registry as it was, and the result does not depend on what
`AddPiece` would answer; when the fetch succeeds and `AddPiece` fails it ends
with `State = Failed`, `Message = "failed to submit seal proof"` and the
registry as it was; otherwise it returns, the first state it stores is `Staged`
for `c`, before any state a callback of the registration stores, the registry
afterwards is the registry with `(sectorID, c)` added, and the deal is `Staged`
when the registration invokes no callback. -/
theorem deal_worker_paths (env : Env) (sm : Miner) (c : Cid) (d : storageDeal)
    (hd : sm.deals c = some d) :
    (d.Response.State ≠ .Accepted → processStorageDeal env sm c = .returns sm)
    ∧ (d.Response.State = .Accepted →
      (∀ e, env.FetchGraph d.Proposal.PieceRef = some e →
        ∃ sm1, processStorageDeal env sm c = .returns sm1
          ∧ sm1.deals c = some ⟨d.Proposal,
              { d.Response with Message := "Transfer failed", State := .Failed }⟩
          ∧ (∀ x, x ≠ c → sm1.deals x = sm.deals x)
          ∧ sm1.dealsAwaitingSeal = sm.dealsAwaitingSeal
          ∧ ∀ addPiece, processStorageDeal { env with AddPiece := addPiece } sm c
              = .returns sm1)
      ∧ (∀ size e, env.FetchGraph d.Proposal.PieceRef = none → d.Proposal.Size = some size →
          env.AddPiece d.Proposal.PieceRef size = .error e →
        ∃ sm1, processStorageDeal env sm c = .returns sm1
          ∧ sm1.deals c = some ⟨d.Proposal,
              { d.Response with Message := "failed to submit seal proof", State := .Failed }⟩
          ∧ (∀ x, x ≠ c → sm1.deals x = sm.deals x)
          ∧ sm1.dealsAwaitingSeal = sm.dealsAwaitingSeal)
      ∧ (∀ size sectorID, env.FetchGraph d.Proposal.PieceRef = none →
          d.Proposal.Size = some size →
          env.AddPiece d.Proposal.PieceRef size = .ok sectorID →
        ∃ sm1, processStorageDeal env sm c = .returns sm1
          ∧ sm1.dealsAwaitingSeal = (sm.dealsAwaitingSeal.add sectorID c).1
          ∧ sm.stateLog ++ [(c, .Staged)] <+: sm1.stateLog
          ∧ ((sm.dealsAwaitingSeal.add sectorID c).2 = [] →
              sm1.deals c = some ⟨d.Proposal, { d.Response with State := .Staged }⟩))) := by
  have hfailed : ∀ (message : String),
      ∃ sm1, updateAndLog env sm c
          (fun resp => { resp with Message := message, State := .Failed }) = .returns sm1
        ∧ sm1.deals c = some ⟨d.Proposal,
            { d.Response with Message := message, State := .Failed }⟩
        ∧ (∀ x, x ≠ c → sm1.deals x = sm.deals x)
        ∧ sm1.dealsAwaitingSeal = sm.dealsAwaitingSeal := by
    intro message
    obtain ⟨sm1, hup, hcore⟩ := updateAndLog_returns env sm c
      (fun resp => { resp with Message := message, State := .Failed }) d hd
    refine ⟨sm1, hup, ?_, ?_, hcore.2.2.1⟩
    · rw [hcore.1]
      simp [Miner.storeDeal, mapSet]
    · intro x hx
      rw [hcore.1]
      simp [Miner.storeDeal, mapSet, hx]
  refine ⟨fun hstate => ?_, fun hstate => ⟨?_, ?_, ?_⟩⟩
  · unfold processStorageDeal
    simp [hd, hstate]
  · intro e hfetch
    obtain ⟨sm1, hup, hrec, hrest, hreg⟩ := hfailed "Transfer failed"
    refine ⟨sm1, ?_, hrec, hrest, hreg, fun addPiece => ?_⟩
    · unfold processStorageDeal
      simp [hd, hstate, hfetch, hup]
    · have hup1 : updateAndLog { env with AddPiece := addPiece } sm c
          (fun resp => { resp with Message := "Transfer failed", State := .Failed })
          = .returns sm1 := hup
      unfold processStorageDeal
      simp [hd, hstate, hfetch, hup1]
  · intro size e hfetch hsize hadd
    obtain ⟨sm1, hup, hrec, hrest, hreg⟩ := hfailed "failed to submit seal proof"
    refine ⟨sm1, ?_, hrec, hrest, hreg⟩
    unfold processStorageDeal
    simp [hd, hstate, hfetch, hsize, hadd, hup]
  · intro size sectorID hfetch hsize hadd
    obtain ⟨smS, hcore, hrest⟩ := processStorageDeal_staged env sm c d size sectorID hd hstate
      hsize hfetch hadd
    have hdS : smS.deals c = some ⟨d.Proposal, { d.Response with State := .Staged }⟩ := by
      rw [hcore.1]
      simp [Miner.storeDeal, mapSet]
    have hregS : smS.dealsAwaitingSeal = sm.dealsAwaitingSeal := hcore.2.2.1
    have hlogS : smS.stateLog = sm.stateLog ++ [(c, .Staged)] := hcore.2.2.2
    rcases smS.dealsAwaitingSeal.add_shape sectorID c with
      ⟨⟨call, hcalls, htarget⟩, _⟩ | ⟨hcalls, _⟩
    · obtain ⟨sm2, state, hrun, hreg2, hlog2⟩ := runCallbacks_single env
        { smS with dealsAwaitingSeal := (smS.dealsAwaitingSeal.add sectorID c).1 } call
        ⟨d.Proposal, { d.Response with State := .Staged }⟩ (by rw [htarget]; exact hdS)
      obtain ⟨sm3, hproc, hcore3⟩ := hrest sm2 (by rw [hcalls]; exact hrun)
      refine ⟨sm3, hproc, ?_, ?_, ?_⟩
      · rw [hcore3.2.2.1, hreg2, ← hregS]
      · rw [hcore3.2.2.2, hlog2]
        show _ <+: smS.stateLog ++ _
        rw [hlogS]
        exact List.prefix_append _ _
      · intro hnone
        rw [← hregS, hcalls] at hnone
        cases hnone
    · obtain ⟨sm3, hproc, hcore3⟩ := hrest _ (by rw [hcalls]; rfl)
      refine ⟨sm3, hproc, ?_, ?_, ?_⟩
      · rw [hcore3.2.2.1, ← hregS]
      · rw [hcore3.2.2.2]
        show _ <+: smS.stateLog
        rw [hlogS]
      · intro _
        rw [hcore3.1]
        exact hdS

/-- Witness of C24: the worker of the accepted scenario deal, with a block
service that does not find the piece. -/
theorem deal_worker_paths_witness :
    ∃ sm1, processStorageDeal missingPieceEnv
        (acceptProposal sector42Env scenarioMiner scenarioProposal).2 ⟨"proposal"⟩ = .returns sm1
      ∧ sm1.deals ⟨"proposal"⟩ = some ⟨scenarioProposal,
          ⟨.Failed, "Transfer failed", ⟨"proposal"⟩, none, "signaturrreee"⟩⟩
      ∧ (∀ x, x ≠ ⟨"proposal"⟩ →
          sm1.deals x = (acceptProposal sector42Env scenarioMiner scenarioProposal).2.deals x)
      ∧ sm1.dealsAwaitingSeal
          = (acceptProposal sector42Env scenarioMiner scenarioProposal).2.dealsAwaitingSeal
      ∧ ∀ addPiece, processStorageDeal { missingPieceEnv with AddPiece := addPiece }
          (acceptProposal sector42Env scenarioMiner scenarioProposal).2 ⟨"proposal"⟩
            = .returns sm1 :=
  ((deal_worker_paths missingPieceEnv
    (acceptProposal sector42Env scenarioMiner scenarioProposal).2 ⟨"proposal"⟩
    ⟨scenarioProposal, ⟨.Accepted, "", ⟨"proposal"⟩, none, "signaturrreee"⟩⟩ rfl).2 rfl).1
    "not found" rfl

/-! ## Several deals in one sector, and what the caches hold -/

/-- The orderings of three calls. -/
theorem perm_three {α : Type} (a b c : α) (l : List α) (h : l.Perm [a, b, c]) :
    l = [a, b, c] ∨ l = [b, a, c] ∨ l = [b, c, a] ∨ l = [a, c, b] ∨ l = [c, a, b]
      ∨ l = [c, b, a] := by
  have hmem := List.mem_permutations'.mpr h
  simp [List.permutations', List.permutations'Aux] at hmem
  tauto

/-- C25, as stated, fails: with the success of sector 7 reported first, the
first registration consumes the cached success, and the second deal is put on
the waiting list of sector 7 without any callback. -/
theorem registry_success_first_serves_one_deal :
    [RegistryOp.success sector7, .add 7 ⟨"d1"⟩, .add 7 ⟨"d2"⟩].Perm
      [.add 7 ⟨"d1"⟩, .add 7 ⟨"d2"⟩, .success sector7]
    ∧ (runRegistry [.success sector7, .add 7 ⟨"d1"⟩, .add 7 ⟨"d2"⟩] .empty).2
        = [.onSuccess ⟨"d1"⟩ sector7]
    ∧ (runRegistry [.success sector7, .add 7 ⟨"d1"⟩, .add 7 ⟨"d2"⟩] .empty).1.SectorsToDeals 7
        = some [⟨"d2"⟩]
    ∧ (runRegistry [.success sector7, .add 7 ⟨"d1"⟩, .add 7 ⟨"d2"⟩] .empty).1.SuccessfulSectors 7
        = none := by
  refine ⟨?_, rfl, rfl, rfl⟩
  exact @List.perm_append_comm _ [RegistryOp.success sector7] [.add 7 ⟨"d1"⟩, .add 7 ⟨"d2"⟩]

/-- C25, amended: from the empty registry, for a sector `s`, metadata `m` of
`s` and two distinct deals `d1`, `d2`, every ordering of the calls `add(s, d1)`,
`add(s, d2)`, `success(m)` in which the success is not first invokes
`onSuccess` exactly once for `d1`, exactly once for `d2`, and nothing else, and
leaves no deal waiting for `s`; an ordering with the success first invokes
`onSuccess` for the deal added first only, and leaves the other deal waiting
for `s`. -/
theorem registry_two_deals_one_sector (s : Nat) (m : SealedSectorMetadata) (d1 d2 : Cid)
    (ops : List RegistryOp) (hm : m.SectorID = s) (hne : d1 ≠ d2)
    (hperm : ops.Perm [.add s d1, .add s d2, .success m]) :
    (ops.head? ≠ some (.success m) →
      (runRegistry ops .empty).2.Perm [.onSuccess d1 m, .onSuccess d2 m]
      ∧ (runRegistry ops .empty).2.count (.onSuccess d1 m) = 1
      ∧ (runRegistry ops .empty).2.count (.onSuccess d2 m) = 1
      ∧ (runRegistry ops .empty).1.SectorsToDeals s = none)
    ∧ (ops.head? = some (.success m) →
      ∃ first second, ops = [.success m, .add s first, .add s second]
        ∧ (runRegistry ops .empty).2 = [.onSuccess first m]
        ∧ (runRegistry ops .empty).1.SectorsToDeals s = some [second]) := by
  subst hm
  have hne2 : ¬ d2 = d1 := fun e => hne e.symm
  rcases perm_three _ _ _ ops hperm with h | h | h | h | h | h <;> subst h
  · refine ⟨fun _ => ?_, fun hhead => ?_⟩
    · simp [runRegistry, RegistryOp.apply, dealsAwaitingSealStruct.add,
        dealsAwaitingSealStruct.success, dealsAwaitingSealStruct.empty,
        dealsAwaitingSealStruct.dealsOf, mapSet, mapDelete, List.count_cons, hne, hne2]
    · simp at hhead
  · refine ⟨fun _ => ?_, fun hhead => ?_⟩
    · simp [runRegistry, RegistryOp.apply, dealsAwaitingSealStruct.add,
        dealsAwaitingSealStruct.success, dealsAwaitingSealStruct.empty,
        dealsAwaitingSealStruct.dealsOf, mapSet, mapDelete, List.count_cons, hne, hne2]
      exact List.Perm.swap _ _ _
    · simp at hhead
  · refine ⟨fun _ => ?_, fun hhead => ?_⟩
    · simp [runRegistry, RegistryOp.apply, dealsAwaitingSealStruct.add,
        dealsAwaitingSealStruct.success, dealsAwaitingSealStruct.empty,
        dealsAwaitingSealStruct.dealsOf, mapSet, mapDelete, List.count_cons, hne, hne2]
      exact List.Perm.swap _ _ _
    · simp at hhead
  · refine ⟨fun _ => ?_, fun hhead => ?_⟩
    · simp [runRegistry, RegistryOp.apply, dealsAwaitingSealStruct.add,
        dealsAwaitingSealStruct.success, dealsAwaitingSealStruct.empty,
        dealsAwaitingSealStruct.dealsOf, mapSet, mapDelete, List.count_cons, hne, hne2]
    · simp at hhead
  · refine ⟨fun hhead => absurd rfl hhead, fun _ => ⟨d1, d2, rfl, ?_, ?_⟩⟩ <;>
      simp [runRegistry, RegistryOp.apply, dealsAwaitingSealStruct.add,
        dealsAwaitingSealStruct.success, dealsAwaitingSealStruct.empty,
        dealsAwaitingSealStruct.dealsOf, mapSet, mapDelete]
  · refine ⟨fun hhead => absurd rfl hhead, fun _ => ⟨d2, d1, rfl, ?_, ?_⟩⟩ <;>
      simp [runRegistry, RegistryOp.apply, dealsAwaitingSealStruct.add,
        dealsAwaitingSealStruct.success, dealsAwaitingSealStruct.empty,
        dealsAwaitingSealStruct.dealsOf, mapSet, mapDelete]

/-- Witness of C25, amended: sector 7, the success reported between the two
registrations. -/
theorem registry_two_deals_one_sector_witness :
    (runRegistry [.add 7 ⟨"d1"⟩, .success sector7, .add 7 ⟨"d2"⟩] .empty).2.Perm
      [.onSuccess ⟨"d1"⟩ sector7, .onSuccess ⟨"d2"⟩ sector7]
    ∧ (runRegistry [.add 7 ⟨"d1"⟩, .success sector7, .add 7 ⟨"d2"⟩] .empty).2.count
        (.onSuccess ⟨"d1"⟩ sector7) = 1
    ∧ (runRegistry [.add 7 ⟨"d1"⟩, .success sector7, .add 7 ⟨"d2"⟩] .empty).2.count
        (.onSuccess ⟨"d2"⟩ sector7) = 1
    ∧ (runRegistry [.add 7 ⟨"d1"⟩, .success sector7, .add 7 ⟨"d2"⟩] .empty).1.SectorsToDeals 7
        = none :=
  (registry_two_deals_one_sector 7 sector7 ⟨"d1"⟩ ⟨"d2"⟩
    [.add 7 ⟨"d1"⟩, .success sector7, .add 7 ⟨"d2"⟩] rfl (by decide)
    (List.Perm.cons _ (List.Perm.swap _ _ _))).1 (by simp)

/-- C26, as stated, fails: with a deal registered for sector 7, `success` makes
7 a key of `SuccessfulSectors` and `fail` makes it a key of `FailedSectors`; and
from the empty registry the two orders of `add(7, D)` and `success` end in
different states: the success stays cached when the deal was registered first,
and is consumed when it was reported first. -/
theorem registry_caches_outcome_after_registration :
    (dealsAwaitingSealStruct.empty.add 7 ⟨"D"⟩).1.SectorsToDeals 7 = some [⟨"D"⟩]
    ∧ ((dealsAwaitingSealStruct.empty.add 7 ⟨"D"⟩).1.success sector7).1.SuccessfulSectors 7
        = some sector7
    ∧ ((dealsAwaitingSealStruct.empty.add 7 ⟨"D"⟩).1.fail 7 "sealing failed").1.FailedSectors 7
        = some "sealing failed"
    ∧ (runRegistry [.add 7 ⟨"D"⟩, .success sector7] .empty).1.SuccessfulSectors 7 = some sector7
    ∧ (runRegistry [.success sector7, .add 7 ⟨"D"⟩] .empty).1.SuccessfulSectors 7 = none :=
  ⟨rfl, rfl, rfl, rfl, rfl⟩

/-- C26, amended: `success(m)` always leaves `m` cached in `SuccessfulSectors`
under its sector id, and `fail(s, msg)` always leaves `msg` cached in
`FailedSectors` under `s`, whether or not deals were registered for the sector.
On a registry with no outcome cached for the sector of `m`, the orders
`[add(s, d); success(m)]` and `[success(m); add(s, d)]` invoke the same
callbacks and end with the same `SectorsToDeals`, the same `FailedSectors` and
the same `SuccessfulSectors` except under `s`: the first order ends with `m`
cached, the second with no entry. -/
theorem registry_caches_every_outcome (r : dealsAwaitingSealStruct) (m : SealedSectorMetadata)
    (msg : String) (d : Cid)
    (hs : r.SuccessfulSectors m.SectorID = none) (hf : r.FailedSectors m.SectorID = none) :
    (∀ r1 : dealsAwaitingSealStruct,
      (r1.success m).1.SuccessfulSectors m.SectorID = some m
      ∧ (r1.fail m.SectorID msg).1.FailedSectors m.SectorID = some msg)
    ∧ (runRegistry [.add m.SectorID d, .success m] r).2
        = (runRegistry [.success m, .add m.SectorID d] r).2
    ∧ (runRegistry [.add m.SectorID d, .success m] r).1.SectorsToDeals
        = (runRegistry [.success m, .add m.SectorID d] r).1.SectorsToDeals
    ∧ (runRegistry [.add m.SectorID d, .success m] r).1.SectorsToDeals m.SectorID = none
    ∧ (runRegistry [.add m.SectorID d, .success m] r).1.FailedSectors
        = (runRegistry [.success m, .add m.SectorID d] r).1.FailedSectors
    ∧ (∀ x, x ≠ m.SectorID →
        (runRegistry [.add m.SectorID d, .success m] r).1.SuccessfulSectors x
          = (runRegistry [.success m, .add m.SectorID d] r).1.SuccessfulSectors x)
    ∧ (runRegistry [.add m.SectorID d, .success m] r).1.SuccessfulSectors m.SectorID = some m
    ∧ (runRegistry [.success m, .add m.SectorID d] r).1.SuccessfulSectors m.SectorID = none := by
  refine ⟨fun r1 => ⟨?_, ?_⟩, ?_, ?_, ?_, ?_, ?_, ?_, ?_⟩
  · simp [dealsAwaitingSealStruct.success, mapSet]
  · simp [dealsAwaitingSealStruct.fail, mapSet]
  · cases hl : r.SectorsToDeals m.SectorID <;>
      simp [runRegistry, RegistryOp.apply, dealsAwaitingSealStruct.add,
        dealsAwaitingSealStruct.success, dealsAwaitingSealStruct.dealsOf, mapSet, hs, hf, hl]
  · funext x
    by_cases hx : x = m.SectorID <;> cases hl : r.SectorsToDeals m.SectorID <;>
      simp [runRegistry, RegistryOp.apply, dealsAwaitingSealStruct.add,
        dealsAwaitingSealStruct.success, mapSet, mapDelete, hs, hf, hl, hx]
  · cases hl : r.SectorsToDeals m.SectorID <;>
      simp [runRegistry, RegistryOp.apply, dealsAwaitingSealStruct.add,
        dealsAwaitingSealStruct.success, mapSet, mapDelete, hs, hf, hl]
  · cases hl : r.SectorsToDeals m.SectorID <;>
      simp [runRegistry, RegistryOp.apply, dealsAwaitingSealStruct.add,
        dealsAwaitingSealStruct.success, mapSet, hs, hf, hl]
  · intro x hx
    cases hl : r.SectorsToDeals m.SectorID <;>
      simp [runRegistry, RegistryOp.apply, dealsAwaitingSealStruct.add,
        dealsAwaitingSealStruct.success, mapSet, mapDelete, hs, hf, hl, hx]
  · cases hl : r.SectorsToDeals m.SectorID <;>
      simp [runRegistry, RegistryOp.apply, dealsAwaitingSealStruct.add,
        dealsAwaitingSealStruct.success, mapSet, hs, hf, hl]
  · simp [runRegistry, RegistryOp.apply, dealsAwaitingSealStruct.add,
      dealsAwaitingSealStruct.success, mapSet, mapDelete]

/-- Witness of C26, amended: the empty registry, sector 7. -/
theorem registry_caches_every_outcome_witness :
    (runRegistry [.add 7 ⟨"D"⟩, .success sector7] .empty).2
      = (runRegistry [.success sector7, .add 7 ⟨"D"⟩] .empty).2
    ∧ (runRegistry [.add 7 ⟨"D"⟩, .success sector7] .empty).1.SectorsToDeals
      = (runRegistry [.success sector7, .add 7 ⟨"D"⟩] .empty).1.SectorsToDeals :=
  ⟨(registry_caches_every_outcome .empty sector7 "" ⟨"D"⟩ rfl rfl).2.1,
    (registry_caches_every_outcome .empty sector7 "" ⟨"D"⟩ rfl rfl).2.2.1⟩

/-! ## The engine never updates a deal without a record -/

end Storage
